import Mathlib

/-!
libThinPlateShells: the DOF projector and the shell-model orchestration.

A shallow embedding of `ThinShells/ElasticShellModel.cpp` (with the fields of
`ThinShells/ElasticSetup.h` it reads).

Modelling conventions.

* `double` is modelled by `ℚ` (exact arithmetic); `Eigen::VectorXd` is a `List ℚ`,
  an `N x 3` `Eigen::MatrixXd` is a list of rows `Vec3`.
* `int` indices are `Nat` where the source only ever produces non-negative values
  (loop counters, sizes) and `Int` where a negative value can occur (`dofmap`
  holds `-1`, map keys and triplet indices are arbitrary `int`s). Sizes are
  assumed to fit in an `int`, so no wrap-around is modelled.
* An access outside the bounds of a vector or matrix is undefined behaviour in
  the source; the embedding returns `none` there.
* `std::map<int, double>` is the list of its (key, value) pairs in iteration
  order; `find` is `mapFind`.
-/

namespace ThinShells

/-! ## Projection -/

/-- The class `Projection`: `dofmap` sends a full DOF index to its reduced index
or to `-1`, `invdofmap` lists the full index of every reduced DOF. -/
structure Projection where
  dofmap : List Int
  invdofmap : List Nat
  deriving DecidableEq, Repr

/-- The loop of the constructor `Projection::Projection`. The arguments are the
flags still to visit, the loop counter `i`, the counter `idx`, and the parts of
`dofmap` and `invdofmap` written so far (entry `i` of `dofmap` is written in
iteration `i`, so the resized vector is built front to back). -/
def Projection.ctorLoop : List Bool → Nat → Nat → List Int → List Nat → Projection
  | [], _, _, dm, inv => ⟨dm, inv⟩
  | true :: ks, i, idx, dm, inv => ctorLoop ks (i + 1) (idx + 1) (dm ++ [(idx : Int)]) (inv ++ [i])
  | false :: ks, i, idx, dm, inv => ctorLoop ks (i + 1) idx (dm ++ [-1]) inv

/-- The constructor `Projection::Projection(keepDOFs)`. -/
def Projection.ctor (keepDOFs : List Bool) : Projection :=
  Projection.ctorLoop keepDOFs 0 0 [] []

/-- The accessor `Projection::projDOFs()`: the number of reduced DOFs. -/
def Projection.projDOFs (p : Projection) : Nat := p.invdofmap.length

/-- The loop of `projectVector`: `projVec[i] = fullVec[invdofmap[i]]`. -/
def projectVectorLoop (fullVec : List ℚ) : List Nat → Option (List ℚ)
  | [] => some []
  | j :: js => do
    let v ← fullVec[j]?
    let rest ← projectVectorLoop fullVec js
    pure (v :: rest)

/-- The method `Projection::projectVector`. -/
def Projection.projectVector (p : Projection) (fullVec : List ℚ) : Option (List ℚ) :=
  projectVectorLoop fullVec p.invdofmap

/-- Reading `projVec[d]` for an `int` index `d`. -/
def readAt (projVec : List ℚ) (d : Int) : Option ℚ :=
  if d < 0 then none else projVec[d.toNat]?

/-- The loop of `unprojectVector`:
`fullVec[i] = (dofmap[i] == -1 ? 0.0 : projVec[dofmap[i]])`. -/
def unprojectVectorLoop (projVec : List ℚ) : List Int → Option (List ℚ)
  | [] => some []
  | d :: ds => do
    let v ← if d = -1 then some 0 else readAt projVec d
    let rest ← unprojectVectorLoop projVec ds
    pure (v :: rest)

/-- The method `Projection::unprojectVector`. -/
def Projection.unprojectVector (p : Projection) (projVec : List ℚ) : Option (List ℚ) :=
  unprojectVectorLoop projVec p.dofmap

/-- An `Eigen::Triplet<double>`. -/
structure Triplet where
  row : Int
  col : Int
  value : ℚ
  deriving DecidableEq, Repr

/-- Reading `dofmap[r]` for an `int` index `r`. -/
def dofmapAt (dofmap : List Int) (r : Int) : Option Int :=
  if r < 0 then none else dofmap[r.toNat]?

/-- The body of the loop of `projectMatrix` for one triplet. -/
def projectTriplet (dofmap : List Int) (t : Triplet) : Option Triplet := do
  let pr ← dofmapAt dofmap t.row
  let pc ← dofmapAt dofmap t.col
  if pr ≠ -1 ∧ pc ≠ -1 then pure ⟨pr, pc, t.value⟩ else pure ⟨0, 0, 0⟩

/-- The loop of `projectMatrix`, rewriting `mat[i]` for `i = 0, 1, ...`. -/
def projectMatrixLoop (dofmap : List Int) : List Triplet → Option (List Triplet)
  | [] => some []
  | t :: ts => do
    let t' ← projectTriplet dofmap t
    let rest ← projectMatrixLoop dofmap ts
    pure (t' :: rest)

/-- The method `Projection::projectMatrix`. -/
def Projection.projectMatrix (p : Projection) (mat : List Triplet) : Option (List Triplet) :=
  projectMatrixLoop p.dofmap mat

/-! ## Small vectors and dense containers -/

/-- An `Eigen::Vector3d`, also one row of an `N x 3` matrix. -/
structure Vec3 where
  x : ℚ
  y : ℚ
  z : ℚ
  deriving DecidableEq, Repr

/-- Coefficient `c` of a 3-vector; `none` outside `0..2`. -/
def Vec3.get (v : Vec3) (c : Int) : Option ℚ :=
  if c = 0 then some v.x else if c = 1 then some v.y else if c = 2 then some v.z else none

/-- Writing coefficient `c` of a 3-vector; `none` outside `0..2`. -/
def Vec3.set (v : Vec3) (c : Int) (a : ℚ) : Option Vec3 :=
  if c = 0 then some { v with x := a } else if c = 1 then some { v with y := a }
  else if c = 2 then some { v with z := a } else none

/-- Scalar times vector, `s * v`. -/
def Vec3.smul (s : ℚ) (v : Vec3) : Vec3 := ⟨s * v.x, s * v.y, s * v.z⟩

/-- The sum `a + b`. -/
def Vec3.add (a b : Vec3) : Vec3 := ⟨a.x + b.x, a.y + b.y, a.z + b.z⟩

/-- Unary minus, `-v`. -/
def Vec3.neg (v : Vec3) : Vec3 := ⟨-v.x, -v.y, -v.z⟩

/-- The product `a.dot(b)`. -/
def Vec3.dot (a b : Vec3) : ℚ := a.x * b.x + a.y * b.y + a.z * b.z

/-- Reading `M(vid, coord)` of an `N x 3` matrix. -/
def matGet (M : List Vec3) (vid coord : Int) : Option ℚ :=
  if vid < 0 then none else
    match M[vid.toNat]? with
    | none => none
    | some r => r.get coord

/-- Writing `M(vid, coord) = a` in an `N x 3` matrix. -/
def matSet (M : List Vec3) (vid coord : Int) (a : ℚ) : Option (List Vec3) :=
  if vid < 0 then none else
    match M[vid.toNat]? with
    | none => none
    | some r =>
      match r.set coord a with
      | none => none
      | some r' => some (M.set vid.toNat r')

/-- Reading `M(dof / 3, dof % 3)`, the access pattern of the clamp and point-force
loops (`/` and `%` truncate as in C++). -/
def posAt (M : List Vec3) (dof : Int) : Option ℚ :=
  matGet M (Int.tdiv dof 3) (Int.tmod dof 3)

/-- The block `v.segment(start, n)`; `none` when it leaves the vector. -/
def segment (v : List ℚ) (start n : Nat) : Option (List ℚ) :=
  if start + n ≤ v.length then some ((v.drop start).take n) else none

/-- The block `v.segment(start, 3)` read as a 3-vector. -/
def segment3 (v : List ℚ) (start : Nat) : Option Vec3 := do
  let a ← v[start]?
  let b ← v[start + 1]?
  let c ← v[start + 2]?
  pure ⟨a, b, c⟩

/-- The update `v(i) += a` on a list, leaving a short list unchanged. -/
def addAt : List ℚ → Nat → ℚ → List ℚ
  | [], _, _ => []
  | b :: bs, 0, a => (b + a) :: bs
  | b :: bs, i + 1, a => b :: addAt bs i a

/-- The update `v(i) += a` for an `int` index; `none` outside the vector. -/
def addAtInt (v : List ℚ) (i : Int) (a : ℚ) : Option (List ℚ) :=
  if i < 0 then none else if i.toNat < v.length then some (addAt v i.toNat a) else none

/-- The update `v.segment<3>(start) += w`. -/
def addSegment3 (v : List ℚ) (start : Nat) (w : Vec3) : Option (List ℚ) :=
  if start + 3 ≤ v.length then
    some (addAt (addAt (addAt v start w.x) (start + 1) w.y) (start + 2) w.z)
  else none

/-- The update `a += b` of two dynamic vectors, which must have the same size. -/
def vecAdd (a b : List ℚ) : Option (List ℚ) :=
  if a.length = b.length then some (List.zipWith (· + ·) a b) else none

/-- The update `v.segment(0, n) += w`, where `w` must have size `n`. -/
def addHead (v : List ℚ) (n : Nat) (w : List ℚ) : Option (List ℚ) :=
  if n ≤ v.length ∧ w.length = n then
    some (List.zipWith (· + ·) (v.take n) w ++ v.drop n)
  else none

/-- The lookup `m.find(k)` of a `std::map<int, double>`: the value, or `none` for `end()`. -/
def mapFind : List (Int × ℚ) → Int → Option ℚ
  | [], _ => none
  | (k', v) :: rest, k => if k' = k then some v else mapFind rest k

/-- The invariant of a `std::map`: the keys are strictly increasing. -/
def MapSorted (m : List (Int × ℚ)) : Prop := (m.map Prod.fst).Pairwise (· < ·)

instance (m : List (Int × ℚ)) : Decidable (MapSorted m) :=
  inferInstanceAs (Decidable ((m.map Prod.fst).Pairwise (· < ·)))

/-! ## Configuration, state and the external energy kernels -/

/-- What the core reads of a `MeshConnectivity`: `nEdges()` and `faces()`. -/
structure MeshConnectivity where
  nEdges : Nat
  faces : List (Int × Int × Int)
  deriving DecidableEq, Repr

/-- What the core reads of a `SecondFundamentalFormDiscretization`: `numExtraDOFs()`. -/
structure SecondFundamentalFormDiscretization where
  numExtraDOFs : Nat
  deriving DecidableEq, Repr

/-- An `Eigen::Matrix2d` (a rest fundamental form), row by row. -/
structure Mat2 where
  m00 : ℚ
  m01 : ℚ
  m10 : ℚ
  m11 : ℚ
  deriving DecidableEq, Repr

/-- An `Obstacle`: a static triangle mesh. -/
structure Obstacle where
  V : List Vec3
  F : List (Int × Int × Int)
  deriving DecidableEq, Repr

/-- The fields of `ElasticSetup` used by the shell model. -/
structure ElasticSetup where
  obs : List Obstacle
  clampedDOFs : List (Int × ℚ)
  pointForces : List (Int × ℚ)
  sffType : String
  sff : SecondFundamentalFormDiscretization
  thickness : ℚ
  YoungsModulus : ℚ
  PoissonsRatio : ℚ
  density : ℚ
  penaltyK : ℚ
  pressure : ℚ
  bendingType : String
  strecthingType : String
  maxStepSize : ℚ
  gravity : Vec3
  abars : List Mat2
  bbars : List Mat2
  vertArea : List ℚ
  deriving DecidableEq, Repr

/-- The fields of `ElasticState` used by the shell model. -/
structure ElasticState where
  mesh : MeshConnectivity
  initialGuess : List Vec3
  curPos : List Vec3
  curEdgeDOFs : List ℚ
  deriving DecidableEq, Repr

/-- The three `ElasticShellMaterial` subclasses the model instantiates. -/
inductive Material where
  | NeoHookeanMaterial
  | StVKTensionFieldMaterial
  | StVKMaterial
  deriving DecidableEq, Repr

/-- What a call of an energy kernel leaves behind: the returned energy and the
contents of the gradient and Hessian-triplet buffers it was given. -/
structure TermResult where
  energy : ℚ
  derivative : List ℚ
  hessian : List Triplet
  deriving DecidableEq, Repr

/-- The signature shared by the hinge-type bending kernels: mesh, initial guess,
current positions, Young modulus, Poisson ratio, thickness, `abars`, `sff`, the
gradient buffer (`none` for `NULL`), the triplet buffer (`none` for `NULL`), the
positive-definite-projection flag and the parallel flag. -/
abbrev HingeKernel : Type :=
  MeshConnectivity → List Vec3 → List Vec3 → ℚ → ℚ → ℚ → List Mat2 →
    SecondFundamentalFormDiscretization → Option (List ℚ) → Option (List Triplet) →
    Bool → Bool → TermResult

/-- The energy kernels defined outside `ThinShells/ElasticShellModel.cpp`, taken
as parameters. Each receives its arguments in the order of the source call. -/
structure Kernels where
  elasticStretchingEnergy : MeshConnectivity → List Vec3 → List ℚ → ℚ → ℚ → ℚ → List Mat2 →
    SecondFundamentalFormDiscretization → Material → Option (List ℚ) → Option (List Triplet) →
    Bool → Bool → TermResult
  elasticBendingEnergy : MeshConnectivity → List Vec3 → List ℚ → ℚ → ℚ → ℚ → List Mat2 →
    List Mat2 → SecondFundamentalFormDiscretization → Material → Option (List ℚ) →
    Option (List Triplet) → Bool → Bool → TermResult
  quadraticBendingEnergy : HingeKernel
  cubicShellBendingEnergy : HingeKernel
  corotationalHingeBendingEnergy : HingeKernel
  corotationalCurveHingeBendingEnergy : HingeKernel
  corotationalFlatFvmHingeBendingEnergy : HingeKernel
  corotationalCurveFvmHingeBendingEnergy : HingeKernel
  flatSmoothedHingeBendingEnergy : HingeKernel
  curveSmoothedHingeBendingEnergy : HingeKernel
  pressureEnergy : List (Int × Int × Int) → List Vec3 → ℚ → Option (List ℚ) →
    Option (List Triplet) → Vec3 → Bool → Bool → TermResult
  penaltyForce_VertexFace : List Vec3 → ElasticSetup → Option (List ℚ) →
    Option (List Triplet) → Bool → TermResult

/-- The members of `ElasticShellModel`. -/
structure ElasticShellModel where
  setup : ElasticSetup
  state : ElasticState
  proj : Projection
  lameAlpha : ℚ
  lameBeta : ℚ
  isUsePosHess : Bool
  isParallel : Bool
  deriving DecidableEq, Repr

/-! ## The shell model: projector set-up and state reconstruction -/

/-- The flag vector `keepDOFs` that `setProjM` fills: three flags per vertex, then
`nedgedofs` flags per edge. -/
def keepDOFs (setup : ElasticSetup) (nverts nedges : Nat) : List Bool :=
  (List.range nverts).flatMap (fun (i : Nat) =>
      (List.range 3).map (fun (j : Nat) =>
        (mapFind setup.clampedDOFs (3 * (i : Int) + (j : Int))).isNone))
    ++ (List.range nedges).flatMap (fun (_ : Nat) =>
      (List.range setup.sff.numExtraDOFs).map (fun (_ : Nat) => true))

/-- The method `ElasticShellModel::setProjM`. -/
def ElasticShellModel.setProjM (m : ElasticShellModel) : ElasticShellModel :=
  { m with proj := Projection.ctor (keepDOFs m.setup m.state.curPos.length m.state.mesh.nEdges) }

/-- The full vector `fullX` assembled by `convertCurState2Variables`: the rows of
`curPos` one after the other, then `curEdgeDOFs`, which must fill the last segment. -/
def fullOfState (curState : ElasticState) (extraDOFs : Nat) : Option (List ℚ) :=
  if curState.curEdgeDOFs.length = extraDOFs then
    some (curState.curPos.flatMap (fun r => [r.x, r.y, r.z]) ++ curState.curEdgeDOFs)
  else none

/-- The method `ElasticShellModel::convertCurState2Variables`. -/
def ElasticShellModel.convertCurState2Variables (m : ElasticShellModel)
    (curState : ElasticState) : Option (List ℚ) := do
  let nedges := m.state.mesh.nEdges
  let nedgedofs := m.setup.sff.numExtraDOFs
  let extraDOFs := nedgedofs * nedges
  let fullX ← fullOfState curState extraDOFs
  m.proj.projectVector fullX

/-- The first loop of `convertVariables2CurState`:
`curPos.row(i) = fullx.segment(3 * i, 3)` for `i = 0 .. nverts - 1`. -/
def setRows (fullx : List ℚ) (nverts : Nat) (curPos : List Vec3) : Option (List Vec3) :=
  (List.range nverts).foldlM (fun P i => do
    let r ← segment3 fullx (3 * i)
    pure (P.set i r)) curPos

/-- The second loop of `convertVariables2CurState` (`enforce constrained DOFs`):
`curPos(key / 3, key % 3) = value` for every entry of `clampedDOFs`. -/
def enforceClamped (clampedDOFs : List (Int × ℚ)) (curPos : List Vec3) : Option (List Vec3) :=
  clampedDOFs.foldlM (fun P it => matSet P (Int.tdiv it.1 3) (Int.tmod it.1 3) it.2) curPos

/-- The method `ElasticShellModel::convertVariables2CurState`, returning the
state written to `curState` (which starts as a copy of `_state`). -/
def ElasticShellModel.convertVariables2CurState (m : ElasticShellModel) (x : List ℚ) :
    Option ElasticState := do
  let curState := m.state
  let nverts := curState.curPos.length
  let nedges := m.state.mesh.nEdges
  let nedgedofs := m.setup.sff.numExtraDOFs
  let fullx ← m.proj.unprojectVector x
  let P ← setRows fullx nverts curState.curPos
  let P ← enforceClamped m.setup.clampedDOFs P
  let e ← segment fullx (3 * nverts) (nedgedofs * nedges)
  pure { curState with curPos := P, curEdgeDOFs := e }

/-! ## The shell model: dispatch to the energy kernels -/

/-- The test `std::strcmp(s.c_str(), tag) == 0`: the characters of `s` before its
first NUL are those of `tag`. -/
def strcmpEq (s tag : String) : Bool :=
  s.toList.takeWhile (fun c => c ≠ Char.ofNat 0) = tag.toList

/-- The choice of `mat` from `strecthingType`, made with `std::string` equality. -/
def chooseMaterial (strecthingType : String) : Material :=
  if strecthingType = "NeoHookean" then Material.NeoHookeanMaterial
  else if strecthingType = "tensionField" then Material.StVKTensionFieldMaterial
  else Material.StVKMaterial

/-- The call of the stretching kernel as written in `value`, `gradient` and `hessian`. -/
def stretchingCall (K : Kernels) (m : ElasticShellModel) (mat : Material)
    (derivative : Option (List ℚ)) (hessian : Option (List Triplet)) (isLocalProj : Bool) :
    TermResult :=
  K.elasticStretchingEnergy m.state.mesh m.state.curPos m.state.curEdgeDOFs m.lameAlpha
    m.lameBeta m.setup.thickness m.setup.abars m.setup.sff mat derivative hessian isLocalProj
    m.isParallel

/-- The `if / else if` chain on `bendingType`. When no tag matches no kernel is
called: `bendE` keeps its initial `0` and the buffers keep their contents. -/
def bendingCall (K : Kernels) (m : ElasticShellModel) (mat : Material)
    (derivative : Option (List ℚ)) (hessian : Option (List Triplet)) (isLocalProj : Bool) :
    TermResult :=
  if strcmpEq m.setup.bendingType "midEdgeShell" then
    K.elasticBendingEnergy m.state.mesh m.state.curPos m.state.curEdgeDOFs m.lameAlpha
      m.lameBeta m.setup.thickness m.setup.abars m.setup.bbars m.setup.sff mat
      derivative hessian isLocalProj m.isParallel
  else if strcmpEq m.setup.bendingType "QS" then
    K.quadraticBendingEnergy m.state.mesh m.state.initialGuess m.state.curPos
      m.setup.YoungsModulus m.setup.PoissonsRatio m.setup.thickness m.setup.abars m.setup.sff
      derivative hessian isLocalProj m.isParallel
  else if strcmpEq m.setup.bendingType "CS" then
    K.cubicShellBendingEnergy m.state.mesh m.state.initialGuess m.state.curPos
      m.setup.YoungsModulus m.setup.PoissonsRatio m.setup.thickness m.setup.abars m.setup.sff
      derivative hessian isLocalProj m.isParallel
  else if strcmpEq m.setup.bendingType "EP" then
    K.corotationalHingeBendingEnergy m.state.mesh m.state.initialGuess m.state.curPos
      m.setup.YoungsModulus m.setup.PoissonsRatio m.setup.thickness m.setup.abars m.setup.sff
      derivative hessian isLocalProj m.isParallel
  else if strcmpEq m.setup.bendingType "ES" then
    K.corotationalCurveHingeBendingEnergy m.state.mesh m.state.initialGuess m.state.curPos
      m.setup.YoungsModulus m.setup.PoissonsRatio m.setup.thickness m.setup.abars m.setup.sff
      derivative hessian isLocalProj m.isParallel
  else if strcmpEq m.setup.bendingType "FP" then
    K.corotationalFlatFvmHingeBendingEnergy m.state.mesh m.state.initialGuess m.state.curPos
      m.setup.YoungsModulus m.setup.PoissonsRatio m.setup.thickness m.setup.abars m.setup.sff
      derivative hessian isLocalProj m.isParallel
  else if strcmpEq m.setup.bendingType "FS" then
    K.corotationalCurveFvmHingeBendingEnergy m.state.mesh m.state.initialGuess m.state.curPos
      m.setup.YoungsModulus m.setup.PoissonsRatio m.setup.thickness m.setup.abars m.setup.sff
      derivative hessian isLocalProj m.isParallel
  else if strcmpEq m.setup.bendingType "SP" then
    K.flatSmoothedHingeBendingEnergy m.state.mesh m.state.initialGuess m.state.curPos
      m.setup.YoungsModulus m.setup.PoissonsRatio m.setup.thickness m.setup.abars m.setup.sff
      derivative hessian isLocalProj m.isParallel
  else if strcmpEq m.setup.bendingType "SS" then
    K.curveSmoothedHingeBendingEnergy m.state.mesh m.state.initialGuess m.state.curPos
      m.setup.YoungsModulus m.setup.PoissonsRatio m.setup.thickness m.setup.abars m.setup.sff
      derivative hessian isLocalProj m.isParallel
  else ⟨0, derivative.getD [], hessian.getD []⟩

/-- The call of the pressure kernel; its flag argument is the literal `false`. -/
def pressureCall (K : Kernels) (m : ElasticShellModel)
    (derivative : Option (List ℚ)) (hessian : Option (List Triplet)) : TermResult :=
  K.pressureEnergy m.state.mesh.faces m.state.curPos m.setup.pressure derivative hessian
    ⟨0, 0, 0⟩ false m.isParallel

/-- The call of the contact-penalty kernel. -/
def penaltyCall (K : Kernels) (m : ElasticShellModel)
    (derivative : Option (List ℚ)) (hessian : Option (List Triplet)) (isLocalProj : Bool) :
    TermResult :=
  K.penaltyForce_VertexFace m.state.curPos m.setup derivative hessian isLocalProj

/-! ## The shell model: gravity and point forces -/

/-- The vector `mg = vertArea[i] * thickness * density * gravity` of the gravity loops. -/
def gravityForce (setup : ElasticSetup) (i : Nat) : Option Vec3 := do
  let a ← setup.vertArea[i]?
  pure (Vec3.smul (a * setup.thickness * setup.density) setup.gravity)

/-- The gravity loop of `value` and `hessian`:
`gravityPotential += -mg.dot(pos)` for `i = 0 .. nverts - 1`. -/
def gravityPotential (setup : ElasticSetup) (curPos : List Vec3) (nverts : Nat) : Option ℚ :=
  (List.range nverts).foldlM (fun acc i => do
    let pos ← curPos[i]?
    let mg ← gravityForce setup i
    pure (acc + -(mg.dot pos))) 0

/-- The gravity loop of `gradient`, which also does `grad.segment<3>(3 * i) += -mg`.
The state of the loop is the pair (`gravityPotential`, `grad`). -/
def gravityGradient (setup : ElasticSetup) (curPos : List Vec3) (nverts : Nat)
    (grad : List ℚ) : Option (ℚ × List ℚ) :=
  (List.range nverts).foldlM (fun acc i => do
    let pos ← curPos[i]?
    let mg ← gravityForce setup i
    let g ← addSegment3 acc.2 (3 * i) mg.neg
    pure (acc.1 + -(mg.dot pos), g)) (0, grad)

/-- The point-force loop of `value` and `hessian`:
`pointForceE += -forceValue * curPos(dofID / 3, dofID % 3)`. -/
def pointForceEnergy (pointForces : List (Int × ℚ)) (curPos : List Vec3) : Option ℚ :=
  pointForces.foldlM (fun acc pair => do
    let coordValue ← matGet curPos (Int.tdiv pair.1 3) (Int.tmod pair.1 3)
    pure (acc + -pair.2 * coordValue)) 0

/-- The point-force loop of `gradient`, which also does `grad(dofID) += -forceValue`. -/
def pointForceGradient (pointForces : List (Int × ℚ)) (curPos : List Vec3)
    (grad : List ℚ) : Option (ℚ × List ℚ) :=
  pointForces.foldlM (fun acc pair => do
    let coordValue ← matGet curPos (Int.tdiv pair.1 3) (Int.tmod pair.1 3)
    let g ← addAtInt acc.2 pair.1 (-pair.2)
    pure (acc.1 + -pair.2 * coordValue, g)) (0, grad)

/-! ## The shell model: value, gradient, Hessian -/

/-- The method `ElasticShellModel::value`: the returned energy and the model it
leaves behind (`_state` is overwritten by the reconstruction from `x`). -/
def ElasticShellModel.value (K : Kernels) (m : ElasticShellModel) (x : List ℚ) :
    Option (ℚ × ElasticShellModel) := do
  let nverts := m.state.curPos.length
  let st ← m.convertVariables2CurState x
  let m := { m with state := st }
  let mat := chooseMaterial m.setup.strecthingType
  let energy := (stretchingCall K m mat none none false).energy
  let bendE := (bendingCall K m mat none none false).energy
  let energy := energy + bendE
  let energy :=
    if m.setup.pressure > 0 then energy + (pressureCall K m none none).energy else energy
  let gravityPotential ← gravityPotential m.setup m.state.curPos nverts
  let energy := energy + gravityPotential
  let pointForceE ← pointForceEnergy m.setup.pointForces m.state.curPos
  let energy := energy + pointForceE
  let energy :=
    if m.setup.penaltyK > 0 then energy + (penaltyCall K m none none false).energy else energy
  pure (energy, m)

/-- The pressure block of `gradient`: when `pressure > 0` the kernel fills the
fresh vector `pressuredE`, which is added to `grad.segment(0, 3 * nverts)`. -/
def pressureGradientBlock (K : Kernels) (m : ElasticShellModel) (nverts : Nat)
    (grad : List ℚ) : Option (List ℚ) :=
  if m.setup.pressure > 0 then
    addHead grad (3 * nverts) (pressureCall K m (some []) none).derivative
  else some grad

/-- The penalty block of `gradient`: when `penaltyK > 0` the kernel fills the
fresh vector `penaltydE`, which is added to `grad.segment(0, 3 * nverts)`. -/
def penaltyGradientBlock (K : Kernels) (m : ElasticShellModel) (nverts : Nat)
    (grad : List ℚ) : Option (List ℚ) :=
  if m.setup.penaltyK > 0 then
    addHead grad (3 * nverts) (penaltyCall K m (some []) none false).derivative
  else some grad

/-- The full-space gradient that `gradient` has accumulated in `grad` just before
the final projection; `grad` is the content of the caller's buffer on entry. -/
def ElasticShellModel.fullGradient (K : Kernels) (m : ElasticShellModel) (nverts : Nat)
    (grad : List ℚ) : Option (List ℚ) := do
  let mat := chooseMaterial m.setup.strecthingType
  let grad := (stretchingCall K m mat (some grad) none false).derivative
  let gradB := List.replicate grad.length (0 : ℚ)
  let gradB := (bendingCall K m mat (some gradB) none false).derivative
  let grad ← vecAdd grad gradB
  let grad ← pressureGradientBlock K m nverts grad
  let gravity ← gravityGradient m.setup m.state.curPos nverts grad
  let pointForce ← pointForceGradient m.setup.pointForces m.state.curPos gravity.2
  penaltyGradientBlock K m nverts pointForce.2

/-- The method `ElasticShellModel::gradient`: the final content of `grad` and the
model it leaves behind. -/
def ElasticShellModel.gradient (K : Kernels) (m : ElasticShellModel) (x : List ℚ)
    (grad : List ℚ) : Option (List ℚ × ElasticShellModel) := do
  let nverts := m.state.curPos.length
  let st ← m.convertVariables2CurState x
  let m := { m with state := st }
  let grad ← m.fullGradient K nverts grad
  let projgrad ← m.proj.projectVector grad
  pure (projgrad, m)

/-- An `Eigen::SparseMatrix<double>` after `resize` and `setFromTriplets`: its
dimensions and the triplets whose values are summed entry by entry. -/
structure SparseMatrix where
  rows : Nat
  cols : Nat
  triplets : List Triplet
  deriving DecidableEq, Repr

/-- The sum of the values of the triplets of `ts` located at `(r, c)`. -/
def sumAt (ts : List Triplet) (r c : Int) : ℚ :=
  ((ts.filter (fun t => t.row = r ∧ t.col = c)).map Triplet.value).sum

/-- A triplet lies inside a `rows x cols` matrix. -/
def Triplet.inRange (t : Triplet) (rows cols : Nat) : Prop :=
  0 ≤ t.row ∧ t.row < rows ∧ 0 ≤ t.col ∧ t.col < cols

instance (t : Triplet) (rows cols : Nat) : Decidable (t.inRange rows cols) :=
  inferInstanceAs (Decidable (0 ≤ t.row ∧ t.row < rows ∧ 0 ≤ t.col ∧ t.col < cols))

/-- The calls `A.resize(rows, cols); A.setFromTriplets(...)`: every triplet has
to lie inside the matrix. -/
def setFromTriplets (rows cols : Nat) (ts : List Triplet) : Option SparseMatrix :=
  if ∀ t ∈ ts, t.inRange rows cols then some ⟨rows, cols, ts⟩ else none

/-- The full-space triplet list `hessianT` that `hessian` has assembled just
before `projectMatrix`. The gravity and point-force blocks only compute their
energies. -/
def ElasticShellModel.fullHessianT (K : Kernels) (m : ElasticShellModel) (nverts : Nat) :
    Option (List Triplet) := do
  let mat := chooseMaterial m.setup.strecthingType
  let hessianT := (stretchingCall K m mat none (some []) m.isUsePosHess).hessian
  let bendingHcoeffs := (bendingCall K m mat none (some []) m.isUsePosHess).hessian
  let hessianT := hessianT ++ bendingHcoeffs
  let hessianT :=
    if m.setup.pressure > 0 then hessianT ++ (pressureCall K m none (some [])).hessian
    else hessianT
  let _ ← gravityPotential m.setup m.state.curPos nverts
  let _ ← pointForceEnergy m.setup.pointForces m.state.curPos
  let hessianT :=
    if m.setup.penaltyK > 0 then
      hessianT ++ (penaltyCall K m none (some []) m.isUsePosHess).hessian
    else hessianT
  pure hessianT

/-- The method `ElasticShellModel::hessian`: the matrix written to `hessian` and
the model it leaves behind. -/
def ElasticShellModel.hessian (K : Kernels) (m : ElasticShellModel) (x : List ℚ) :
    Option (SparseMatrix × ElasticShellModel) := do
  let st ← m.convertVariables2CurState x
  let m := { m with state := st }
  let nverts := m.state.curPos.length
  let hessianT ← m.fullHessianT K nverts
  let hessianT ← m.proj.projectMatrix hessianT
  let H ← setFromTriplets m.proj.projDOFs m.proj.projDOFs hessianT
  pure (H, m)

/-- The full-space triplet list `hessianT` that `exterHessian` has assembled just
before `projectMatrix`: the pressure and the penalty triplets, when enabled. The
gravity and point-force blocks only compute their energies. -/
def ElasticShellModel.exterHessianT (K : Kernels) (m : ElasticShellModel) (nverts : Nat) :
    Option (List Triplet) := do
  let hessianT : List Triplet := []
  let hessianT :=
    if m.setup.pressure > 0 then hessianT ++ (pressureCall K m none (some [])).hessian
    else hessianT
  let _ ← gravityPotential m.setup m.state.curPos nverts
  let _ ← pointForceEnergy m.setup.pointForces m.state.curPos
  let hessianT :=
    if m.setup.penaltyK > 0 then
      hessianT ++ (penaltyCall K m none (some []) m.isUsePosHess).hessian
    else hessianT
  pure hessianT

/-- The method `ElasticShellModel::exterHessian`: the returned matrix and the model
it leaves behind. -/
def ElasticShellModel.exterHessian (K : Kernels) (m : ElasticShellModel) (x : List ℚ) :
    Option (SparseMatrix × ElasticShellModel) := do
  let st ← m.convertVariables2CurState x
  let m := { m with state := st }
  let nverts := m.state.curPos.length
  let hessianT ← m.exterHessianT K nverts
  let hessianT ← m.proj.projectMatrix hessianT
  let H ← setFromTriplets m.proj.projDOFs m.proj.projDOFs hessianT
  pure (H, m)

/-! ## The shell model: initialization and the sub-energies -/

/-- The method `ElasticShellModel::initialization`: the returned flag and the model
it leaves behind, starting from the model `m`. The argument `filePrefix` and the
members `_filePrefix` and `_isC2` are left out: no modelled method reads them. -/
def ElasticShellModel.initialization (m : ElasticShellModel) (setup : ElasticSetup)
    (initialGuess : ElasticState) (posHess isParallel : Bool) : Bool × ElasticShellModel :=
  let m1 : ElasticShellModel :=
    { m with
      setup := setup
      state := initialGuess
      lameAlpha := setup.YoungsModulus * setup.PoissonsRatio
        / (1 - setup.PoissonsRatio * setup.PoissonsRatio)
      lameBeta := setup.YoungsModulus / 2 / (1 + setup.PoissonsRatio)
      isUsePosHess := posHess
      isParallel := isParallel }
  if m1.state.curEdgeDOFs.length ≠ m1.setup.sff.numExtraDOFs * m1.state.mesh.nEdges then
    (false, m1)
  else
    (true, m1.setProjM)

/-- The method `ElasticShellModel::stretchingValue`. -/
def ElasticShellModel.stretchingValue (K : Kernels) (m : ElasticShellModel) (x : List ℚ) :
    Option (ℚ × ElasticShellModel) := do
  let st ← m.convertVariables2CurState x
  let m := { m with state := st }
  let mat := chooseMaterial m.setup.strecthingType
  pure ((stretchingCall K m mat none none false).energy, m)

/-- The method `ElasticShellModel::bendingValue`. Its body never reads `x`: there
is no call of `convertVariables2CurState`. -/
def ElasticShellModel.bendingValue (K : Kernels) (m : ElasticShellModel) (_x : List ℚ) :
    Option (ℚ × ElasticShellModel) :=
  let mat := chooseMaterial m.setup.strecthingType
  let bendE := (bendingCall K m mat none none false).energy
  pure (0 + bendE, m)

/-- The method `ElasticShellModel::penaltyValue`. Its body never reads `x`. -/
def ElasticShellModel.penaltyValue (K : Kernels) (m : ElasticShellModel) (_x : List ℚ) :
    Option (ℚ × ElasticShellModel) :=
  if m.setup.penaltyK > 0 then
    pure ((penaltyCall K m none none false).energy, m)
  else
    pure (0, m)

/-! ## The step limiter -/

/-- A `BoundingBox`: the corners `mins` and `maxs`. -/
structure BoundingBox where
  mins : Vec3
  maxs : Vec3
  deriving DecidableEq, Repr

/-- The collision routines defined outside `ThinShells/ElasticShellModel.cpp`, taken
as parameters: the type of a bounding-volume hierarchy, `buildAABB` (a null
pointer is `none`), `AABB::intersect` (the face indices it appends to `hits`)
and `CTCD::vertexFaceCTCD` (its return value and the content of `t` after the
call; the last two arguments are `eta` and the content of `t` before the call). -/
structure CollisionKernels where
  AABB : Type
  buildAABB : List Vec3 → List Vec3 → List (Int × Int × Int) → ℚ → Option AABB
  intersect : AABB → BoundingBox → List Int
  vertexFaceCTCD : Vec3 → Vec3 → Vec3 → Vec3 → Vec3 → Vec3 → Vec3 → Vec3 → ℚ → ℚ → Bool × ℚ

/-- Row `i` of an `N x 3` matrix, for an `int` index. -/
def rowAt (M : List Vec3) (i : Int) : Option Vec3 :=
  if i < 0 then none else M[i.toNat]?

/-- Row `face` of the face matrix `F` of an obstacle. -/
def faceAt (F : List (Int × Int × Int)) (face : Int) : Option (Int × Int × Int) :=
  if face < 0 then none else F[face.toNat]?

/-- The box `sweptLine` spanned by the start and end position of a vertex. -/
def sweptLine (s e : Vec3) : BoundingBox :=
  ⟨⟨min s.x e.x, min s.y e.y, min s.z e.z⟩, ⟨max s.x e.x, max s.y e.y, max s.z e.z⟩⟩

/-- One continuous collision test of `getMaxStep`: the vertex moving from
`q0start` to `q0end` against the static face `face` of the obstacle, with
`eta = 1e-5` and `t = 1` on entry. The result is `local_collision` and `t`. -/
def faceTest (C : CollisionKernels) (ob : Obstacle) (q0start q0end : Vec3) (face : Int) :
    Option (Bool × ℚ) := do
  let obs_face ← faceAt ob.F face
  let q1start ← rowAt ob.V obs_face.1
  let q2start ← rowAt ob.V obs_face.2.1
  let q3start ← rowAt ob.V obs_face.2.2
  let q1end ← rowAt ob.V obs_face.1
  let q2end ← rowAt ob.V obs_face.2.1
  let q3end ← rowAt ob.V obs_face.2.2
  pure (C.vertexFaceCTCD q0start q1start q2start q3start q0end q1end q2end q3end
    (1 / 100000) 1)

/-- The update `if (local_collision && (t < scale)) { isCollision = true; scale = t; }`
of the pair (`scale`, `isCollision`). -/
def trackStep (acc : ℚ × Bool) (r : Bool × ℚ) : ℚ × Bool :=
  if r.1 = true ∧ r.2 < acc.1 then (r.2, true) else acc

/-- The body of the loop over `hits`. -/
def faceStep (C : CollisionKernels) (ob : Obstacle) (q0start q0end : Vec3) (acc : ℚ × Bool)
    (face : Int) : Option (ℚ × Bool) := do
  let r ← faceTest C ob q0start q0end face
  pure (trackStep acc r)

/-- The body of the loop over the obstacles: an obstacle without a hierarchy is
skipped, otherwise the faces returned by `intersect` are tested in turn. -/
def obstacleStep (C : CollisionKernels) (obs : List Obstacle) (AABBs : List (Option C.AABB))
    (q0start q0end : Vec3) (acc : ℚ × Bool) (j : Nat) : Option (ℚ × Bool) := do
  let a ← AABBs[j]?
  match a with
  | none => pure acc
  | some aabb => do
    let ob ← obs[j]?
    (C.intersect aabb (sweptLine q0start q0end)).foldlM (faceStep C ob q0start q0end) acc

/-- The body of the loop over the vertices. -/
def vertexStep (C : CollisionKernels) (obs : List Obstacle) (AABBs : List (Option C.AABB))
    (startV updatedV : List Vec3) (acc : ℚ × Bool) (i : Nat) : Option (ℚ × Bool) := do
  let q0start ← startV[i]?
  let q0end ← updatedV[i]?
  (List.range obs.length).foldlM (obstacleStep C obs AABBs q0start q0end) acc

/-- The hierarchies `AABBs` that `getMaxStep` builds, one per obstacle. -/
def buildAABBs (C : CollisionKernels) (obs : List Obstacle) : List (Option C.AABB) :=
  obs.map (fun (ob : Obstacle) => C.buildAABB ob.V ob.V ob.F 0)

/-- The three nested loops of `getMaxStep`, from `scale = 1`, `isCollision = false`. -/
def collisionScan (C : CollisionKernels) (obs : List Obstacle) (startV updatedV : List Vec3) :
    Option (ℚ × Bool) :=
  (List.range startV.length).foldlM (vertexStep C obs (buildAABBs C obs) startV updatedV)
    (1, false)

/-- The method `ElasticShellModel::getMaxStep`: the returned scale and the model it
leaves behind; the start and end states are locals. -/
def ElasticShellModel.getMaxStep (C : CollisionKernels) (m : ElasticShellModel)
    (x dir : List ℚ) (step : ℚ) : Option (ℚ × ElasticShellModel) :=
  if m.setup.penaltyK > 0 then do
    let start := x
    let updated ← vecAdd start (dir.map (fun (d : ℚ) => d * step))
    let startState ← m.convertVariables2CurState start
    let updatedState ← m.convertVariables2CurState updated
    let r ← collisionScan C m.setup.obs startState.curPos updatedState.curPos
    if r.2 = true then pure (r.1 * step * (95 / 100), m) else pure (r.1 * step, m)
  else
    pure (if m.setup.maxStepSize > 0 then m.setup.maxStepSize else 1, m)

/-- A time of impact `t` is reported by a colliding test of the scan: some vertex
`i`, some obstacle `j` with a hierarchy and some face returned by `intersect`
for the swept box of the vertex give `local_collision = true` and `t`. -/
def Reported (C : CollisionKernels) (obs : List Obstacle) (startV updatedV : List Vec3)
    (t : ℚ) : Prop :=
  ∃ (i j : Nat) (s e : Vec3) (aabb : C.AABB) (ob : Obstacle) (face : Int),
    startV[i]? = some s ∧ updatedV[i]? = some e
      ∧ (buildAABBs C obs)[j]? = some (some aabb) ∧ obs[j]? = some ob
      ∧ face ∈ C.intersect aabb (sweptLine s e)
      ∧ faceTest C ob s e face = some (true, t)

/-- Every candidate face the scan meets is a face of its obstacle whose three
vertex indices are rows of the obstacle's vertex matrix. -/
def CandidatesValid (C : CollisionKernels) (obs : List Obstacle) (startV updatedV : List Vec3) :
    Prop :=
  ∀ (i j : Nat) (s e : Vec3) (aabb : C.AABB) (ob : Obstacle) (face : Int),
    startV[i]? = some s → updatedV[i]? = some e →
      (buildAABBs C obs)[j]? = some (some aabb) → obs[j]? = some ob →
      face ∈ C.intersect aabb (sweptLine s e) →
      ∃ r, faceTest C ob s e face = some r

/-- A time of impact reported by `getMaxStep` on `x`, `dir`, `step`. -/
def ElasticShellModel.ReportedAt (C : CollisionKernels) (m : ElasticShellModel)
    (x dir : List ℚ) (step t : ℚ) : Prop :=
  ∃ (updated : List ℚ) (startState updatedState : ElasticState),
    vecAdd x (dir.map (fun (d : ℚ) => d * step)) = some updated
      ∧ m.convertVariables2CurState x = some startState
      ∧ m.convertVariables2CurState updated = some updatedState
      ∧ Reported C m.setup.obs startState.curPos updatedState.curPos t

/-- The pair (`scale`, `isCollision`) went from `a0` to `aF` by tracking the times
of impact with property `P`: `aF.1` is below every such time that is below
`a0.1`, and either nothing changed or `aF.1` is such a time below `a0.1` and the
flag is set. -/
def Tracks (P : ℚ → Prop) (a0 aF : ℚ × Bool) : Prop :=
  (∀ t, P t → t < a0.1 → aF.1 ≤ t) ∧ (aF = a0 ∨ (P aF.1 ∧ aF.2 = true ∧ aF.1 < a0.1))

/-- The value a state holds at a full DOF index: a position coordinate below
`3 * nverts`, an entry of `curEdgeDOFs` from there on. -/
def ElasticState.dofValue (st : ElasticState) (dof : Int) : Option ℚ :=
  if dof < 3 * (st.curPos.length : Int) then posAt st.curPos dof
  else st.curEdgeDOFs[(dof - 3 * (st.curPos.length : Int)).toNat]?

/-- The invariant of a model whose projector was built by `setProjM` for the
dimensions of its state, and whose clamped map is a `std::map` (strictly
increasing keys) of position DOF indices. -/
structure ElasticShellModel.WellFormed (m : ElasticShellModel) : Prop where
  proj_eq : m.proj
    = Projection.ctor (keepDOFs m.setup m.state.curPos.length m.state.mesh.nEdges)
  clamped_sorted : MapSorted m.setup.clampedDOFs
  clamped_range : ∀ kv ∈ m.setup.clampedDOFs,
    0 ≤ kv.1 ∧ kv.1 < 3 * (m.state.curPos.length : Int)

/-- The inputs of `getMaxStep` fit the model: the model is well formed, `x` has
`projDOFs` entries, `dir` has the size of `x`, and the candidate faces are valid. -/
structure ElasticShellModel.StepInputsValid (C : CollisionKernels) (m : ElasticShellModel)
    (x dir : List ℚ) (step : ℚ) : Prop where
  wellFormed : m.WellFormed
  x_length : x.length = m.proj.projDOFs
  dir_length : dir.length = x.length
  candidates : ∀ (updated : List ℚ) (startState updatedState : ElasticState),
    vecAdd x (dir.map (fun (d : ℚ) => d * step)) = some updated →
    m.convertVariables2CurState x = some startState →
    m.convertVariables2CurState updated = some updatedState →
    CandidatesValid C m.setup.obs startState.curPos updatedState.curPos

/-- The loads of a model can be evaluated: there is a lumped area for every
vertex and every point-force key is a position DOF index. -/
structure ElasticShellModel.LoadsWellFormed (m : ElasticShellModel) : Prop where
  vertArea_length : m.state.curPos.length ≤ m.setup.vertArea.length
  pointForces_range : ∀ kv ∈ m.setup.pointForces,
    0 ≤ kv.1 ∧ kv.1 < 3 * (m.state.curPos.length : Int)

/-- The number of full DOFs of a model, `3 * nverts + nedgedofs * nedges`. -/
def ElasticShellModel.fullDOFs (m : ElasticShellModel) : Nat :=
  3 * m.state.curPos.length + m.setup.sff.numExtraDOFs * m.state.mesh.nEdges

/-- The kernels fill the gradient buffers of `gradient` with vectors of the sizes
the Eigen operations of `gradient` need: full size for stretching and bending,
`3 * nverts` for pressure and penalty. -/
structure GradientSized (K : Kernels) (m : ElasticShellModel) (grad : List ℚ) : Prop where
  stretching : (stretchingCall K m (chooseMaterial m.setup.strecthingType) (some grad) none
    false).derivative.length = m.fullDOFs
  bending : (bendingCall K m (chooseMaterial m.setup.strecthingType)
    (some (List.replicate m.fullDOFs 0)) none false).derivative.length = m.fullDOFs
  pressure : 0 < m.setup.pressure →
    (pressureCall K m (some []) none).derivative.length = 3 * m.state.curPos.length
  penalty : 0 < m.setup.penaltyK →
    (penaltyCall K m (some []) none false).derivative.length = 3 * m.state.curPos.length

/-- The triplets the kernels produce for `hessian` index full DOFs. -/
def HessianInRange (K : Kernels) (m : ElasticShellModel) : Prop :=
  ∀ T, m.fullHessianT K m.state.curPos.length = some T →
    ∀ t ∈ T, t.inRange m.fullDOFs m.fullDOFs

/-! ## The formulas of the specification -/

/-- Coordinate `c` (0, 1, 2) of a 3-vector. -/
def Vec3.coord (v : Vec3) (c : Nat) : ℚ :=
  if c = 0 then v.x else if c = 1 then v.y else v.z

/-- The weight `vertArea[i] * thickness * density * gravity` of vertex `i`. -/
def vertexWeight (setup : ElasticSetup) (i : Nat) : Vec3 :=
  Vec3.smul (setup.vertArea.getD i 0 * setup.thickness * setup.density) setup.gravity

/-- The gravity potential as the specification writes it: the sum over the
vertices `i` of `-(vertArea[i] * thickness * density * gravity) . position[i]`. -/
def gravityPotentialSpec (setup : ElasticSetup) (curPos : List Vec3) : ℚ :=
  ((List.range curPos.length).map (fun (i : Nat) =>
    -((vertexWeight setup i).dot (curPos.getD i ⟨0, 0, 0⟩)))).sum

/-- The point-force potential as the specification writes it: the sum over the
configured (DOF, force) pairs of `-force * value-at-that-DOF`. -/
def pointForcePotentialSpec (pointForces : List (Int × ℚ)) (st : ElasticState) : ℚ :=
  (pointForces.map (fun (p : Int × ℚ) => -p.2 * (st.dofValue p.1).getD 0)).sum

/-- The point-force gradient as the specification writes it: `-force` at the DOF
of every configured (DOF, force) pair, so at full index `j` the sum of `-force`
over the pairs configured at `j`. -/
def pointForceGradientSpec (pointForces : List (Int × ℚ)) (j : Nat) : ℚ :=
  ((pointForces.filter (fun (p : Int × ℚ) => p.1 = (j : Int))).map
    (fun (p : Int × ℚ) => -p.2)).sum

/-- Entry `j` of the full-space gradient as the specification writes it: the sum
of the stretching, bending, gravity and point-force gradients, plus the
pressure and penalty gradients on the first `3 * nverts` entries when enabled.
The term gradients are what the kernels leave in their buffers. -/
def fullGradientSpec (K : Kernels) (m : ElasticShellModel) (grad : List ℚ) (j : Nat) : ℚ :=
  (stretchingCall K m (chooseMaterial m.setup.strecthingType) (some grad) none
      false).derivative.getD j 0
    + (bendingCall K m (chooseMaterial m.setup.strecthingType)
      (some (List.replicate m.fullDOFs 0)) none false).derivative.getD j 0
    + (if j < 3 * m.state.curPos.length then
        (vertexWeight m.setup (j / 3)).neg.coord (j % 3) else 0)
    + pointForceGradientSpec m.setup.pointForces j
    + (if 0 < m.setup.pressure ∧ j < 3 * m.state.curPos.length then
        (pressureCall K m (some []) none).derivative.getD j 0 else 0)
    + (if 0 < m.setup.penaltyK ∧ j < 3 * m.state.curPos.length then
        (penaltyCall K m (some []) none false).derivative.getD j 0 else 0)

/-- The full-space triplet list as the specification writes it: the stretching
and bending triplets, then the pressure and penalty triplets when enabled. -/
def fullHessianSpec (K : Kernels) (m : ElasticShellModel) : List Triplet :=
  (stretchingCall K m (chooseMaterial m.setup.strecthingType) none (some [])
      m.isUsePosHess).hessian
    ++ (bendingCall K m (chooseMaterial m.setup.strecthingType) none (some [])
      m.isUsePosHess).hessian
    ++ (if 0 < m.setup.pressure then (pressureCall K m none (some [])).hessian else [])
    ++ (if 0 < m.setup.penaltyK then
        (penaltyCall K m none (some []) m.isUsePosHess).hessian else [])

/-- The kernels `K` made deaf to the flag they are handed: the stretching, bending
and penalty kernels run as those of `K` do on the flag `elastic`, the pressure
kernel as that of `K` does on the flag `pressure`. An entry point gives the same
result on `K` and on `K.withFlags elastic pressure` for every `K` exactly when
these are the flags it hands to the terms it evaluates. -/
def Kernels.withFlags (K : Kernels) (elastic pressure : Bool) : Kernels where
  elasticStretchingEnergy := fun mesh curPos edgeDOFs la lb h abars sff mat d H _ par =>
    K.elasticStretchingEnergy mesh curPos edgeDOFs la lb h abars sff mat d H elastic par
  elasticBendingEnergy := fun mesh curPos edgeDOFs la lb h abars bbars sff mat d H _ par =>
    K.elasticBendingEnergy mesh curPos edgeDOFs la lb h abars bbars sff mat d H elastic par
  quadraticBendingEnergy := fun mesh guess curPos Y nu h abars sff d H _ par =>
    K.quadraticBendingEnergy mesh guess curPos Y nu h abars sff d H elastic par
  cubicShellBendingEnergy := fun mesh guess curPos Y nu h abars sff d H _ par =>
    K.cubicShellBendingEnergy mesh guess curPos Y nu h abars sff d H elastic par
  corotationalHingeBendingEnergy := fun mesh guess curPos Y nu h abars sff d H _ par =>
    K.corotationalHingeBendingEnergy mesh guess curPos Y nu h abars sff d H elastic par
  corotationalCurveHingeBendingEnergy := fun mesh guess curPos Y nu h abars sff d H _ par =>
    K.corotationalCurveHingeBendingEnergy mesh guess curPos Y nu h abars sff d H elastic par
  corotationalFlatFvmHingeBendingEnergy := fun mesh guess curPos Y nu h abars sff d H _ par =>
    K.corotationalFlatFvmHingeBendingEnergy mesh guess curPos Y nu h abars sff d H elastic par
  corotationalCurveFvmHingeBendingEnergy := fun mesh guess curPos Y nu h abars sff d H _ par =>
    K.corotationalCurveFvmHingeBendingEnergy mesh guess curPos Y nu h abars sff d H elastic par
  flatSmoothedHingeBendingEnergy := fun mesh guess curPos Y nu h abars sff d H _ par =>
    K.flatSmoothedHingeBendingEnergy mesh guess curPos Y nu h abars sff d H elastic par
  curveSmoothedHingeBendingEnergy := fun mesh guess curPos Y nu h abars sff d H _ par =>
    K.curveSmoothedHingeBendingEnergy mesh guess curPos Y nu h abars sff d H elastic par
  pressureEnergy := fun faces curPos p d H c _ par =>
    K.pressureEnergy faces curPos p d H c pressure par
  penaltyForce_VertexFace := fun curPos setup d H _ =>
    K.penaltyForce_VertexFace curPos setup d H elastic

/-- The characters of a `std::string` that `c_str()` shows to `std::strcmp`: those
before its first NUL. For a string without NUL this is the string itself. -/
def cString (s : String) : String :=
  ⟨s.toList.takeWhile (fun c => c ≠ Char.ofNat 0)⟩

/-- The nine bending formulations that a recognised tag selects. -/
inductive BendingFormulation where
  | midEdgeShell
  | QS
  | CS
  | EP
  | ES
  | FP
  | FS
  | SP
  | SS
  deriving DecidableEq, Repr

/-- The table of the recognised bending tags as the specification lists them;
`none` for any other tag. -/
def bendingFormulationOf (tag : String) : Option BendingFormulation :=
  if tag = "midEdgeShell" then some BendingFormulation.midEdgeShell
  else if tag = "QS" then some BendingFormulation.QS
  else if tag = "CS" then some BendingFormulation.CS
  else if tag = "EP" then some BendingFormulation.EP
  else if tag = "ES" then some BendingFormulation.ES
  else if tag = "FP" then some BendingFormulation.FP
  else if tag = "FS" then some BendingFormulation.FS
  else if tag = "SP" then some BendingFormulation.SP
  else if tag = "SS" then some BendingFormulation.SS
  else none

/-- The kernel of a bending formulation on the current state of the model. -/
def formulationCall (K : Kernels) (m : ElasticShellModel) (mat : Material)
    (f : BendingFormulation) (derivative : Option (List ℚ)) (hessian : Option (List Triplet))
    (isLocalProj : Bool) : TermResult :=
  match f with
  | BendingFormulation.midEdgeShell =>
    K.elasticBendingEnergy m.state.mesh m.state.curPos m.state.curEdgeDOFs m.lameAlpha
      m.lameBeta m.setup.thickness m.setup.abars m.setup.bbars m.setup.sff mat
      derivative hessian isLocalProj m.isParallel
  | BendingFormulation.QS =>
    K.quadraticBendingEnergy m.state.mesh m.state.initialGuess m.state.curPos
      m.setup.YoungsModulus m.setup.PoissonsRatio m.setup.thickness m.setup.abars m.setup.sff
      derivative hessian isLocalProj m.isParallel
  | BendingFormulation.CS =>
    K.cubicShellBendingEnergy m.state.mesh m.state.initialGuess m.state.curPos
      m.setup.YoungsModulus m.setup.PoissonsRatio m.setup.thickness m.setup.abars m.setup.sff
      derivative hessian isLocalProj m.isParallel
  | BendingFormulation.EP =>
    K.corotationalHingeBendingEnergy m.state.mesh m.state.initialGuess m.state.curPos
      m.setup.YoungsModulus m.setup.PoissonsRatio m.setup.thickness m.setup.abars m.setup.sff
      derivative hessian isLocalProj m.isParallel
  | BendingFormulation.ES =>
    K.corotationalCurveHingeBendingEnergy m.state.mesh m.state.initialGuess m.state.curPos
      m.setup.YoungsModulus m.setup.PoissonsRatio m.setup.thickness m.setup.abars m.setup.sff
      derivative hessian isLocalProj m.isParallel
  | BendingFormulation.FP =>
    K.corotationalFlatFvmHingeBendingEnergy m.state.mesh m.state.initialGuess m.state.curPos
      m.setup.YoungsModulus m.setup.PoissonsRatio m.setup.thickness m.setup.abars m.setup.sff
      derivative hessian isLocalProj m.isParallel
  | BendingFormulation.FS =>
    K.corotationalCurveFvmHingeBendingEnergy m.state.mesh m.state.initialGuess m.state.curPos
      m.setup.YoungsModulus m.setup.PoissonsRatio m.setup.thickness m.setup.abars m.setup.sff
      derivative hessian isLocalProj m.isParallel
  | BendingFormulation.SP =>
    K.flatSmoothedHingeBendingEnergy m.state.mesh m.state.initialGuess m.state.curPos
      m.setup.YoungsModulus m.setup.PoissonsRatio m.setup.thickness m.setup.abars m.setup.sff
      derivative hessian isLocalProj m.isParallel
  | BendingFormulation.SS =>
    K.curveSmoothedHingeBendingEnergy m.state.mesh m.state.initialGuess m.state.curPos
      m.setup.YoungsModulus m.setup.PoissonsRatio m.setup.thickness m.setup.abars m.setup.sff
      derivative hessian isLocalProj m.isParallel

/-- The bending term as the specification describes it: the kernel of the
selected formulation, or no contribution at all when no formulation is
selected (zero energy, the gradient and triplet buffers left as they are). -/
def bendingSpec (K : Kernels) (m : ElasticShellModel) (mat : Material)
    (f : Option BendingFormulation) (derivative : Option (List ℚ))
    (hessian : Option (List Triplet)) (isLocalProj : Bool) : TermResult :=
  match f with
  | some f => formulationCall K m mat f derivative hessian isLocalProj
  | none => ⟨0, derivative.getD [], hessian.getD []⟩

/-- A hinge-type kernel that contributes nothing: zero energy, buffers left as
they are. -/
def nullHingeKernel : HingeKernel :=
  fun _ _ _ _ _ _ _ _ d H _ _ => ⟨0, d.getD [], H.getD []⟩

/-- The kernels `K` pinned to one material and one bending formulation: the two
kernels that take a material run as those of `K` do on `mat`, whatever material
they are handed, and every bending kernel but that of `f` contributes nothing.
An entry point that gives the same result on `K` and on `K.pinned mat f` for
every `K` can only have evaluated the material `mat` and the formulation `f`. -/
def Kernels.pinned (K : Kernels) (mat : Material) (f : Option BendingFormulation) : Kernels :=
  { K with
    elasticStretchingEnergy := fun mesh curPos edgeDOFs la lb h abars sff _ d H flag par =>
      K.elasticStretchingEnergy mesh curPos edgeDOFs la lb h abars sff mat d H flag par
    elasticBendingEnergy := fun mesh curPos edgeDOFs la lb h abars bbars sff _ d H flag par =>
      if f = some BendingFormulation.midEdgeShell then
        K.elasticBendingEnergy mesh curPos edgeDOFs la lb h abars bbars sff mat d H flag par
      else ⟨0, d.getD [], H.getD []⟩
    quadraticBendingEnergy :=
      if f = some BendingFormulation.QS then K.quadraticBendingEnergy else nullHingeKernel
    cubicShellBendingEnergy :=
      if f = some BendingFormulation.CS then K.cubicShellBendingEnergy else nullHingeKernel
    corotationalHingeBendingEnergy :=
      if f = some BendingFormulation.EP then K.corotationalHingeBendingEnergy
      else nullHingeKernel
    corotationalCurveHingeBendingEnergy :=
      if f = some BendingFormulation.ES then K.corotationalCurveHingeBendingEnergy
      else nullHingeKernel
    corotationalFlatFvmHingeBendingEnergy :=
      if f = some BendingFormulation.FP then K.corotationalFlatFvmHingeBendingEnergy
      else nullHingeKernel
    corotationalCurveFvmHingeBendingEnergy :=
      if f = some BendingFormulation.FS then K.corotationalCurveFvmHingeBendingEnergy
      else nullHingeKernel
    flatSmoothedHingeBendingEnergy :=
      if f = some BendingFormulation.SP then K.flatSmoothedHingeBendingEnergy
      else nullHingeKernel
    curveSmoothedHingeBendingEnergy :=
      if f = some BendingFormulation.SS then K.curveSmoothedHingeBendingEnergy
      else nullHingeKernel }

/-- The dot product `a.dot(b)` of two dynamic vectors. -/
def vecDot (a b : List ℚ) : ℚ := (List.zipWith (· * ·) a b).sum

/-- The model after the reconstruction of its state from `x`. -/
def ElasticShellModel.reconstructed (m : ElasticShellModel) (x : List ℚ) : ElasticShellModel :=
  match m.convertVariables2CurState x with
  | some st => { m with state := st }
  | none => m

/-- The energy the kernels contribute to `value` at the current state of the
model: stretching, bending, and pressure and penalty when enabled. -/
def kernelEnergy (K : Kernels) (m : ElasticShellModel) : ℚ :=
  (stretchingCall K m (chooseMaterial m.setup.strecthingType) none none false).energy
    + (bendingCall K m (chooseMaterial m.setup.strecthingType) none none false).energy
    + (if 0 < m.setup.pressure then (pressureCall K m none none).energy else 0)
    + (if 0 < m.setup.penaltyK then (penaltyCall K m none none false).energy else 0)

/-- Entry `j` of the full-space gradient the kernels contribute to `gradient` at
the current state of the model. -/
def kernelGradient (K : Kernels) (m : ElasticShellModel) (grad : List ℚ) (j : Nat) : ℚ :=
  (stretchingCall K m (chooseMaterial m.setup.strecthingType) (some grad) none
      false).derivative.getD j 0
    + (bendingCall K m (chooseMaterial m.setup.strecthingType)
      (some (List.replicate m.fullDOFs 0)) none false).derivative.getD j 0
    + (if 0 < m.setup.pressure ∧ j < 3 * m.state.curPos.length then
        (pressureCall K m (some []) none).derivative.getD j 0 else 0)
    + (if 0 < m.setup.penaltyK ∧ j < 3 * m.state.curPos.length then
        (penaltyCall K m (some []) none false).derivative.getD j 0 else 0)

/-- Entry `j` of the full-space gradient of the gravity and point-force terms. -/
def loadGradient (setup : ElasticSetup) (nverts : Nat) (j : Nat) : ℚ :=
  (if j < 3 * nverts then (vertexWeight setup (j / 3)).neg.coord (j % 3) else 0)
    + pointForceGradientSpec setup.pointForces j

/-! ## Example kernels -/

/-- Kernels that return zero energy, a zero gradient of the expected size and no
triplet; used to instantiate the theorems. -/
def zeroKernels : Kernels where
  elasticStretchingEnergy := fun _ curPos curEdgeDOFs _ _ _ _ _ _ _ _ _ _ =>
    ⟨0, List.replicate (3 * curPos.length + curEdgeDOFs.length) 0, []⟩
  elasticBendingEnergy := fun _ curPos curEdgeDOFs _ _ _ _ _ _ _ _ _ _ _ =>
    ⟨0, List.replicate (3 * curPos.length + curEdgeDOFs.length) 0, []⟩
  quadraticBendingEnergy := fun _ _ _ _ _ _ _ _ g _ _ _ => ⟨0, g.getD [], []⟩
  cubicShellBendingEnergy := fun _ _ _ _ _ _ _ _ g _ _ _ => ⟨0, g.getD [], []⟩
  corotationalHingeBendingEnergy := fun _ _ _ _ _ _ _ _ g _ _ _ => ⟨0, g.getD [], []⟩
  corotationalCurveHingeBendingEnergy := fun _ _ _ _ _ _ _ _ g _ _ _ => ⟨0, g.getD [], []⟩
  corotationalFlatFvmHingeBendingEnergy := fun _ _ _ _ _ _ _ _ g _ _ _ => ⟨0, g.getD [], []⟩
  corotationalCurveFvmHingeBendingEnergy := fun _ _ _ _ _ _ _ _ g _ _ _ => ⟨0, g.getD [], []⟩
  flatSmoothedHingeBendingEnergy := fun _ _ _ _ _ _ _ _ g _ _ _ => ⟨0, g.getD [], []⟩
  curveSmoothedHingeBendingEnergy := fun _ _ _ _ _ _ _ _ g _ _ _ => ⟨0, g.getD [], []⟩
  pressureEnergy := fun _ curPos _ _ _ _ _ _ => ⟨0, List.replicate (3 * curPos.length) 0, []⟩
  penaltyForce_VertexFace := fun curPos _ _ _ _ => ⟨0, List.replicate (3 * curPos.length) 0, []⟩

/-- An example configuration: two vertices, one edge with one extra DOF, the
y-coordinate of vertex 0 clamped to 5, a point force on the z-coordinate of
vertex 0, unit thickness and density, and gravity `(0, 0, -9.8)`. -/
def exampleSetup : ElasticSetup where
  obs := []
  clampedDOFs := [(1, 5)]
  pointForces := [(2, 3)]
  sffType := "midedgeTan"
  sff := ⟨1⟩
  thickness := 1
  YoungsModulus := 1
  PoissonsRatio := 0
  density := 1
  penaltyK := 0
  pressure := 0
  bendingType := "QS"
  strecthingType := "NeoHookean"
  maxStepSize := 1
  gravity := ⟨0, 0, -98 / 10⟩
  abars := []
  bbars := []
  vertArea := [2, 4]

/-- An example state for `exampleSetup`. -/
def exampleState : ElasticState where
  mesh := ⟨1, []⟩
  initialGuess := [⟨0, 0, 0⟩, ⟨1, 0, 0⟩]
  curPos := [⟨0, 0, 0⟩, ⟨1, 0, 0⟩]
  curEdgeDOFs := [0]

/-- The example model, its projector built by `setProjM`. -/
def exampleModel : ElasticShellModel :=
  ElasticShellModel.setProjM ⟨exampleSetup, exampleState, ⟨[], []⟩, 1, 1, false, false⟩

/-- The example model with the clamped map holding the key 6 instead, the full
index of the extra DOF of the edge (`3 * nverts + 0`). -/
def edgeClampedModel : ElasticShellModel :=
  ElasticShellModel.setProjM
    ⟨{ exampleSetup with clampedDOFs := [(6, 5)] }, exampleState, ⟨[], []⟩, 1, 1, false, false⟩

/-- The example model with every position DOF clamped and no extra edge DOF, and
the reduced vector being empty. -/
def allClampedModel : ElasticShellModel :=
  ElasticShellModel.setProjM
    ⟨{ exampleSetup with
        clampedDOFs := [(0, 0), (1, 0), (2, 0), (3, 1), (4, 0), (5, 0)], sff := ⟨0⟩ },
      { exampleState with curEdgeDOFs := [] }, ⟨[], []⟩, 1, 1, false, false⟩

/-- Kernels like `zeroKernels`, except that stretching deposits the single
triplet `(0, 0, 1)`. -/
def oneTripletKernels : Kernels :=
  { zeroKernels with
    elasticStretchingEnergy := fun _ curPos curEdgeDOFs _ _ _ _ _ _ _ _ _ _ =>
      ⟨0, List.replicate (3 * curPos.length + curEdgeDOFs.length) 0, [⟨0, 0, 1⟩]⟩ }

/-- The example model after reconstruction from `x = (10, 30, 40, 50, 60, 70)`. -/
def exampleReconstructed : ElasticShellModel :=
  { exampleModel with
    state := ⟨⟨1, []⟩, [⟨0, 0, 0⟩, ⟨1, 0, 0⟩], [⟨10, 5, 30⟩, ⟨40, 50, 60⟩], [70]⟩ }

/-- The example model with the point-force map holding the key 6 instead, the
full index of the extra DOF of the edge. -/
def edgeForceModel : ElasticShellModel :=
  ElasticShellModel.setProjM
    ⟨{ exampleSetup with pointForces := [(6, 3)] }, exampleState, ⟨[], []⟩, 1, 1, false, false⟩

/-- A model with contact: one vertex at `(0, 0, 1)`, no edge, no clamped DOF,
penalty stiffness 1 and one obstacle, the triangle `(0,0,0)`, `(1,0,0)`, `(0,1,0)`. -/
def contactModel : ElasticShellModel :=
  ElasticShellModel.setProjM
    ⟨{ exampleSetup with
        clampedDOFs := [], pointForces := [], penaltyK := 1, sff := ⟨0⟩, vertArea := [2],
        obs := [⟨[⟨0, 0, 0⟩, ⟨1, 0, 0⟩, ⟨0, 1, 0⟩], [(0, 1, 2)]⟩] },
      ⟨⟨0, []⟩, [⟨0, 0, 1⟩], [⟨0, 0, 1⟩], []⟩, ⟨[], []⟩, 1, 1, false, false⟩

/-- Collision routines for the examples: an obstacle has a hierarchy unless it has
no face, `intersect` always returns face 0, and every test reports a collision
at the time of impact `toi`. -/
def hitKernels (toi : ℚ) : CollisionKernels where
  AABB := Unit
  buildAABB := fun _ _ F _ => if F = [] then none else some ()
  intersect := fun _ _ => [0]
  vertexFaceCTCD := fun _ _ _ _ _ _ _ _ _ _ => (true, toi)

/-- The contact model with an obstacle without any face before and after its
triangle. -/
def degenerateModel : ElasticShellModel :=
  { contactModel with
    setup := { contactModel.setup with
      obs := [⟨[], []⟩, ⟨[⟨0, 0, 0⟩, ⟨1, 0, 0⟩, ⟨0, 1, 0⟩], [(0, 1, 2)]⟩, ⟨[⟨0, 0, 0⟩], []⟩] } }

/-- The example model with penalty stiffness 1. -/
def probeModel : ElasticShellModel :=
  ElasticShellModel.setProjM
    ⟨{ exampleSetup with penaltyK := 1 }, exampleState, ⟨[], []⟩, 1, 1, false, false⟩

/-- Kernels like `zeroKernels`, except that the quadratic bending energy and the
penalty energy are the x-coordinate of vertex 0 of the positions they are given. -/
def probeKernels : Kernels :=
  { zeroKernels with
    quadraticBendingEnergy := fun _ _ curPos _ _ _ _ _ g _ _ _ =>
      ⟨(curPos.getD 0 ⟨0, 0, 0⟩).x, g.getD [], []⟩
    penaltyForce_VertexFace := fun curPos _ _ _ _ =>
      ⟨(curPos.getD 0 ⟨0, 0, 0⟩).x, List.replicate (3 * curPos.length) 0, []⟩ }

/-! ## Closed forms used in the proofs -/

/-- Row `i` of the position matrix as read from a full vector. -/
def rowOf (fullx : List ℚ) (i : Nat) : Vec3 :=
  ⟨fullx.getD (3 * i) 0, fullx.getD (3 * i + 1) 0, fullx.getD (3 * i + 2) 0⟩



/-- The entries of `dofmap` written for the flags `ks`, the next reduced index being `idx`. -/
def dofmapOf : List Bool → Nat → List Int
  | [], _ => []
  | true :: ks, idx => (idx : Int) :: dofmapOf ks (idx + 1)
  | false :: ks, idx => -1 :: dofmapOf ks idx

/-- The entries of `invdofmap` pushed for the flags `ks`, the loop counter being `i`. -/
def invdofmapOf : List Bool → Nat → List Nat
  | [], _ => []
  | true :: ks, i => i :: invdofmapOf ks (i + 1)
  | false :: ks, i => invdofmapOf ks (i + 1)

/-- The entries of `vs` whose flag is set. -/
def selectFree : List Bool → List ℚ → List ℚ
  | true :: ks, v :: vs => v :: selectFree ks vs
  | false :: ks, _ :: vs => selectFree ks vs
  | _, _ => []

/-- The vector `vs` with the entries whose flag is not set replaced by `0`. -/
def zeroClamped : List Bool → List ℚ → List ℚ
  | true :: ks, v :: vs => v :: zeroClamped ks vs
  | false :: ks, _ :: vs => 0 :: zeroClamped ks vs
  | _, _ => []

/-- The body of the loop over the obstacles, as a function of the obstacle
itself instead of its index. -/
def obstacleBody (C : CollisionKernels) (q0start q0end : Vec3) (acc : ℚ × Bool)
    (ob : Obstacle) : Option (ℚ × Bool) :=
  match C.buildAABB ob.V ob.V ob.F 0 with
  | none => pure acc
  | some aabb =>
    (C.intersect aabb (sweptLine q0start q0end)).foldlM (faceStep C ob q0start q0end) acc

/-- The full vector made from the flags `ks` and the reduced entries `xs`: the
next reduced entry at a free index, `0` at a clamped one. -/
def expandFree : List Bool → List ℚ → List ℚ
  | [], _ => []
  | true :: ks, x :: xs => x :: expandFree ks xs
  | true :: ks, [] => 0 :: expandFree ks []
  | false :: ks, xs => 0 :: expandFree ks xs

/-! # Theorems -/

/-! ## The projector -/

theorem ctorLoop_eq (ks : List Bool) : ∀ (i idx : Nat) (dm : List Int) (inv : List Nat),
    Projection.ctorLoop ks i idx dm inv = ⟨dm ++ dofmapOf ks idx, inv ++ invdofmapOf ks i⟩ := by
  induction ks with
  | nil => intro i idx dm inv; simp [Projection.ctorLoop, dofmapOf, invdofmapOf]
  | cons k ks ih =>
    intro i idx dm inv
    cases k <;> simp [Projection.ctorLoop, dofmapOf, invdofmapOf, ih]

theorem ctor_dofmap (ks : List Bool) : (Projection.ctor ks).dofmap = dofmapOf ks 0 := by
  simp [Projection.ctor, ctorLoop_eq]

theorem ctor_invdofmap (ks : List Bool) : (Projection.ctor ks).invdofmap = invdofmapOf ks 0 := by
  simp [Projection.ctor, ctorLoop_eq]

theorem getElem?_append_cons_self {α : Type} (pre : List α) (v : α) (vs : List α) :
    (pre ++ v :: vs)[pre.length]? = some v := by
  rw [List.getElem?_append_right (le_refl _)]; simp

theorem projectVectorLoop_invdofmapOf (ks : List Bool) :
    ∀ (pre vs : List ℚ), vs.length = ks.length →
      projectVectorLoop (pre ++ vs) (invdofmapOf ks pre.length) = some (selectFree ks vs) := by
  induction ks with
  | nil => intro pre vs h; simp [invdofmapOf, projectVectorLoop, selectFree]
  | cons k ks ih =>
    intro pre vs h
    cases vs with
    | nil => simp at h
    | cons v vs =>
      have h' : vs.length = ks.length := by simpa using h
      have key := ih (pre ++ [v]) vs h'
      simp only [List.append_assoc, List.singleton_append, List.length_append,
        List.length_singleton] at key
      cases k
      · simp [invdofmapOf, selectFree, key]
      · simp only [invdofmapOf, selectFree, projectVectorLoop, key,
          getElem?_append_cons_self]
        rfl

theorem unprojectVectorLoop_dofmapOf (ks : List Bool) :
    ∀ (pre vs : List ℚ), vs.length = ks.length →
      unprojectVectorLoop (pre ++ selectFree ks vs) (dofmapOf ks pre.length)
        = some (zeroClamped ks vs) := by
  induction ks with
  | nil => intro pre vs h; simp [dofmapOf, unprojectVectorLoop, zeroClamped]
  | cons k ks ih =>
    intro pre vs h
    cases vs with
    | nil => simp at h
    | cons v vs =>
      have h' : vs.length = ks.length := by simpa using h
      cases k
      · simp [dofmapOf, selectFree, zeroClamped, unprojectVectorLoop, ih pre vs h']
      · have key := ih (pre ++ [v]) vs h'
        simp only [List.append_assoc, List.singleton_append, List.length_append,
          List.length_singleton] at key
        have hne : ((pre.length : Nat) : Int) ≠ -1 := by omega
        have hnn : ¬ ((pre.length : Nat) : Int) < 0 := by omega
        simp only [dofmapOf, selectFree, zeroClamped, unprojectVectorLoop, key, hne, readAt,
          hnn, if_false, Int.toNat_ofNat, getElem?_append_cons_self]
        rfl

theorem zeroClamped_length (ks : List Bool) : ∀ (vs : List ℚ), vs.length = ks.length →
    (zeroClamped ks vs).length = vs.length := by
  induction ks with
  | nil => intro vs h; cases vs <;> simp_all [zeroClamped]
  | cons k ks ih =>
    intro vs h
    cases vs with
    | nil => simp at h
    | cons v vs => cases k <;> simp [zeroClamped, ih vs (by simpa using h)]

theorem zeroClamped_getElem? (ks : List Bool) : ∀ (vs : List ℚ) (i : Nat),
    vs.length = ks.length → i < ks.length →
    (zeroClamped ks vs)[i]? = if ks[i]? = some true then vs[i]? else some 0 := by
  induction ks with
  | nil => intro vs i h hi; simp at hi
  | cons k ks ih =>
    intro vs i h hi
    cases vs with
    | nil => simp at h
    | cons v vs =>
      have h' : vs.length = ks.length := by simpa using h
      cases i with
      | zero => cases k <;> simp [zeroClamped]
      | succ i =>
        have hi' : i < ks.length := by simpa using hi
        cases k <;> simp [zeroClamped, ih vs i h' hi']


theorem invdofmapOf_mem (ks : List Bool) : ∀ (i j : Nat),
    j ∈ invdofmapOf ks i ↔ i ≤ j ∧ ks[j - i]? = some true := by
  induction ks with
  | nil => intro i j; simp [invdofmapOf]
  | cons k ks ih =>
    intro i j
    cases k
    · simp only [invdofmapOf, ih]
      constructor
      · rintro ⟨h1, h2⟩
        refine ⟨by omega, ?_⟩
        have : j - i = (j - (i + 1)) + 1 := by omega
        rw [this]; simpa using h2
      · rintro ⟨h1, h2⟩
        rcases Nat.eq_or_lt_of_le h1 with h | h
        · subst h; simp at h2
        · have : j - i = (j - (i + 1)) + 1 := by omega
          rw [this] at h2
          exact ⟨by omega, by simpa using h2⟩
    · simp only [invdofmapOf, List.mem_cons, ih]
      constructor
      · rintro (h | ⟨h1, h2⟩)
        · subst h; simp
        · refine ⟨by omega, ?_⟩
          have : j - i = (j - (i + 1)) + 1 := by omega
          rw [this]; simpa using h2
      · rintro ⟨h1, h2⟩
        rcases Nat.eq_or_lt_of_le h1 with h | h
        · left; exact h.symm
        · right
          have : j - i = (j - (i + 1)) + 1 := by omega
          rw [this] at h2
          exact ⟨by omega, by simpa using h2⟩

theorem invdofmapOf_sorted (ks : List Bool) : ∀ (i : Nat),
    (invdofmapOf ks i).Pairwise (· < ·) := by
  induction ks with
  | nil => intro i; simp [invdofmapOf]
  | cons k ks ih =>
    intro i
    cases k
    · simpa [invdofmapOf] using ih (i + 1)
    · simp only [invdofmapOf, List.pairwise_cons]
      refine ⟨?_, ih (i + 1)⟩
      intro j hj
      have := (invdofmapOf_mem ks (i + 1) j).1 hj
      omega

theorem dofmapOf_length (ks : List Bool) : ∀ (idx : Nat), (dofmapOf ks idx).length = ks.length := by
  induction ks with
  | nil => intro idx; simp [dofmapOf]
  | cons k ks ih => intro idx; cases k <;> simp [dofmapOf, ih]

theorem dofmapOf_clamped (ks : List Bool) : ∀ (idx j : Nat), ks[j]? = some false →
    (dofmapOf ks idx)[j]? = some (-1) := by
  induction ks with
  | nil => intro idx j h; simp at h
  | cons k ks ih =>
    intro idx j h
    cases j with
    | zero => simp at h; subst h; simp [dofmapOf]
    | succ j =>
      have h' : ks[j]? = some false := by simpa using h
      cases k <;> simp [dofmapOf, ih _ j h']

theorem dofmapOf_invdofmapOf (ks : List Bool) : ∀ (i idx k j : Nat),
    (invdofmapOf ks i)[k]? = some j →
      i ≤ j ∧ (dofmapOf ks idx)[j - i]? = some ((idx + k : Nat) : Int) := by
  induction ks with
  | nil => intro i idx k j h; simp [invdofmapOf] at h
  | cons b ks ih =>
    intro i idx k j h
    cases b
    · simp only [invdofmapOf] at h
      obtain ⟨h1, h2⟩ := ih (i + 1) idx k j h
      refine ⟨by omega, ?_⟩
      have : j - i = (j - (i + 1)) + 1 := by omega
      rw [this]; simpa [dofmapOf] using h2
    · cases k with
      | zero =>
        simp only [invdofmapOf, List.getElem?_cons_zero, Option.some.injEq] at h
        subst h; simp [dofmapOf]
      | succ k =>
        simp only [invdofmapOf, List.getElem?_cons_succ] at h
        obtain ⟨h1, h2⟩ := ih (i + 1) (idx + 1) k j h
        refine ⟨by omega, ?_⟩
        have : j - i = (j - (i + 1)) + 1 := by omega
        rw [this]
        have e : idx + 1 + k = idx + (k + 1) := by omega
        rw [e] at h2
        simpa [dofmapOf] using h2

theorem invdofmapOf_dofmapOf (ks : List Bool) : ∀ (i idx j : Nat), ks[j]? = some true →
    ∃ k : Nat, (dofmapOf ks idx)[j]? = some ((idx + k : Nat) : Int)
      ∧ (invdofmapOf ks i)[k]? = some (i + j) := by
  induction ks with
  | nil => intro i idx j h; simp at h
  | cons b ks ih =>
    intro i idx j h
    cases j with
    | zero =>
      simp at h; subst h
      exact ⟨0, by simp [dofmapOf], by simp [invdofmapOf]⟩
    | succ j =>
      have h' : ks[j]? = some true := by simpa using h
      cases b
      · obtain ⟨k, h1, h2⟩ := ih (i + 1) idx j h'
        refine ⟨k, by simpa [dofmapOf] using h1, ?_⟩
        have e : i + 1 + j = i + (j + 1) := by omega
        rw [e] at h2
        simpa [invdofmapOf] using h2
      · obtain ⟨k, h1, h2⟩ := ih (i + 1) (idx + 1) j h'
        refine ⟨k + 1, ?_, ?_⟩
        · have e : idx + 1 + k = idx + (k + 1) := by omega
          rw [e] at h1
          simpa [dofmapOf] using h1
        · have e : i + 1 + j = i + (j + 1) := by omega
          rw [e] at h2
          simpa [invdofmapOf] using h2

theorem invdofmapOf_length (ks : List Bool) : ∀ (i : Nat),
    (invdofmapOf ks i).length = ks.count true := by
  induction ks with
  | nil => intro i; simp [invdofmapOf]
  | cons k ks ih => intro i; cases k <;> simp [invdofmapOf, ih]

theorem selectFree_length (ks : List Bool) : ∀ (vs : List ℚ), vs.length = ks.length →
    (selectFree ks vs).length = ks.count true := by
  induction ks with
  | nil => intro vs h; cases vs <;> simp_all [selectFree]
  | cons k ks ih =>
    intro vs h
    cases vs with
    | nil => simp at h
    | cons v vs => cases k <;> simp [selectFree, ih vs (by simpa using h)]

/-- C1. Projection round-trip: for a full vector `v` with one entry per flag,
`unprojectVector (projectVector v)` is defined, has the length of `v`, agrees
with `v` at every free index and holds `0` at every clamped index. -/
theorem projection_round_trip (keepDOFs : List Bool) (v : List ℚ)
    (hlen : v.length = keepDOFs.length) :
    ∃ pv w, (Projection.ctor keepDOFs).projectVector v = some pv
      ∧ (Projection.ctor keepDOFs).unprojectVector pv = some w
      ∧ w.length = v.length
      ∧ (∀ i : Nat, keepDOFs[i]? = some true → w[i]? = v[i]?)
      ∧ (∀ i : Nat, keepDOFs[i]? = some false → w[i]? = some 0) := by
  refine ⟨selectFree keepDOFs v, zeroClamped keepDOFs v, ?_, ?_, zeroClamped_length _ _ hlen, ?_, ?_⟩
  · simpa [Projection.projectVector, ctor_invdofmap] using
      projectVectorLoop_invdofmapOf keepDOFs [] v hlen
  · simpa [Projection.unprojectVector, ctor_dofmap] using
      unprojectVectorLoop_dofmapOf keepDOFs [] v hlen
  · intro i hi
    have hlt : i < keepDOFs.length := by
      by_contra hc
      rw [List.getElem?_eq_none (by omega)] at hi
      exact absurd hi (by simp)
    rw [zeroClamped_getElem? keepDOFs v i hlen hlt, if_pos hi]
  · intro i hi
    have hlt : i < keepDOFs.length := by
      by_contra hc
      rw [List.getElem?_eq_none (by omega)] at hi
      exact absurd hi (by simp)
    rw [zeroClamped_getElem? keepDOFs v i hlen hlt, if_neg (by rw [hi]; simp)]

/-- A concrete instance of the round-trip: five DOFs, two of them clamped. -/
theorem projection_round_trip_witness :
    ∃ pv w, (Projection.ctor [true, false, true, true, false]).projectVector [10, 20, 30, 40, 50]
        = some pv
      ∧ (Projection.ctor [true, false, true, true, false]).unprojectVector pv = some w
      ∧ w.length = ([10, 20, 30, 40, 50] : List ℚ).length
      ∧ (∀ i : Nat, [true, false, true, true, false][i]? = some true
          → w[i]? = ([10, 20, 30, 40, 50] : List ℚ)[i]?)
      ∧ (∀ i : Nat, [true, false, true, true, false][i]? = some false → w[i]? = some 0) :=
  projection_round_trip [true, false, true, true, false] [10, 20, 30, 40, 50] rfl

/-- C2. Projection bijectivity: `invdofmap` lists the free indices in strictly
increasing order (hence each once), `dofmap` has one entry per flag, holds `-1`
at clamped indices and is inverse to `invdofmap` on the free indices, and a
projected vector has as many entries as there are free DOFs. -/
theorem projection_bijective (keepDOFs : List Bool) :
    (Projection.ctor keepDOFs).invdofmap.Pairwise (· < ·)
      ∧ (∀ i : Nat, i ∈ (Projection.ctor keepDOFs).invdofmap ↔ keepDOFs[i]? = some true)
      ∧ (Projection.ctor keepDOFs).dofmap.length = keepDOFs.length
      ∧ (Projection.ctor keepDOFs).projDOFs = keepDOFs.count true
      ∧ (∀ i : Nat, keepDOFs[i]? = some false → (Projection.ctor keepDOFs).dofmap[i]? = some (-1))
      ∧ (∀ k j : Nat, (Projection.ctor keepDOFs).invdofmap[k]? = some j
          → (Projection.ctor keepDOFs).dofmap[j]? = some (k : Int))
      ∧ (∀ i : Nat, keepDOFs[i]? = some true → ∃ k : Nat,
          (Projection.ctor keepDOFs).dofmap[i]? = some (k : Int)
            ∧ (Projection.ctor keepDOFs).invdofmap[k]? = some i)
      ∧ (∀ v : List ℚ, v.length = keepDOFs.length → ∃ pv,
          (Projection.ctor keepDOFs).projectVector v = some pv
            ∧ pv.length = keepDOFs.count true) := by
  simp only [ctor_dofmap, ctor_invdofmap, Projection.projDOFs, Projection.projectVector]
  refine ⟨invdofmapOf_sorted _ _, ?_, dofmapOf_length _ _, invdofmapOf_length _ _,
    fun i h => dofmapOf_clamped _ _ _ h, ?_, ?_, ?_⟩
  · intro i; simpa using invdofmapOf_mem keepDOFs 0 i
  · intro k j h
    simpa using (dofmapOf_invdofmapOf keepDOFs 0 0 k j h).2
  · intro i h
    simpa using invdofmapOf_dofmapOf keepDOFs 0 0 i h
  · intro v hv
    exact ⟨selectFree keepDOFs v, by
      simpa using projectVectorLoop_invdofmapOf keepDOFs [] v hv, selectFree_length _ _ hv⟩



theorem dofmapOf_free (ks : List Bool) (idx j : Nat) (h : ks[j]? = some true) :
    ∃ k : Nat, (dofmapOf ks idx)[j]? = some ((idx + k : Nat) : Int) := by
  obtain ⟨k, h1, _⟩ := invdofmapOf_dofmapOf ks 0 idx j h
  exact ⟨k, h1⟩

theorem flag_cases (ks : List Bool) (j : Nat) (h : j < ks.length) :
    ks[j]? = some true ∨ ks[j]? = some false := by
  rw [List.getElem?_eq_getElem h]
  cases ks[j] <;> simp

theorem dofmapAt_nat (dm : List Int) (r : Int) (h : 0 ≤ r) : dofmapAt dm r = dm[r.toNat]? := by
  simp [dofmapAt, not_lt.mpr h]

/-- The image of one in-range triplet under the body of `projectMatrix`. -/
theorem projectTriplet_ctor (ks : List Bool) (t : Triplet)
    (hin : t.inRange ks.length ks.length) :
    ∃ t', projectTriplet (dofmapOf ks 0) t = some t'
      ∧ (ks[t.row.toNat]? = some true ∧ ks[t.col.toNat]? = some true →
          ∃ pr pc : Nat, (dofmapOf ks 0)[t.row.toNat]? = some (pr : Int)
            ∧ (dofmapOf ks 0)[t.col.toNat]? = some (pc : Int)
            ∧ t' = ⟨pr, pc, t.value⟩)
      ∧ (ks[t.row.toNat]? = some false ∨ ks[t.col.toNat]? = some false → t' = ⟨0, 0, 0⟩) := by
  obtain ⟨hr0, hr1, hc0, hc1⟩ := hin
  have hrn : t.row.toNat < ks.length := by omega
  have hcn : t.col.toNat < ks.length := by omega
  rcases flag_cases ks _ hrn with hr | hr <;> rcases flag_cases ks _ hcn with hc | hc
  · obtain ⟨pr, hpr⟩ := dofmapOf_free ks 0 _ hr
    obtain ⟨pc, hpc⟩ := dofmapOf_free ks 0 _ hc
    simp only [Nat.zero_add] at hpr hpc
    have h1 : ((pr : Nat) : Int) ≠ -1 := by omega
    have h2 : ((pc : Nat) : Int) ≠ -1 := by omega
    refine ⟨⟨pr, pc, t.value⟩, ?_, ?_, ?_⟩
    · simp [projectTriplet, dofmapAt_nat _ _ hr0, dofmapAt_nat _ _ hc0, hpr, hpc, h1, h2]
    · intro _; exact ⟨pr, pc, hpr, hpc, rfl⟩
    · rintro (h | h)
      · rw [hr] at h; simp at h
      · rw [hc] at h; simp at h
  · obtain ⟨pr, hpr⟩ := dofmapOf_free ks 0 _ hr
    have hpc := dofmapOf_clamped ks 0 _ hc
    refine ⟨⟨0, 0, 0⟩, ?_, ?_, fun _ => rfl⟩
    · simp [projectTriplet, dofmapAt_nat _ _ hr0, dofmapAt_nat _ _ hc0, hpr, hpc]
    · rintro ⟨_, h⟩; rw [hc] at h; simp at h
  · obtain ⟨pc, hpc⟩ := dofmapOf_free ks 0 _ hc
    have hpr := dofmapOf_clamped ks 0 _ hr
    refine ⟨⟨0, 0, 0⟩, ?_, ?_, fun _ => rfl⟩
    · simp [projectTriplet, dofmapAt_nat _ _ hr0, dofmapAt_nat _ _ hc0, hpr, hpc]
    · rintro ⟨h, _⟩; rw [hr] at h; simp at h
  · have hpc := dofmapOf_clamped ks 0 _ hc
    have hpr := dofmapOf_clamped ks 0 _ hr
    refine ⟨⟨0, 0, 0⟩, ?_, ?_, fun _ => rfl⟩
    · simp [projectTriplet, dofmapAt_nat _ _ hr0, dofmapAt_nat _ _ hc0, hpr, hpc]
    · rintro ⟨h, _⟩; rw [hr] at h; simp at h

/-- The loop of `projectMatrix` succeeds when its body does, and then rewrites
the list entry by entry. -/
theorem projectMatrixLoop_some (dm : List Int) (mat : List Triplet)
    (h : ∀ t ∈ mat, ∃ t', projectTriplet dm t = some t') :
    ∃ out, projectMatrixLoop dm mat = some out ∧ out.length = mat.length
      ∧ ∀ (i : Nat) (t : Triplet), mat[i]? = some t →
          ∃ t', projectTriplet dm t = some t' ∧ out[i]? = some t' := by
  induction mat with
  | nil => exact ⟨[], rfl, rfl, by simp⟩
  | cons t ts ih =>
    obtain ⟨t', ht'⟩ := h t (List.mem_cons_self _ _)
    obtain ⟨out, ho, hl, hi⟩ := ih (fun s hs => h s (List.mem_cons_of_mem _ hs))
    refine ⟨t' :: out, by simp [projectMatrixLoop, ht', ho], by simp [hl], ?_⟩
    intro i s hs
    cases i with
    | zero =>
      simp only [List.getElem?_cons_zero, Option.some.injEq] at hs
      subst hs; exact ⟨t', ht', by simp⟩
    | succ i =>
      simp only [List.getElem?_cons_succ] at hs
      simpa using hi i s hs

theorem projectMatrixLoop_cons (dm : List Int) (t t' : Triplet) (ts out : List Triplet)
    (ht : projectTriplet dm t = some t') (ho : projectMatrixLoop dm ts = some out) :
    projectMatrixLoop dm (t :: ts) = some (t' :: out) := by
  simp [projectMatrixLoop, ht, ho]

theorem sumAt_cons (t : Triplet) (ts : List Triplet) (r c : Int) :
    sumAt (t :: ts) r c = (if t.row = r ∧ t.col = c then t.value else 0) + sumAt ts r c := by
  unfold sumAt
  by_cases h : t.row = r ∧ t.col = c
  · simp [List.filter_cons, h]
  · simp [List.filter_cons, h]

/-- The entry-by-entry description of `projectMatrix` on in-range triplets. -/
theorem projectMatrix_entries (keepDOFs : List Bool) (mat : List Triplet)
    (hin : ∀ t ∈ mat, t.inRange keepDOFs.length keepDOFs.length) :
    ∃ out, (Projection.ctor keepDOFs).projectMatrix mat = some out
      ∧ out.length = mat.length
      ∧ ∀ (i : Nat) (t : Triplet), mat[i]? = some t →
          (keepDOFs[t.row.toNat]? = some true ∧ keepDOFs[t.col.toNat]? = some true →
            ∃ pr pc : Nat,
              (Projection.ctor keepDOFs).dofmap[t.row.toNat]? = some (pr : Int)
              ∧ (Projection.ctor keepDOFs).dofmap[t.col.toNat]? = some (pc : Int)
              ∧ out[i]? = some ⟨pr, pc, t.value⟩)
          ∧ (keepDOFs[t.row.toNat]? = some false ∨ keepDOFs[t.col.toNat]? = some false →
              out[i]? = some ⟨0, 0, 0⟩) := by
  simp only [Projection.projectMatrix, ctor_dofmap]
  obtain ⟨out, ho, hl, hi⟩ := projectMatrixLoop_some (dofmapOf keepDOFs 0) mat
    (fun t ht => (projectTriplet_ctor keepDOFs t (hin t ht)).imp fun _ h => h.1)
  refine ⟨out, ho, hl, ?_⟩
  intro i t hit
  obtain ⟨t', ht', hout⟩ := hi i t hit
  obtain ⟨t'', ht'', hfree, hclamped⟩ :=
    projectTriplet_ctor keepDOFs t (hin t (List.getElem?_mem hit))
  have e : t'' = t' := by rw [ht''] at ht'; exact Option.some.inj ht'
  subst e
  refine ⟨?_, ?_⟩
  · intro hf
    obtain ⟨pr, pc, h1, h2, h3⟩ := hfree hf
    exact ⟨pr, pc, h1, h2, by rw [hout, h3]⟩
  · intro hc
    rw [hout, hclamped hc]


theorem invdofmapOf_free (ks : List Bool) (a ia : Nat)
    (ha : (invdofmapOf ks 0)[a]? = some ia) : ks[ia]? = some true := by
  have := (invdofmapOf_mem ks 0 ia).1 (List.getElem?_mem ha)
  simpa using this.2

theorem reduced_index_eq_iff (ks : List Bool) (j p a ia : Nat) (hj : ks[j]? = some true)
    (hp : (dofmapOf ks 0)[j]? = some (p : Int)) (ha : (invdofmapOf ks 0)[a]? = some ia) :
    p = a ↔ j = ia := by
  constructor
  · intro h
    subst h
    obtain ⟨k, h1, h2⟩ := invdofmapOf_dofmapOf ks 0 0 j hj
    rw [hp] at h1
    have hk : p = k := by
      have := Option.some.inj h1
      omega
    subst hk
    rw [ha] at h2
    have := Option.some.inj h2
    omega
  · intro h
    subst h
    have h2 := (dofmapOf_invdofmapOf ks 0 0 a j ha).2
    simp only [Nat.sub_zero, Nat.zero_add] at h2
    rw [hp] at h2
    have := Option.some.inj h2
    omega

/-- The contribution of one triplet to the reduced entry `(a, b)` is its
contribution to the full entry `(invdofmap[a], invdofmap[b])`. -/
theorem projectTriplet_term (ks : List Bool) (t t' : Triplet)
    (hin : t.inRange ks.length ks.length) (a b ia ib : Nat)
    (ha : (invdofmapOf ks 0)[a]? = some ia) (hb : (invdofmapOf ks 0)[b]? = some ib)
    (ht : projectTriplet (dofmapOf ks 0) t = some t') :
    (if t'.row = (a : Int) ∧ t'.col = (b : Int) then t'.value else 0)
      = (if t.row = (ia : Int) ∧ t.col = (ib : Int) then t.value else 0) := by
  obtain ⟨t'', ht'', hfree, hclamped⟩ := projectTriplet_ctor ks t hin
  have e : t'' = t' := by rw [ht''] at ht; exact Option.some.inj ht
  subst e
  obtain ⟨hr0, hr1, hc0, hc1⟩ := hin
  have hrn : t.row.toNat < ks.length := by omega
  have hcn : t.col.toNat < ks.length := by omega
  by_cases hf : ks[t.row.toNat]? = some true ∧ ks[t.col.toNat]? = some true
  · obtain ⟨pr, pc, h1, h2, h3⟩ := hfree hf
    have e1 := reduced_index_eq_iff ks _ pr a ia hf.1 h1 ha
    have e2 := reduced_index_eq_iff ks _ pc b ib hf.2 h2 hb
    have c1 : ((pr : Int) = (a : Int) ∧ (pc : Int) = (b : Int))
        ↔ (t.row = (ia : Int) ∧ t.col = (ib : Int)) := by
      constructor
      · rintro ⟨x1, x2⟩
        have y1 := e1.1 (by omega)
        have y2 := e2.1 (by omega)
        exact ⟨by omega, by omega⟩
      · rintro ⟨x1, x2⟩
        have y1 := e1.2 (by omega)
        have y2 := e2.2 (by omega)
        exact ⟨by omega, by omega⟩
    subst h3
    by_cases hc : t.row = (ia : Int) ∧ t.col = (ib : Int)
    · rw [if_pos hc, if_pos (c1.2 hc)]
    · rw [if_neg hc, if_neg (fun h => hc (c1.1 h))]
  · have hcl : ks[t.row.toNat]? = some false ∨ ks[t.col.toNat]? = some false := by
      rcases flag_cases ks _ hrn with h1 | h1
      · rcases flag_cases ks _ hcn with h2 | h2
        · exact absurd ⟨h1, h2⟩ hf
        · exact Or.inr h2
      · exact Or.inl h1
    rw [hclamped hcl]
    have hia := invdofmapOf_free ks a ia ha
    have hib := invdofmapOf_free ks b ib hb
    have hne : ¬ (t.row = (ia : Int) ∧ t.col = (ib : Int)) := by
      rintro ⟨x1, x2⟩
      have y1 : t.row.toNat = ia := by omega
      have y2 : t.col.toNat = ib := by omega
      rw [y1, y2] at hcl
      rcases hcl with h | h
      · rw [hia] at h; simp at h
      · rw [hib] at h; simp at h
    rw [if_neg hne]
    simp

theorem projectMatrixLoop_sumAt (ks : List Bool) (a b ia ib : Nat)
    (ha : (invdofmapOf ks 0)[a]? = some ia) (hb : (invdofmapOf ks 0)[b]? = some ib) :
    ∀ (mat out : List Triplet), (∀ t ∈ mat, t.inRange ks.length ks.length) →
      projectMatrixLoop (dofmapOf ks 0) mat = some out →
      sumAt out a b = sumAt mat ia ib := by
  intro mat
  induction mat with
  | nil =>
    intro out _ ho
    simp only [projectMatrixLoop, Option.some.injEq] at ho
    subst ho; rfl
  | cons t ts ih =>
    intro out hin ho
    obtain ⟨t', ht', _⟩ := projectTriplet_ctor ks t (hin t (List.mem_cons_self _ _))
    obtain ⟨out', ho', _⟩ := projectMatrixLoop_some (dofmapOf ks 0) ts
      (fun s hs => (projectTriplet_ctor ks s (hin s (List.mem_cons_of_mem _ hs))).imp
        fun _ h => h.1)
    rw [projectMatrixLoop_cons _ _ _ _ _ ht' ho'] at ho
    have := Option.some.inj ho
    subst this
    rw [sumAt_cons, sumAt_cons, ih out' (fun s hs => hin s (List.mem_cons_of_mem _ hs)) ho',
      projectTriplet_term ks t t' (hin t (List.mem_cons_self _ _)) a b ia ib ha hb ht']

/-- C6. `projectMatrix` rewrites an in-range triplet list entry by entry: the
result has the same length; an entry whose row and column are both free
becomes `(dofmap[r], dofmap[c], v)`, an entry whose row or column is clamped
becomes `(0, 0, 0)`. -/
theorem projectMatrix_entrywise (keepDOFs : List Bool) (mat : List Triplet)
    (hin : ∀ t ∈ mat, t.inRange keepDOFs.length keepDOFs.length) :
    ∃ out, (Projection.ctor keepDOFs).projectMatrix mat = some out
      ∧ out.length = mat.length
      ∧ ∀ (i : Nat) (t : Triplet), mat[i]? = some t →
          (keepDOFs[t.row.toNat]? = some true ∧ keepDOFs[t.col.toNat]? = some true →
            ∃ pr pc : Nat,
              (Projection.ctor keepDOFs).dofmap[t.row.toNat]? = some (pr : Int)
              ∧ (Projection.ctor keepDOFs).dofmap[t.col.toNat]? = some (pc : Int)
              ∧ out[i]? = some ⟨pr, pc, t.value⟩)
          ∧ (keepDOFs[t.row.toNat]? = some false ∨ keepDOFs[t.col.toNat]? = some false →
              out[i]? = some ⟨0, 0, 0⟩) :=
  projectMatrix_entries keepDOFs mat hin

/-- A concrete instance of the entrywise description: five DOFs, two clamped,
three triplets of which one touches a clamped row. -/
theorem projectMatrix_entrywise_witness :
    ∃ out, (Projection.ctor [true, false, true, true, false]).projectMatrix
        [⟨0, 2, 5⟩, ⟨1, 2, 7⟩, ⟨3, 3, 1⟩] = some out
      ∧ out.length = ([⟨0, 2, 5⟩, ⟨1, 2, 7⟩, ⟨3, 3, 1⟩] : List Triplet).length
      ∧ ∀ (i : Nat) (t : Triplet), ([⟨0, 2, 5⟩, ⟨1, 2, 7⟩, ⟨3, 3, 1⟩] : List Triplet)[i]? = some t →
          ([true, false, true, true, false][t.row.toNat]? = some true
              ∧ [true, false, true, true, false][t.col.toNat]? = some true →
            ∃ pr pc : Nat,
              (Projection.ctor [true, false, true, true, false]).dofmap[t.row.toNat]?
                = some (pr : Int)
              ∧ (Projection.ctor [true, false, true, true, false]).dofmap[t.col.toNat]?
                = some (pc : Int)
              ∧ out[i]? = some ⟨pr, pc, t.value⟩)
          ∧ ([true, false, true, true, false][t.row.toNat]? = some false
              ∨ [true, false, true, true, false][t.col.toNat]? = some false →
              out[i]? = some ⟨0, 0, 0⟩) :=
  projectMatrix_entrywise [true, false, true, true, false] [⟨0, 2, 5⟩, ⟨1, 2, 7⟩, ⟨3, 3, 1⟩]
    (by decide)

/-- C7. The matrix summed from the projected triplets is the free-free block of
the matrix summed from the input: for reduced indices `a`, `b` (those at which
`invdofmap` is defined) the projected values at `(a, b)` sum to the input
values at `(invdofmap[a], invdofmap[b])`, the zero-valued triplets that land on
`(0, 0)` included. -/
theorem projectMatrix_free_block (keepDOFs : List Bool) (mat : List Triplet)
    (hin : ∀ t ∈ mat, t.inRange keepDOFs.length keepDOFs.length)
    (a b ia ib : Nat)
    (ha : (Projection.ctor keepDOFs).invdofmap[a]? = some ia)
    (hb : (Projection.ctor keepDOFs).invdofmap[b]? = some ib) :
    ∃ out, (Projection.ctor keepDOFs).projectMatrix mat = some out
      ∧ sumAt out a b = sumAt mat ia ib := by
  simp only [Projection.projectMatrix, ctor_dofmap, ctor_invdofmap] at *
  obtain ⟨out, ho, _⟩ := projectMatrixLoop_some (dofmapOf keepDOFs 0) mat
    (fun t ht => (projectTriplet_ctor keepDOFs t (hin t ht)).imp fun _ h => h.1)
  exact ⟨out, ho, projectMatrixLoop_sumAt keepDOFs a b ia ib ha hb mat out hin ho⟩

/-- A concrete instance at the reduced entry `(0, 0)`, where the zero-valued
triplet of the clamped row lands as well. -/
theorem projectMatrix_free_block_witness :
    ∃ out, (Projection.ctor [true, false, true]).projectMatrix
        [⟨0, 0, 5⟩, ⟨1, 2, 7⟩, ⟨0, 0, 1⟩, ⟨2, 0, 3⟩] = some out
      ∧ sumAt out (0 : Nat) (0 : Nat)
        = sumAt [⟨0, 0, 5⟩, ⟨1, 2, 7⟩, ⟨0, 0, 1⟩, ⟨2, 0, 3⟩] (0 : Nat) (0 : Nat) :=
  projectMatrix_free_block [true, false, true] [⟨0, 0, 5⟩, ⟨1, 2, 7⟩, ⟨0, 0, 1⟩, ⟨2, 0, 3⟩]
    (by decide) 0 0 0 0 rfl rfl


/-- When at least one DOF is free, every projected triplet lies inside the
`projDOFs x projDOFs` matrix. -/
theorem projectMatrix_inRange_of_free (keepDOFs : List Bool) (mat out : List Triplet)
    (hin : ∀ t ∈ mat, t.inRange keepDOFs.length keepDOFs.length)
    (hpos : 0 < (Projection.ctor keepDOFs).projDOFs)
    (ho : (Projection.ctor keepDOFs).projectMatrix mat = some out) :
    ∀ t ∈ out, t.inRange (Projection.ctor keepDOFs).projDOFs (Projection.ctor keepDOFs).projDOFs := by
  intro t' ht'
  obtain ⟨i, hi⟩ := List.mem_iff_getElem?.1 ht'
  obtain ⟨out', ho', hl, hall⟩ := projectMatrix_entries keepDOFs mat hin
  rw [ho] at ho'
  have e := Option.some.inj ho'
  subst e
  have hilt : i < mat.length := by
    rw [← hl]
    exact (List.getElem?_eq_some.1 hi).1
  obtain ⟨hfree, hclamped⟩ := hall i mat[i] (List.getElem?_eq_getElem hilt)
  obtain ⟨hr0, hr1, hc0, hc1⟩ := hin mat[i] (List.getElem_mem _)
  have hrn : mat[i].row.toNat < keepDOFs.length := by omega
  have hcn : mat[i].col.toNat < keepDOFs.length := by omega
  by_cases hf : keepDOFs[mat[i].row.toNat]? = some true ∧ keepDOFs[mat[i].col.toNat]? = some true
  · obtain ⟨pr, pc, h1, h2, h3⟩ := hfree hf
    rw [hi] at h3
    have e := Option.some.inj h3
    subst e
    simp only [ctor_dofmap, ctor_invdofmap, Projection.projDOFs] at *
    obtain ⟨k1, a1, b1⟩ := invdofmapOf_dofmapOf keepDOFs 0 0 _ hf.1
    obtain ⟨k2, a2, b2⟩ := invdofmapOf_dofmapOf keepDOFs 0 0 _ hf.2
    rw [h1] at a1
    rw [h2] at a2
    have e1 := Option.some.inj a1
    have e2 := Option.some.inj a2
    have l1 := (List.getElem?_eq_some.1 b1).1
    have l2 := (List.getElem?_eq_some.1 b2).1
    refine ⟨?_, ?_, ?_, ?_⟩ <;> simp only [] <;> omega
  · have hcl : keepDOFs[mat[i].row.toNat]? = some false
        ∨ keepDOFs[mat[i].col.toNat]? = some false := by
      rcases flag_cases keepDOFs _ hrn with h1 | h1
      · rcases flag_cases keepDOFs _ hcn with h2 | h2
        · exact absurd ⟨h1, h2⟩ hf
        · exact Or.inr h2
      · exact Or.inl h1
    have h3 := hclamped hcl
    rw [hi] at h3
    have e := Option.some.inj h3
    subst e
    refine ⟨?_, ?_, ?_, ?_⟩ <;> simp only [] <;> omega


/-! ## The projector of the shell model -/


theorem keepDOFs_vertex_part (clamped : List (Int × ℚ)) (nverts : Nat) :
    (List.range nverts).flatMap (fun (i : Nat) =>
        (List.range 3).map (fun (j : Nat) => (mapFind clamped (3 * (i : Int) + (j : Int))).isNone))
      = (List.range (3 * nverts)).map (fun (r : Nat) => (mapFind clamped (r : Int)).isNone) := by
  induction nverts with
  | zero => simp
  | succ n ih =>
    rw [List.range_succ, List.flatMap_append, ih]
    have er : List.range (3 * (n + 1)) = List.range (3 * n) ++ [3 * n, 3 * n + 1, 3 * n + 2] := by
      have e : 3 * (n + 1) = 3 * n + 1 + 1 + 1 := by ring
      rw [e, List.range_succ (3 * n + 1 + 1), List.range_succ (3 * n + 1),
        List.range_succ (3 * n)]
      simp
    have e3 : List.range 3 = [0, 1, 2] := rfl
    rw [er, e3]
    simp only [List.flatMap_cons, List.flatMap_nil, List.append_nil, List.map_append,
      List.map_cons, List.map_nil]
    push_cast
    simp

theorem keepDOFs_edge_part (nedges ned : Nat) :
    (List.range nedges).flatMap (fun (_ : Nat) => (List.range ned).map (fun (_ : Nat) => true))
      = List.replicate (ned * nedges) true := by
  induction nedges with
  | zero => simp
  | succ n ih =>
    rw [List.range_succ, List.flatMap_append, ih]
    simp only [List.flatMap_cons, List.flatMap_nil, List.append_nil]
    have : (List.range ned).map (fun (_ : Nat) => true) = List.replicate ned true := by
      apply List.ext_getElem <;> simp
    rw [this, Nat.mul_succ, List.replicate_add]

theorem keepDOFs_eq (setup : ElasticSetup) (nverts nedges : Nat) :
    keepDOFs setup nverts nedges
      = (List.range (3 * nverts)).map (fun (r : Nat) => (mapFind setup.clampedDOFs (r : Int)).isNone)
        ++ List.replicate (setup.sff.numExtraDOFs * nedges) true := by
  unfold keepDOFs
  rw [keepDOFs_vertex_part, keepDOFs_edge_part]

theorem keepDOFs_length (setup : ElasticSetup) (nverts nedges : Nat) :
    (keepDOFs setup nverts nedges).length = 3 * nverts + setup.sff.numExtraDOFs * nedges := by
  simp only [keepDOFs_eq, List.length_append, List.length_map, List.length_range,
    List.length_replicate]

theorem keepDOFs_vertex (setup : ElasticSetup) (nverts nedges i : Nat) (h : i < 3 * nverts) :
    (keepDOFs setup nverts nedges)[i]? = some (mapFind setup.clampedDOFs (i : Int)).isNone := by
  rw [keepDOFs_eq, List.getElem?_append_left (by
    simpa only [List.length_map, List.length_range] using h)]
  rw [List.getElem?_map, List.getElem?_range h]
  rfl

theorem keepDOFs_edge (setup : ElasticSetup) (nverts nedges i : Nat) (h1 : 3 * nverts ≤ i)
    (h2 : i < 3 * nverts + setup.sff.numExtraDOFs * nedges) :
    (keepDOFs setup nverts nedges)[i]? = some true := by
  rw [keepDOFs_eq, List.getElem?_append_right (by
    simpa only [List.length_map, List.length_range] using h1)]
  simp only [List.length_map, List.length_range]
  rw [List.getElem?_replicate, if_pos (by omega)]



theorem dofmapOf_entry (ks : List Bool) : ∀ (idx : Nat) (d : Int), d ∈ dofmapOf ks idx →
    d = -1 ∨ ((idx : Int) ≤ d ∧ d < (idx : Int) + (ks.count true : Nat)) := by
  induction ks with
  | nil => intro idx d h; simp [dofmapOf] at h
  | cons k ks ih =>
    intro idx d h
    cases k
    · simp only [dofmapOf, List.mem_cons] at h
      rcases h with h | h
      · exact Or.inl h
      · rcases ih idx d h with h | h
        · exact Or.inl h
        · right; simp; omega
    · simp only [dofmapOf, List.mem_cons] at h
      rcases h with h | h
      · right; subst h; simp
      · rcases ih (idx + 1) d h with h | h
        · exact Or.inl h
        · right; simp at h ⊢; omega

/-- The loop of `unprojectVector` succeeds when every entry of `dofmap` is `-1`
or a valid index of `projVec`, and then fills the full vector entry by entry. -/
theorem unprojectVectorLoop_some (x : List ℚ) (dm : List Int)
    (h : ∀ d ∈ dm, d = -1 ∨ (0 ≤ d ∧ d.toNat < x.length)) :
    ∃ w, unprojectVectorLoop x dm = some w ∧ w.length = dm.length
      ∧ ∀ (i : Nat) (d : Int), dm[i]? = some d →
          w[i]? = if d = -1 then some 0 else x[d.toNat]? := by
  induction dm with
  | nil => exact ⟨[], rfl, rfl, by simp⟩
  | cons d ds ih =>
    obtain ⟨w, hw, hl, hi⟩ := ih (fun e he => h e (List.mem_cons_of_mem _ he))
    have hd := h d (List.mem_cons_self _ _)
    have hv : ∃ v, (if d = -1 then some (0 : ℚ) else readAt x d) = some v
        ∧ some v = if d = -1 then some (0 : ℚ) else x[d.toNat]? := by
      by_cases e : d = -1
      · exact ⟨0, by simp [e], by simp [e]⟩
      · rcases hd with hd | ⟨h0, h1⟩
        · exact absurd hd e
        · refine ⟨x[d.toNat], ?_, ?_⟩
          · simp [e, readAt, not_lt.mpr h0, List.getElem?_eq_getElem h1]
          · simp [e, List.getElem?_eq_getElem h1]
    obtain ⟨v, hv1, hv2⟩ := hv
    refine ⟨v :: w, ?_, by simp [hl], ?_⟩
    · by_cases e : d = -1
      · simp only [e, if_true, Option.some.injEq] at hv1
        subst hv1
        simp [unprojectVectorLoop, e, hw]
      · simp only [e, if_false] at hv1
        simp [unprojectVectorLoop, e, hw, hv1]
    · intro i e hie
      cases i with
      | zero =>
        simp only [List.getElem?_cons_zero, Option.some.injEq] at hie
        subst hie
        simpa using hv2
      | succ i =>
        simp only [List.getElem?_cons_succ] at hie
        simpa using hi i e hie

/-- Unprojecting a reduced vector with one entry per free DOF succeeds. -/
theorem unprojectVector_ctor (ks : List Bool) (x : List ℚ)
    (hx : x.length = (Projection.ctor ks).projDOFs) :
    ∃ w, (Projection.ctor ks).unprojectVector x = some w ∧ w.length = ks.length
      ∧ ∀ (i : Nat) (d : Int), (Projection.ctor ks).dofmap[i]? = some d →
          w[i]? = if d = -1 then some 0 else x[d.toNat]? := by
  simp only [Projection.unprojectVector, ctor_dofmap, Projection.projDOFs, ctor_invdofmap,
    invdofmapOf_length] at *
  obtain ⟨w, h1, h2, h3⟩ := unprojectVectorLoop_some x (dofmapOf ks 0) (by
    intro d hd
    rcases dofmapOf_entry ks 0 d hd with h | h
    · exact Or.inl h
    · right; simp at h; omega)
  exact ⟨w, h1, by rw [h2, dofmapOf_length], h3⟩

theorem segment3_rowOf (fullx : List ℚ) (i : Nat) (h : 3 * i + 3 ≤ fullx.length) :
    segment3 fullx (3 * i) = some (rowOf fullx i) := by
  have h0 : 3 * i < fullx.length := by omega
  have h1 : 3 * i + 1 < fullx.length := by omega
  have h2 : 3 * i + 2 < fullx.length := by omega
  simp [segment3, rowOf, List.getElem?_eq_getElem, h0, h1, h2, List.getD_eq_getElem]

/-- The first loop of `convertVariables2CurState` overwrites the first `n` rows. -/
theorem setRows_spec (fullx : List ℚ) (P : List Vec3) : ∀ n : Nat, n ≤ P.length →
    3 * n ≤ fullx.length →
    ∃ P', setRows fullx n P = some P' ∧ P'.length = P.length
      ∧ (∀ i : Nat, i < n → P'[i]? = some (rowOf fullx i))
      ∧ (∀ i : Nat, n ≤ i → P'[i]? = P[i]?) := by
  intro n
  induction n with
  | zero => intro _ _; exact ⟨P, by simp [setRows], rfl, by simp, by simp⟩
  | succ n ih =>
    intro hn hf
    obtain ⟨P1, h1, hl, hlo, hhi⟩ := ih (by omega) (by omega)
    refine ⟨P1.set n (rowOf fullx n), ?_, by simp [hl], ?_, ?_⟩
    · unfold setRows at h1 ⊢
      rw [List.range_succ, List.foldlM_append, h1]
      simp [segment3_rowOf fullx n (by omega)]
    · intro i hi
      by_cases e : i = n
      · subst e; simp [List.getElem?_set]; omega
      · rw [List.getElem?_set_ne (by omega)]; exact hlo i (by omega)
    · intro i hi
      rw [List.getElem?_set_ne (by omega)]; exact hhi i (by omega)



theorem Vec3.get_set (r r' : Vec3) (c c' : Int) (a : ℚ) (h : r.set c a = some r') :
    r'.get c' = if c' = c then some a else r.get c' := by
  unfold Vec3.set at h
  unfold Vec3.get
  split_ifs at h <;> simp only [Option.some.injEq] at h <;> subst h <;> split_ifs <;>
    first | rfl | omega

theorem Vec3.set_some (r : Vec3) (c : Int) (a : ℚ) (h0 : 0 ≤ c) (h3 : c < 3) :
    ∃ r', r.set c a = some r' := by
  unfold Vec3.set
  have : c = 0 ∨ c = 1 ∨ c = 2 := by omega
  rcases this with h | h | h <;> subst h <;> simp

/-- Writing one coefficient of the position matrix changes that coefficient only. -/
theorem matSet_spec (P : List Vec3) (vid c : Int) (a : ℚ) (hv0 : 0 ≤ vid)
    (hv : vid.toNat < P.length) (hc0 : 0 ≤ c) (hc3 : c < 3) :
    ∃ P', matSet P vid c a = some P' ∧ P'.length = P.length
      ∧ ∀ vid' c' : Int, matGet P' vid' c'
          = if vid' = vid ∧ c' = c then some a else matGet P vid' c' := by
  obtain ⟨r', hr'⟩ := Vec3.set_some P[vid.toNat] c a hc0 hc3
  refine ⟨P.set vid.toNat r', ?_, by simp, ?_⟩
  · simp [matSet, not_lt.mpr hv0, List.getElem?_eq_getElem hv, hr']
  · intro vid' c'
    unfold matGet
    by_cases hneg : vid' < 0
    · have : ¬ (vid' = vid ∧ c' = c) := by rintro ⟨h, _⟩; omega
      simp [hneg, this]
    · simp only [hneg, if_false]
      by_cases e : vid' = vid
      · subst e
        simp only [List.getElem?_set, hv, if_true, true_and]
        rw [Vec3.get_set _ _ _ _ _ hr', List.getElem?_eq_getElem hv]
      · have : vid.toNat ≠ vid'.toNat := by omega
        rw [List.getElem?_set_ne this]
        simp [e]

theorem matSet_posAt (P : List Vec3) (k : Int) (a : ℚ) (h0 : 0 ≤ k)
    (h1 : k < 3 * (P.length : Int)) :
    ∃ P', matSet P (Int.tdiv k 3) (Int.tmod k 3) a = some P' ∧ P'.length = P.length
      ∧ ∀ k' : Int, posAt P' k' = if k' = k then some a else posAt P k' := by
  have d1 := Int.tdiv_add_tmod k 3
  have d2 : 0 ≤ Int.tmod k 3 := Int.tmod_nonneg _ h0
  have d3 : Int.tmod k 3 < 3 := Int.tmod_lt_of_pos _ (by norm_num)
  have d4 : 0 ≤ Int.tdiv k 3 := by omega
  obtain ⟨P', hP', hl, hg⟩ := matSet_spec P (Int.tdiv k 3) (Int.tmod k 3) a d4 (by omega) d2 d3
  refine ⟨P', hP', hl, ?_⟩
  intro k'
  unfold posAt
  rw [hg]
  have e1 := Int.tdiv_add_tmod k' 3
  by_cases e : k' = k
  · subst e; simp
  · have : ¬ (Int.tdiv k' 3 = Int.tdiv k 3 ∧ Int.tmod k' 3 = Int.tmod k 3) := by
      rintro ⟨x1, x2⟩
      apply e
      rw [← e1, ← d1, x1, x2]
    simp [this, e]

theorem mapFind_none_of_lt (cl : List (Int × ℚ)) (k : Int)
    (h : ∀ kv ∈ cl, k < kv.1) : mapFind cl k = none := by
  induction cl with
  | nil => rfl
  | cons kv rest ih =>
    obtain ⟨k', v⟩ := kv
    have h1 := h (k', v) (List.mem_cons_self _ _)
    have : ¬ k' = k := by simp at h1; omega
    simp only [mapFind, this, if_false]
    exact ih (fun kv hkv => h kv (List.mem_cons_of_mem _ hkv))

/-- The clamp loop of `convertVariables2CurState`: when every key is a position
DOF index, each key ends up holding its configured value and every other
coefficient keeps its value. -/
theorem enforceClamped_spec (cl : List (Int × ℚ)) (hs : MapSorted cl) : ∀ P : List Vec3,
    (∀ kv ∈ cl, 0 ≤ kv.1 ∧ kv.1 < 3 * (P.length : Int)) →
    ∃ P', enforceClamped cl P = some P' ∧ P'.length = P.length
      ∧ ∀ k' : Int, posAt P' k' = match mapFind cl k' with
          | some v => some v
          | none => posAt P k' := by
  induction cl with
  | nil => intro P _; exact ⟨P, rfl, rfl, by simp [mapFind]⟩
  | cons kv rest ih =>
    intro P h
    obtain ⟨k, v⟩ := kv
    have hk := h (k, v) (List.mem_cons_self _ _)
    obtain ⟨P1, hP1, hl1, hg1⟩ := matSet_posAt P k v hk.1 hk.2
    have hs' : MapSorted rest := by
      unfold MapSorted at hs ⊢
      simp only [List.map_cons, List.pairwise_cons] at hs
      exact hs.2
    have hlt : ∀ kv ∈ rest, k < kv.1 := by
      unfold MapSorted at hs
      simp only [List.map_cons, List.pairwise_cons] at hs
      intro kv hkv
      exact hs.1 kv.1 (List.mem_map_of_mem _ hkv)
    obtain ⟨P2, hP2, hl2, hg2⟩ := ih hs' P1 (by
      intro kv hkv
      rw [hl1]
      exact h kv (List.mem_cons_of_mem _ hkv))
    refine ⟨P2, ?_, by rw [hl2, hl1], ?_⟩
    · unfold enforceClamped at hP2 ⊢
      rw [List.foldlM_cons]
      simp only [hP1]
      exact hP2
    · intro k'
      rw [hg2, hg1]
      by_cases e : k = k'
      · subst e
        simp [mapFind, mapFind_none_of_lt rest k hlt]
      · have e' : ¬ k' = k := fun x => e x.symm
        simp [mapFind, e, e']

theorem segment_all (v : List ℚ) (start n : Nat) (h : v.length = start + n) :
    segment v start n = some (v.drop start) := by
  unfold segment
  rw [if_pos (by omega)]
  congr 1
  apply List.take_of_length_le
  simp; omega

theorem posAt_nat (P : List Vec3) (i : Nat) :
    posAt P (i : Int) = (P[i / 3]?).bind (fun r => r.get ((i % 3 : Nat) : Int)) := by
  unfold posAt matGet
  have h1 : Int.tdiv (i : Int) 3 = ((i / 3 : Nat) : Int) := by
    rw [Int.tdiv_eq_ediv (Int.ofNat_nonneg i) (show (0 : Int) ≤ 3 by norm_num)]; norm_cast
  have h2 : Int.tmod (i : Int) 3 = ((i % 3 : Nat) : Int) := by
    rw [Int.tmod_eq_emod (Int.ofNat_nonneg i) (show (0 : Int) ≤ 3 by norm_num)]; norm_cast
  rw [h1, h2]
  have : ¬ (((i / 3 : Nat) : Int) < 0) := by omega
  simp only [this, if_false, Int.toNat_ofNat]
  cases P[i / 3]? <;> rfl

theorem rowOf_get (fullx : List ℚ) (i : Nat) (h : i < fullx.length) :
    (rowOf fullx (i / 3)).get ((i % 3 : Nat) : Int) = fullx[i]? := by
  have hm : i % 3 = 0 ∨ i % 3 = 1 ∨ i % 3 = 2 := by omega
  have hd := Nat.div_add_mod i 3
  unfold Vec3.get rowOf
  rcases hm with e | e | e <;> rw [e] at hd ⊢
  · have : 3 * (i / 3) = i := by omega
    simp [this, List.getD_eq_getElem?_getD, List.getElem?_eq_getElem h]
  · have : 3 * (i / 3) + 1 = i := by omega
    simp [this, List.getD_eq_getElem?_getD, List.getElem?_eq_getElem h]
  · have : 3 * (i / 3) + 2 = i := by omega
    simp [this, List.getD_eq_getElem?_getD, List.getElem?_eq_getElem h]



/-- State reconstruction on a well-formed model: it succeeds, keeps the mesh, the
reference configuration and the dimensions, reads the edge DOFs from the tail
of the unprojected vector, and every position coefficient holds the clamped
value of its index if there is one and the unprojected entry otherwise. -/
theorem convertVariables2CurState_spec (m : ElasticShellModel) (x : List ℚ)
    (hwf : m.WellFormed) (hx : x.length = m.proj.projDOFs) :
    ∃ st fullx, m.proj.unprojectVector x = some fullx
      ∧ fullx.length = 3 * m.state.curPos.length + m.setup.sff.numExtraDOFs * m.state.mesh.nEdges
      ∧ m.convertVariables2CurState x = some st
      ∧ st.mesh = m.state.mesh ∧ st.initialGuess = m.state.initialGuess
      ∧ st.curPos.length = m.state.curPos.length
      ∧ st.curEdgeDOFs = fullx.drop (3 * m.state.curPos.length)
      ∧ ∀ i : Nat, i < 3 * m.state.curPos.length →
          posAt st.curPos (i : Int) = match mapFind m.setup.clampedDOFs (i : Int) with
            | some v => some v
            | none => fullx[i]? := by
  obtain ⟨hp, hs, hr⟩ := hwf
  rw [hp] at hx
  obtain ⟨fullx, hu, hl, _⟩ := unprojectVector_ctor _ x hx
  rw [keepDOFs_length] at hl
  obtain ⟨P1, h1, hl1, hlo, _⟩ := setRows_spec fullx m.state.curPos m.state.curPos.length
    (le_refl _) (by omega)
  obtain ⟨P2, h2, hl2, hg⟩ := enforceClamped_spec m.setup.clampedDOFs hs P1 (by
    rw [hl1]; exact hr)
  have h3 := segment_all fullx (3 * m.state.curPos.length)
    (m.setup.sff.numExtraDOFs * m.state.mesh.nEdges) hl
  refine ⟨{ m.state with curPos := P2, curEdgeDOFs := fullx.drop (3 * m.state.curPos.length) },
    fullx, by rw [hp]; exact hu, hl, ?_, rfl, rfl, by simp [hl2, hl1], rfl, ?_⟩
  · unfold ElasticShellModel.convertVariables2CurState
    rw [hp, hu]
    simp [h1, h2, h3]
  · intro i hi
    simp only []
    rw [hg (i : Int)]
    cases mapFind m.setup.clampedDOFs (i : Int) with
    | some v => rfl
    | none =>
      rw [posAt_nat, hlo (i / 3) (by omega)]
      simp only [Option.bind_some]
      exact rowOf_get fullx i (by omega)



theorem addAt_length (v : List ℚ) : ∀ (i : Nat) (a : ℚ), (addAt v i a).length = v.length := by
  induction v with
  | nil => intro i a; rfl
  | cons b bs ih => intro i a; cases i <;> simp [addAt, ih]

theorem addAt_getElem? (v : List ℚ) : ∀ (i j : Nat) (a : ℚ),
    (addAt v i a)[j]? = if j = i then (v[j]?).map (fun g => g + a) else v[j]? := by
  induction v with
  | nil => intro i j a; simp [addAt]
  | cons b bs ih =>
    intro i j a
    cases i with
    | zero => cases j <;> simp [addAt]
    | succ i => cases j <;> simp [addAt, ih]

/-- The update `v.segment<3>(start) += w` adds the coordinates of `w` to the
three entries from `start` on and leaves the others alone. -/
theorem addSegment3_spec (v : List ℚ) (start : Nat) (w : Vec3) (h : start + 3 ≤ v.length) :
    ∃ v', addSegment3 v start w = some v' ∧ v'.length = v.length
      ∧ ∀ j : Nat, v'[j]? = if start ≤ j ∧ j < start + 3
          then (v[j]?).map (fun g => g + w.coord (j - start)) else v[j]? := by
  refine ⟨addAt (addAt (addAt v start w.x) (start + 1) w.y) (start + 2) w.z,
    by simp [addSegment3, h], by simp [addAt_length], ?_⟩
  intro j
  simp only [addAt_getElem?]
  by_cases h0 : j = start
  · subst h0; simp [Vec3.coord]
  · by_cases h1 : j = start + 1
    · subst h1; simp [Vec3.coord]
    · by_cases h2 : j = start + 2
      · subst h2; simp [Vec3.coord]
      · have : ¬ (start ≤ j ∧ j < start + 3) := by omega
        simp [h0, h1, h2, this]

theorem gravityForce_some (setup : ElasticSetup) (i : Nat) (h : i < setup.vertArea.length) :
    gravityForce setup i = some (vertexWeight setup i) := by
  simp [gravityForce, vertexWeight, List.getElem?_eq_getElem h, List.getD_eq_getElem?_getD]

/-- The gravity loop of `value` and `hessian` computes the sum of the specification
over the vertices it visits. -/
theorem gravityPotential_spec (setup : ElasticSetup) (curPos : List Vec3) : ∀ n : Nat,
    n ≤ curPos.length → n ≤ setup.vertArea.length →
    gravityPotential setup curPos n = some (((List.range n).map (fun (i : Nat) =>
      -((vertexWeight setup i).dot (curPos.getD i ⟨0, 0, 0⟩)))).sum) := by
  intro n
  induction n with
  | zero => intro _ _; rfl
  | succ n ih =>
    intro h1 h2
    have hn := ih (by omega) (by omega)
    unfold gravityPotential at hn ⊢
    rw [List.range_succ, List.foldlM_append, hn]
    have hc : n < curPos.length := by omega
    simp [gravityForce_some setup n (by omega), List.getElem?_eq_getElem hc,
      List.getD_eq_getElem?_getD]

/-- The gravity loop of `gradient`: the same potential, and the constant vector
`-mg` of vertex `i` added to the entries `3 i .. 3 i + 2`; entries from
`3 * nverts` on are left alone. -/
theorem gravityGradient_spec (setup : ElasticSetup) (curPos : List Vec3) (grad : List ℚ) :
    ∀ n : Nat, n ≤ curPos.length → n ≤ setup.vertArea.length → 3 * n ≤ grad.length →
    ∃ g, gravityGradient setup curPos n grad
        = some (((List.range n).map (fun (i : Nat) =>
            -((vertexWeight setup i).dot (curPos.getD i ⟨0, 0, 0⟩)))).sum, g)
      ∧ g.length = grad.length
      ∧ ∀ j : Nat, g[j]? = if j < 3 * n
          then (grad[j]?).map (fun a => a + (vertexWeight setup (j / 3)).neg.coord (j % 3))
          else grad[j]? := by
  intro n
  induction n with
  | zero => intro _ _ _; exact ⟨grad, rfl, rfl, by simp⟩
  | succ n ih =>
    intro h1 h2 h3
    obtain ⟨g, hg, hl, hj⟩ := ih (by omega) (by omega) (by omega)
    obtain ⟨g', hg', hl', hj'⟩ := addSegment3_spec g (3 * n) (vertexWeight setup n).neg
      (by omega)
    refine ⟨g', ?_, by omega, ?_⟩
    · unfold gravityGradient at hg ⊢
      rw [List.range_succ, List.foldlM_append, hg]
      have hc : n < curPos.length := by omega
      simp [gravityForce_some setup n (by omega), List.getElem?_eq_getElem hc,
        List.getD_eq_getElem?_getD, hg']
    · intro j
      rw [hj' j, hj j]
      by_cases a : j < 3 * n
      · have : ¬ (3 * n ≤ j ∧ j < 3 * n + 3) := by omega
        have b : j < 3 * (n + 1) := by omega
        simp [a, b, this]
      · by_cases b : j < 3 * (n + 1)
        · have c : 3 * n ≤ j ∧ j < 3 * n + 3 := by omega
          have e1 : j / 3 = n := by omega
          have e2 : j - 3 * n = j % 3 := by omega
          simp [a, b, c, e1, e2]
        · have : ¬ (3 * n ≤ j ∧ j < 3 * n + 3) := by omega
          simp [a, b, this]

theorem posAt_some (P : List Vec3) (k : Int) (h0 : 0 ≤ k) (h1 : k < 3 * (P.length : Int)) :
    ∃ a, posAt P k = some a := by
  obtain ⟨i, rfl⟩ := Int.eq_ofNat_of_zero_le h0
  have hi : i / 3 < P.length := by omega
  rw [posAt_nat, List.getElem?_eq_getElem hi]
  simp only [Option.bind_some, Vec3.get]
  have : i % 3 = 0 ∨ i % 3 = 1 ∨ i % 3 = 2 := by omega
  rcases this with e | e | e <;> simp [e]

/-- The point-force loop of `value` and `hessian`, started with any accumulator. -/
theorem pointForceEnergy_fold (P : List Vec3) (pf : List (Int × ℚ)) :
    (∀ kv ∈ pf, 0 ≤ kv.1 ∧ kv.1 < 3 * (P.length : Int)) → ∀ acc : ℚ,
    pf.foldlM (fun acc pair => do
        let coordValue ← matGet P (Int.tdiv pair.1 3) (Int.tmod pair.1 3)
        pure (acc + -pair.2 * coordValue)) acc
      = some (acc + (pf.map (fun (p : Int × ℚ) => -p.2 * (posAt P p.1).getD 0)).sum) := by
  induction pf with
  | nil => intro _ acc; simp
  | cons p ps ih =>
    intro h acc
    obtain ⟨a, ha⟩ := posAt_some P p.1 (h p (List.mem_cons_self _ _)).1
      (h p (List.mem_cons_self _ _)).2
    have ha' : matGet P (Int.tdiv p.1 3) (Int.tmod p.1 3) = some a := ha
    have ih' := ih (fun kv hkv => h kv (List.mem_cons_of_mem _ hkv)) (acc + -p.2 * a)
    simp only [List.foldlM_cons, Option.bind_eq_bind, Option.pure_def, ha',
      Option.some_bind] at ih' ⊢
    rw [ih']
    simp [ha, add_assoc]

theorem pointForceEnergy_spec (P : List Vec3) (pf : List (Int × ℚ))
    (h : ∀ kv ∈ pf, 0 ≤ kv.1 ∧ kv.1 < 3 * (P.length : Int)) :
    pointForceEnergy pf P
      = some ((pf.map (fun (p : Int × ℚ) => -p.2 * (posAt P p.1).getD 0)).sum) := by
  unfold pointForceEnergy
  rw [pointForceEnergy_fold P pf h 0, zero_add]

/-- The point-force loop of `gradient` succeeds and keeps the size of `grad`. -/
theorem pointForceGradient_some (P : List Vec3) (pf : List (Int × ℚ)) :
    (∀ kv ∈ pf, 0 ≤ kv.1 ∧ kv.1 < 3 * (P.length : Int)) → ∀ (acc : ℚ) (grad : List ℚ),
    3 * P.length ≤ grad.length →
    ∃ e g, pf.foldlM (fun acc pair => do
        let coordValue ← matGet P (Int.tdiv pair.1 3) (Int.tmod pair.1 3)
        let g ← addAtInt acc.2 pair.1 (-pair.2)
        pure (acc.1 + -pair.2 * coordValue, g)) (acc, grad) = some (e, g)
      ∧ g.length = grad.length := by
  induction pf with
  | nil => intro _ acc grad _; exact ⟨acc, grad, rfl, rfl⟩
  | cons p ps ih =>
    intro h acc grad hg
    obtain ⟨h0, h1⟩ := h p (List.mem_cons_self _ _)
    obtain ⟨a, ha⟩ := posAt_some P p.1 h0 h1
    have ha' : matGet P (Int.tdiv p.1 3) (Int.tmod p.1 3) = some a := ha
    have hlt : p.1.toNat < grad.length := by omega
    obtain ⟨e, g, hfold, hl⟩ := ih (fun kv hkv => h kv (List.mem_cons_of_mem _ hkv))
      (acc + -p.2 * a) (addAt grad p.1.toNat (-p.2)) (by rw [addAt_length]; exact hg)
    refine ⟨e, g, ?_, by rw [hl, addAt_length]⟩
    simp only [List.foldlM_cons, ha', addAtInt, not_lt.mpr h0, hlt, if_true, if_false,
      Option.bind_eq_bind, Option.some_bind, Option.pure_def] at hfold ⊢
    exact hfold



theorem dofValue_pos (st : ElasticState) (k : Int) (h : k < 3 * (st.curPos.length : Int)) :
    st.dofValue k = posAt st.curPos k := by
  simp [ElasticState.dofValue, h]

theorem pointForcePotentialSpec_eq (pf : List (Int × ℚ)) (st : ElasticState)
    (h : ∀ kv ∈ pf, 0 ≤ kv.1 ∧ kv.1 < 3 * (st.curPos.length : Int)) :
    pointForcePotentialSpec pf st
      = (pf.map (fun (p : Int × ℚ) => -p.2 * (posAt st.curPos p.1).getD 0)).sum := by
  unfold pointForcePotentialSpec
  congr 1
  apply List.map_congr_left
  intro p hp
  rw [dofValue_pos st p.1 (h p hp).2]

/-- The energy `value` returns on a well-formed model, and the state it leaves. -/
theorem value_spec (K : Kernels) (m : ElasticShellModel) (x : List ℚ) (st : ElasticState)
    (hst : m.convertVariables2CurState x = some st)
    (hlen : st.curPos.length = m.state.curPos.length) (hl : m.LoadsWellFormed) :
    m.value K x = some
      ((stretchingCall K { m with state := st } (chooseMaterial m.setup.strecthingType)
            none none false).energy
        + (bendingCall K { m with state := st } (chooseMaterial m.setup.strecthingType)
            none none false).energy
        + gravityPotentialSpec m.setup st.curPos
        + pointForcePotentialSpec m.setup.pointForces st
        + (if 0 < m.setup.pressure then (pressureCall K { m with state := st } none none).energy
            else 0)
        + (if 0 < m.setup.penaltyK then
            (penaltyCall K { m with state := st } none none false).energy else 0),
        { m with state := st }) := by
  obtain ⟨hva, hpf⟩ := hl
  have hg := gravityPotential_spec m.setup st.curPos st.curPos.length (le_refl _)
    (by rw [hlen]; exact hva)
  have hp := pointForceEnergy_spec st.curPos m.setup.pointForces (by rw [hlen]; exact hpf)
  have hp' := pointForcePotentialSpec_eq m.setup.pointForces st (by rw [hlen]; exact hpf)
  unfold ElasticShellModel.value
  rw [hst]
  simp only [Option.bind_eq_bind, Option.some_bind, ← hlen, hg, hp, Option.pure_def,
    gt_iff_lt]
  rw [hp']
  unfold gravityPotentialSpec
  congr 2
  by_cases h1 : 0 < m.setup.pressure <;> by_cases h2 : 0 < m.setup.penaltyK <;>
    simp only [h1, h2, if_true, if_false] <;> ring


theorem addHead_some (v w : List ℚ) (n : Nat) (h1 : n ≤ v.length) (h2 : w.length = n) :
    ∃ g, addHead v n w = some g ∧ g.length = v.length := by
  refine ⟨List.zipWith (· + ·) (v.take n) w ++ v.drop n, by simp [addHead, h1, h2], ?_⟩
  simp [h2]; omega

theorem vecAdd_some (a b : List ℚ) (h : a.length = b.length) :
    ∃ g, vecAdd a b = some g ∧ g.length = a.length := by
  exact ⟨List.zipWith (· + ·) a b, by simp [vecAdd, h], by simp [h]⟩

theorem projectVector_ctor_some (ks : List Bool) (v : List ℚ) (h : v.length = ks.length) :
    ∃ pv, (Projection.ctor ks).projectVector v = some pv
      ∧ pv.length = (Projection.ctor ks).projDOFs := by
  refine ⟨selectFree ks v, ?_, ?_⟩
  · simpa [Projection.projectVector, ctor_invdofmap] using
      projectVectorLoop_invdofmapOf ks [] v h
  · rw [selectFree_length ks v h, Projection.projDOFs, ctor_invdofmap, invdofmapOf_length]

/-- The accumulation of `gradient` succeeds when the loads can be evaluated and
the kernels return vectors of the expected sizes. -/
theorem fullGradient_some (K : Kernels) (m : ElasticShellModel) (grad : List ℚ)
    (hl : m.LoadsWellFormed) (hk : GradientSized K m grad) :
    ∃ g, m.fullGradient K m.state.curPos.length grad = some g ∧ g.length = m.fullDOFs := by
  obtain ⟨hva, hpf⟩ := hl
  obtain ⟨hs, hb, hp, hq⟩ := hk
  have h3 : 3 * m.state.curPos.length ≤ m.fullDOFs := by
    unfold ElasticShellModel.fullDOFs; omega
  obtain ⟨g1, e1, l1⟩ := vecAdd_some _ _ (hs.trans hb.symm)
  rw [hs] at l1
  have step2 : ∃ g2, pressureGradientBlock K m m.state.curPos.length g1 = some g2
      ∧ g2.length = m.fullDOFs := by
    unfold pressureGradientBlock
    by_cases c : m.setup.pressure > 0
    · obtain ⟨g2, e2, l2⟩ := addHead_some g1 _ (3 * m.state.curPos.length) (by omega) (hp c)
      exact ⟨g2, by simp [c, e2], by omega⟩
    · exact ⟨g1, by simp [c], l1⟩
  obtain ⟨g2, e2, l2⟩ := step2
  obtain ⟨g3, e3, l3, _⟩ := gravityGradient_spec m.setup m.state.curPos g2
    m.state.curPos.length (le_refl _) hva (by omega)
  obtain ⟨e, g4, e4, l4⟩ := pointForceGradient_some m.state.curPos m.setup.pointForces hpf
    (0 : ℚ) g3 (by omega)
  have e4' : pointForceGradient m.setup.pointForces m.state.curPos g3 = some (e, g4) := e4
  have step5 : ∃ g5, penaltyGradientBlock K m m.state.curPos.length g4 = some g5
      ∧ g5.length = m.fullDOFs := by
    unfold penaltyGradientBlock
    by_cases c : m.setup.penaltyK > 0
    · obtain ⟨g5, e5, l5⟩ := addHead_some g4 _ (3 * m.state.curPos.length) (by omega) (hq c)
      exact ⟨g5, by simp [c, e5], by omega⟩
    · exact ⟨g4, by simp [c], by omega⟩
  obtain ⟨g5, e5, l5⟩ := step5
  refine ⟨g5, ?_, l5⟩
  unfold ElasticShellModel.fullGradient
  simp only [hs, e1, Option.bind_eq_bind, Option.some_bind, e2, e3, e4', e5]

theorem fullDOFs_state (m : ElasticShellModel) (st : ElasticState)
    (h1 : st.curPos.length = m.state.curPos.length) (h2 : st.mesh = m.state.mesh) :
    ({ m with state := st } : ElasticShellModel).fullDOFs = m.fullDOFs := by
  simp [ElasticShellModel.fullDOFs, h1, h2]

/-- The method `gradient` succeeds on a well-formed model whose kernels return
vectors of the expected sizes, and leaves the reconstructed state behind. -/
theorem gradient_some (K : Kernels) (m : ElasticShellModel) (x grad : List ℚ)
    (st : ElasticState) (hwf : m.WellFormed)
    (hst : m.convertVariables2CurState x = some st)
    (hlen : st.curPos.length = m.state.curPos.length) (hmesh : st.mesh = m.state.mesh)
    (hl : m.LoadsWellFormed) (hk : GradientSized K { m with state := st } grad) :
    ∃ g, m.gradient K x grad = some (g, { m with state := st })
      ∧ g.length = m.proj.projDOFs := by
  have hl' : ({ m with state := st } : ElasticShellModel).LoadsWellFormed :=
    ⟨by simpa [hlen] using hl.1, by simpa [hlen] using hl.2⟩
  obtain ⟨g, e1, l1⟩ := fullGradient_some K { m with state := st } grad hl' hk
  rw [fullDOFs_state m st hlen hmesh] at l1
  have hp := hwf.proj_eq
  obtain ⟨pv, e2, l2⟩ := projectVector_ctor_some
    (keepDOFs m.setup m.state.curPos.length m.state.mesh.nEdges) g (by
      rw [keepDOFs_length]; exact l1)
  rw [← hp] at e2 l2
  refine ⟨pv, ?_, l2⟩
  unfold ElasticShellModel.gradient
  simp only [hst, Option.bind_eq_bind, Option.some_bind]
  simp only [] at e1
  rw [hlen] at e1
  simp only [e1, Option.some_bind, e2, Option.pure_def]

/-- The triplet list `hessian` assembles: the outputs of the stretching and
bending kernels, then those of the pressure and penalty kernels when enabled;
the gravity and point-force blocks add nothing. -/
theorem fullHessianT_spec (K : Kernels) (m : ElasticShellModel) (hl : m.LoadsWellFormed) :
    m.fullHessianT K m.state.curPos.length = some
      ((stretchingCall K m (chooseMaterial m.setup.strecthingType) none (some [])
          m.isUsePosHess).hessian
        ++ (bendingCall K m (chooseMaterial m.setup.strecthingType) none (some [])
          m.isUsePosHess).hessian
        ++ (if 0 < m.setup.pressure then (pressureCall K m none (some [])).hessian else [])
        ++ (if 0 < m.setup.penaltyK then
            (penaltyCall K m none (some []) m.isUsePosHess).hessian else [])) := by
  obtain ⟨hva, hpf⟩ := hl
  have hg := gravityPotential_spec m.setup m.state.curPos m.state.curPos.length (le_refl _) hva
  have hp := pointForceEnergy_spec m.state.curPos m.setup.pointForces hpf
  unfold ElasticShellModel.fullHessianT
  simp only [hg, hp, Option.bind_eq_bind, Option.some_bind, Option.pure_def, gt_iff_lt]
  by_cases h1 : 0 < m.setup.pressure <;> by_cases h2 : 0 < m.setup.penaltyK <;>
    simp [h1, h2]

/-- The method `hessian` succeeds on a well-formed model with at least one free
DOF whose kernels produce in-range triplets, and leaves the reconstructed state
behind. -/
theorem hessian_some (K : Kernels) (m : ElasticShellModel) (x : List ℚ)
    (st : ElasticState) (hwf : m.WellFormed)
    (hst : m.convertVariables2CurState x = some st)
    (hlen : st.curPos.length = m.state.curPos.length) (hmesh : st.mesh = m.state.mesh)
    (hl : m.LoadsWellFormed) (hk : HessianInRange K { m with state := st })
    (hpos : 0 < m.proj.projDOFs) :
    ∃ H, m.hessian K x = some (H, { m with state := st })
      ∧ H.rows = m.proj.projDOFs ∧ H.cols = m.proj.projDOFs := by
  have hl' : ({ m with state := st } : ElasticShellModel).LoadsWellFormed :=
    ⟨by simpa [hlen] using hl.1, by simpa [hlen] using hl.2⟩
  have e1 := fullHessianT_spec K { m with state := st } hl'
  have hin := hk _ e1
  rw [fullDOFs_state m st hlen hmesh] at hin
  have hp := hwf.proj_eq
  have hfull : m.fullDOFs = (keepDOFs m.setup m.state.curPos.length m.state.mesh.nEdges).length := by
    rw [keepDOFs_length]; rfl
  rw [hfull] at hin
  obtain ⟨out, e2, _, _⟩ := projectMatrix_entries _ _ hin
  rw [hp] at hpos
  have hr := projectMatrix_inRange_of_free _ _ out hin hpos e2
  rw [← hp] at e2 hr
  refine ⟨⟨m.proj.projDOFs, m.proj.projDOFs, out⟩, ?_, rfl, rfl⟩
  unfold ElasticShellModel.hessian
  simp only [hst, Option.bind_eq_bind, Option.some_bind]
  simp only [] at e1
  simp only [e1, Option.some_bind, e2, setFromTriplets, Option.pure_def]
  rw [if_pos hr]
  rfl



theorem mapFind_some_mem (cl : List (Int × ℚ)) (k : Int) (v : ℚ)
    (h : mapFind cl k = some v) : (k, v) ∈ cl := by
  induction cl with
  | nil => simp [mapFind] at h
  | cons kv rest ih =>
    obtain ⟨k', v'⟩ := kv
    by_cases e : k' = k
    · simp only [mapFind, e, if_true, Option.some.injEq] at h
      subst e; subst h
      exact List.mem_cons_self _ _
    · simp only [mapFind, e, if_false] at h
      exact List.mem_cons_of_mem _ (ih h)

theorem mapFind_mem_sorted (cl : List (Int × ℚ)) (hs : MapSorted cl) (kv : Int × ℚ)
    (h : kv ∈ cl) : mapFind cl kv.1 = some kv.2 := by
  induction cl with
  | nil => simp at h
  | cons p rest ih =>
    obtain ⟨k', v'⟩ := p
    unfold MapSorted at hs
    simp only [List.map_cons, List.pairwise_cons] at hs
    rcases List.mem_cons.1 h with e | e
    · subst e; simp [mapFind]
    · have hlt := hs.1 kv.1 (List.mem_map_of_mem _ e)
      have : ¬ k' = kv.1 := by omega
      simp only [mapFind, this, if_false]
      exact ih hs.2 e

/-- On a well-formed model the reconstructed state holds, at every key of the
clamped map, the value configured for that key. -/
theorem convert_clamped (m : ElasticShellModel) (x : List ℚ) (hwf : m.WellFormed)
    (hx : x.length = m.proj.projDOFs) :
    ∃ st, m.convertVariables2CurState x = some st
      ∧ st.curPos.length = m.state.curPos.length ∧ st.mesh = m.state.mesh
      ∧ ∀ kv ∈ m.setup.clampedDOFs, st.dofValue kv.1 = some kv.2 := by
  obtain ⟨st, fullx, _, _, hst, hmesh, _, hlen, _, hpos⟩ :=
    convertVariables2CurState_spec m x hwf hx
  refine ⟨st, hst, hlen, hmesh, ?_⟩
  intro kv hkv
  obtain ⟨h0, h1⟩ := hwf.clamped_range kv hkv
  obtain ⟨i, hi⟩ := Int.eq_ofNat_of_zero_le h0
  rw [dofValue_pos st kv.1 (by rw [hlen]; exact h1), hi, hpos i (by omega), ← hi,
    mapFind_mem_sorted _ hwf.clamped_sorted kv hkv]

/-- The three evaluation entry points succeed on a well-formed model and leave
the reconstructed state `st` behind: `value` whenever the loads can be
evaluated, `gradient` when moreover the kernels return vectors of the expected
sizes, `hessian` when the kernels return in-range triplets and some DOF is free. -/
theorem evaluations_leave_state (m : ElasticShellModel) (x : List ℚ) (st : ElasticState)
    (hwf : m.WellFormed) (hst : m.convertVariables2CurState x = some st)
    (hlen : st.curPos.length = m.state.curPos.length) (hmesh : st.mesh = m.state.mesh)
    (K : Kernels) (grad : List ℚ) (hl : m.LoadsWellFormed) :
    (∃ e, m.value K x = some (e, { m with state := st }))
      ∧ (GradientSized K { m with state := st } grad →
          ∃ g, m.gradient K x grad = some (g, { m with state := st }))
      ∧ (HessianInRange K { m with state := st } → 0 < m.proj.projDOFs →
          ∃ H, m.hessian K x = some (H, { m with state := st })) := by
  refine ⟨⟨_, value_spec K m x st hst hlen hl⟩, ?_, ?_⟩
  · intro hk
    obtain ⟨g, hg, _⟩ := gradient_some K m x grad st hwf hst hlen hmesh hl hk
    exact ⟨g, hg⟩
  · intro hk hpos
    obtain ⟨H, hH, _⟩ := hessian_some K m x st hwf hst hlen hmesh hl hk hpos
    exact ⟨H, hH⟩

/-- C3 (counterexample). With the clamped map holding the key 6, the index of the
extra DOF of the edge, and `x = (10, ..., 70)` of length `projDOFs = 7`, state
reconstruction yields no state holding the configured value 5 at DOF 6: the
clamp loop writes `curPos(2, 0)` outside the `2 x 3` position matrix, and
`curEdgeDOFs` is then taken from `x`. -/
theorem clamped_invariance_counterexample :
    ([10, 20, 30, 40, 50, 60, 70] : List ℚ).length = edgeClampedModel.proj.projDOFs
      ∧ (6, 5) ∈ edgeClampedModel.setup.clampedDOFs
      ∧ ¬ ∃ st, edgeClampedModel.convertVariables2CurState [10, 20, 30, 40, 50, 60, 70] = some st
          ∧ st.dofValue 6 = some 5 := by
  refine ⟨rfl, by decide, ?_⟩
  rintro ⟨st, h, _⟩
  have : edgeClampedModel.convertVariables2CurState [10, 20, 30, 40, 50, 60, 70] = none := rfl
  rw [this] at h
  exact absurd h (by simp)

/-- C3 (amended). On a model whose clamped keys are all position DOF indices and
whose projector was built by `setProjM`, for every reduced vector `x` of length
`projDOFs` and whatever the previous state, the state reconstructed by
`convertVariables2CurState` holds at every key of the clamped map the value
configured for it; `value`, `gradient` and `hessian` leave that state behind. -/
theorem clamped_invariance (K : Kernels) (m : ElasticShellModel) (x grad : List ℚ)
    (hwf : m.WellFormed) (hx : x.length = m.proj.projDOFs) :
    ∃ st, m.convertVariables2CurState x = some st
      ∧ (∀ kv ∈ m.setup.clampedDOFs, st.dofValue kv.1 = some kv.2)
      ∧ (m.LoadsWellFormed →
          (∃ e, m.value K x = some (e, { m with state := st }))
          ∧ (GradientSized K { m with state := st } grad →
              ∃ g, m.gradient K x grad = some (g, { m with state := st }))
          ∧ (HessianInRange K { m with state := st } → 0 < m.proj.projDOFs →
              ∃ H, m.hessian K x = some (H, { m with state := st }))) := by
  obtain ⟨st, hst, hlen, hmesh, hcl⟩ := convert_clamped m x hwf hx
  exact ⟨st, hst, hcl, fun hl => evaluations_leave_state m x st hwf hst hlen hmesh K grad hl⟩

theorem exampleModel_wellFormed : exampleModel.WellFormed := ⟨rfl, by decide, by decide⟩

theorem exampleModel_loads : exampleModel.LoadsWellFormed := ⟨by decide, by decide⟩

theorem exampleModel_convert :
    exampleModel.convertVariables2CurState [10, 30, 40, 50, 60, 70]
      = some ⟨⟨1, []⟩, [⟨0, 0, 0⟩, ⟨1, 0, 0⟩], [⟨10, 5, 30⟩, ⟨40, 50, 60⟩], [70]⟩ := rfl

theorem exampleModel_gradientSized (grad : List ℚ) :
    GradientSized zeroKernels
      { exampleModel with
        state := ⟨⟨1, []⟩, [⟨0, 0, 0⟩, ⟨1, 0, 0⟩], [⟨10, 5, 30⟩, ⟨40, 50, 60⟩], [70]⟩ } grad :=
  ⟨rfl, rfl, fun h => absurd h (by decide), fun h => absurd h (by decide)⟩

theorem exampleModel_hessianInRange :
    HessianInRange zeroKernels
      { exampleModel with
        state := ⟨⟨1, []⟩, [⟨0, 0, 0⟩, ⟨1, 0, 0⟩], [⟨10, 5, 30⟩, ⟨40, 50, 60⟩], [70]⟩ } := by
  intro T hT
  have : T = [] := by
    have h : ElasticShellModel.fullHessianT zeroKernels
      { exampleModel with
        state := ⟨⟨1, []⟩, [⟨0, 0, 0⟩, ⟨1, 0, 0⟩], [⟨10, 5, 30⟩, ⟨40, 50, 60⟩], [70]⟩ } 2
        = some [] := by
      rw [show (2 : Nat) = ({ exampleModel with
        state := ⟨⟨1, []⟩, [⟨0, 0, 0⟩, ⟨1, 0, 0⟩], [⟨10, 5, 30⟩, ⟨40, 50, 60⟩], [70]⟩ }
          : ElasticShellModel).state.curPos.length from rfl]
      rw [fullHessianT_spec zeroKernels _ ⟨by decide, by decide⟩]
      rfl
    rw [show ({ exampleModel with
        state := ⟨⟨1, []⟩, [⟨0, 0, 0⟩, ⟨1, 0, 0⟩], [⟨10, 5, 30⟩, ⟨40, 50, 60⟩], [70]⟩ }
          : ElasticShellModel).state.curPos.length = 2 from rfl, h] at hT
    exact (Option.some.inj hT).symm
  subst this
  intro t ht
  simp at ht

/-- The amended invariance on the example model: the clamped y-coordinate of
vertex 0 holds 5, and all three evaluations succeed and leave that state. -/
theorem clamped_invariance_witness :
    ∃ st, exampleModel.convertVariables2CurState [10, 30, 40, 50, 60, 70] = some st
      ∧ st.dofValue 1 = some 5
      ∧ (∃ e, exampleModel.value zeroKernels [10, 30, 40, 50, 60, 70]
            = some (e, { exampleModel with state := st }))
      ∧ (∃ g, exampleModel.gradient zeroKernels [10, 30, 40, 50, 60, 70] []
            = some (g, { exampleModel with state := st }))
      ∧ (∃ H, exampleModel.hessian zeroKernels [10, 30, 40, 50, 60, 70]
            = some (H, { exampleModel with state := st })) := by
  obtain ⟨st, hst, hcl, hev⟩ := clamped_invariance zeroKernels exampleModel
    [10, 30, 40, 50, 60, 70] [] exampleModel_wellFormed rfl
  have e : st = ⟨⟨1, []⟩, [⟨0, 0, 0⟩, ⟨1, 0, 0⟩], [⟨10, 5, 30⟩, ⟨40, 50, 60⟩], [70]⟩ := by
    rw [exampleModel_convert] at hst
    exact (Option.some.inj hst).symm
  obtain ⟨hv, hg, hh⟩ := hev exampleModel_loads
  refine ⟨st, hst, hcl (1, 5) (by decide), hv, hg ?_, hh ?_ (by decide)⟩
  · rw [e]; exact exampleModel_gradientSized []
  · rw [e]; exact exampleModel_hessianInRange



theorem mapFind_isNone_iff (cl : List (Int × ℚ)) (k : Int) :
    (mapFind cl k).isNone = true ↔ mapFind cl k = none := by
  cases mapFind cl k <;> simp

/-- C4 (counterexample). With the clamped map holding the key 6, the full index of
the extra DOF of the edge, `setProjM` still marks index 6 as free: the flag is
`true` although 6 is a key, and 6 is a reduced DOF. -/
theorem setProjM_edge_key_counterexample :
    mapFind edgeClampedModel.setup.clampedDOFs 6 = some 5
      ∧ edgeClampedModel.proj.dofmap[6]? = some 6
      ∧ 6 ∈ edgeClampedModel.proj.invdofmap
      ∧ ¬ ((keepDOFs edgeClampedModel.setup edgeClampedModel.state.curPos.length
              edgeClampedModel.state.mesh.nEdges)[6]? = some true
            ↔ mapFind edgeClampedModel.setup.clampedDOFs 6 = none) := by
  refine ⟨rfl, rfl, by decide, ?_⟩
  intro h
  have h1 : (keepDOFs edgeClampedModel.setup edgeClampedModel.state.curPos.length
      edgeClampedModel.state.mesh.nEdges)[6]? = some true := rfl
  have h2 := h.1 h1
  have h3 : mapFind edgeClampedModel.setup.clampedDOFs 6 = some 5 := rfl
  rw [h3] at h2
  exact absurd h2 (by simp)

/-- C4 (amended). The projector built by `setProjM` marks a full DOF index as free
if and only if it is an extra per-edge DOF index or not a key of the clamped
map. When every key is a position DOF index, each key is excluded from the
reduced variable space and state reconstruction stores its configured value. -/
theorem setProjM_free_iff (m : ElasticShellModel) :
    (∀ i : Nat, i < m.fullDOFs →
        ((keepDOFs m.setup m.state.curPos.length m.state.mesh.nEdges)[i]? = some true
          ↔ (3 * m.state.curPos.length ≤ i ∨ mapFind m.setup.clampedDOFs (i : Int) = none)))
      ∧ (∀ x : List ℚ, MapSorted m.setup.clampedDOFs →
          (∀ kv ∈ m.setup.clampedDOFs, 0 ≤ kv.1 ∧ kv.1 < 3 * (m.state.curPos.length : Int)) →
          x.length = m.setProjM.proj.projDOFs →
          ∃ st, m.setProjM.convertVariables2CurState x = some st
            ∧ ∀ kv ∈ m.setup.clampedDOFs,
                m.setProjM.proj.dofmap[kv.1.toNat]? = some (-1)
                ∧ kv.1.toNat ∉ m.setProjM.proj.invdofmap
                ∧ st.dofValue kv.1 = some kv.2) := by
  constructor
  · intro i hi
    unfold ElasticShellModel.fullDOFs at hi
    by_cases h : i < 3 * m.state.curPos.length
    · rw [keepDOFs_vertex _ _ _ _ h]
      simp only [Option.some.injEq, mapFind_isNone_iff]
      constructor
      · intro a; exact Or.inr a
      · rintro (a | a)
        · omega
        · exact a
    · rw [keepDOFs_edge _ _ _ _ (by omega) hi]
      simp only [true_iff]
      exact Or.inl (by omega)
  · intro x hs hr hx
    have hwf : m.setProjM.WellFormed := ⟨rfl, hs, hr⟩
    obtain ⟨st, hst, _, _, hcl⟩ := convert_clamped m.setProjM x hwf hx
    refine ⟨st, hst, ?_⟩
    intro kv hkv
    obtain ⟨h0, h1⟩ := hr kv hkv
    have hlt : kv.1.toNat < 3 * m.state.curPos.length := by omega
    have hfind := mapFind_mem_sorted _ hs kv hkv
    have hflag : (keepDOFs m.setup m.state.curPos.length m.state.mesh.nEdges)[kv.1.toNat]?
        = some false := by
      rw [keepDOFs_vertex _ _ _ _ hlt]
      have : ((kv.1.toNat : Nat) : Int) = kv.1 := Int.toNat_of_nonneg h0
      rw [this, hfind]
      rfl
    refine ⟨?_, ?_, hcl kv hkv⟩
    · show (Projection.ctor _).dofmap[kv.1.toNat]? = some (-1)
      rw [ctor_dofmap]
      exact dofmapOf_clamped _ _ _ hflag
    · show kv.1.toNat ∉ (Projection.ctor _).invdofmap
      rw [ctor_invdofmap]
      intro hin
      have := ((invdofmapOf_mem _ 0 _).1 hin).2
      rw [Nat.sub_zero, hflag] at this
      exact absurd this (by simp)

/-- The amended statement on the example model: index 1 is clamped, excluded from
the reduced space, and reconstructed to its value 5. -/
theorem setProjM_free_iff_witness :
    ∃ st, exampleModel.convertVariables2CurState [10, 30, 40, 50, 60, 70] = some st
      ∧ exampleModel.proj.dofmap[1]? = some (-1)
      ∧ 1 ∉ exampleModel.proj.invdofmap
      ∧ st.dofValue 1 = some 5 := by
  obtain ⟨st, hst, h⟩ := (setProjM_free_iff
    ⟨exampleSetup, exampleState, ⟨[], []⟩, 1, 1, false, false⟩).2
    [10, 30, 40, 50, 60, 70] (by decide) (by decide) rfl
  exact ⟨st, hst, h (1, 5) (by decide)⟩



theorem dofmapOf_ne_clamped (ks : List Bool) (i : Nat) (d : Int)
    (h : (dofmapOf ks 0)[i]? = some d) (hd : d ≠ -1) :
    ks[i]? = some true ∧ 0 ≤ d := by
  have hi : i < ks.length := by
    have := (List.getElem?_eq_some.1 h).1
    rwa [dofmapOf_length] at this
  constructor
  · rcases flag_cases ks i hi with a | a
    · exact a
    · rw [dofmapOf_clamped ks 0 i a] at h
      exact absurd (Option.some.inj h).symm hd
  · rcases dofmapOf_entry ks 0 d (List.getElem?_mem h) with a | a
    · exact absurd a hd
    · simpa using a.1

/-- C5. State reconstruction writes `x` back into the state: on a well-formed
model, for every reduced vector `x` of length `projDOFs`, the reconstructed
state holds `x[dofmap[i]]` at `curPos(i / 3, i % 3)` for every free position
DOF `i` and `x[dofmap[3 * nverts + j]]` at `curEdgeDOFs[j]` for every extra edge
DOF `j`; `value`, `gradient` and `hessian` leave exactly that state behind. -/
theorem reconstruction_writes_back (K : Kernels) (m : ElasticShellModel) (x grad : List ℚ)
    (hwf : m.WellFormed) (hx : x.length = m.proj.projDOFs) :
    ∃ st, m.convertVariables2CurState x = some st
      ∧ (∀ (i : Nat) (d : Int), i < 3 * m.state.curPos.length →
          m.proj.dofmap[i]? = some d → d ≠ -1 →
          ∃ a, readAt x d = some a ∧ posAt st.curPos (i : Int) = some a)
      ∧ (∀ j : Nat, j < m.setup.sff.numExtraDOFs * m.state.mesh.nEdges →
          ∃ (d : Int) (a : ℚ), m.proj.dofmap[3 * m.state.curPos.length + j]? = some d
            ∧ readAt x d = some a ∧ st.curEdgeDOFs[j]? = some a)
      ∧ (m.LoadsWellFormed →
          (∃ e, m.value K x = some (e, { m with state := st }))
          ∧ (GradientSized K { m with state := st } grad →
              ∃ g, m.gradient K x grad = some (g, { m with state := st }))
          ∧ (HessianInRange K { m with state := st } → 0 < m.proj.projDOFs →
              ∃ H, m.hessian K x = some (H, { m with state := st }))) := by
  obtain ⟨st, fullx, hu, hfl, hst, hmesh, _, hlen, hedge, hpos⟩ :=
    convertVariables2CurState_spec m x hwf hx
  have hp := hwf.proj_eq
  have hx' := hx
  rw [hp] at hx' hu
  obtain ⟨w, hw, _, hwi⟩ := unprojectVector_ctor _ x hx'
  rw [hu] at hw
  have e := Option.some.inj hw
  subst e
  refine ⟨st, hst, ?_, ?_,
    fun hl => evaluations_leave_state m x st hwf hst hlen hmesh K grad hl⟩
  · intro i d hi hd hne
    rw [hp] at hd
    have hfull := hwi i d hd
    rw [ctor_dofmap] at hd
    obtain ⟨hflag, hd0⟩ := dofmapOf_ne_clamped _ i d hd hne
    rw [keepDOFs_vertex _ _ _ _ hi] at hflag
    have hnone : mapFind m.setup.clampedDOFs (i : Int) = none := by
      have := Option.some.inj hflag
      exact (mapFind_isNone_iff _ _).1 this
    have hilt : i < fullx.length := by omega
    refine ⟨fullx[i], ?_, ?_⟩
    · rw [List.getElem?_eq_getElem hilt, if_neg hne] at hfull
      simp only [readAt, not_lt.mpr hd0, if_false]
      exact hfull.symm
    · rw [hpos i hi, hnone]
      exact List.getElem?_eq_getElem hilt
  · intro j hj
    have hidx : 3 * m.state.curPos.length + j
        < (keepDOFs m.setup m.state.curPos.length m.state.mesh.nEdges).length := by
      rw [keepDOFs_length]; omega
    have hflag := keepDOFs_edge m.setup m.state.curPos.length m.state.mesh.nEdges
      (3 * m.state.curPos.length + j) (by omega) (by omega)
    obtain ⟨k, hk, _⟩ := invdofmapOf_dofmapOf _ 0 0 _ hflag
    rw [Nat.zero_add] at hk
    have hd : (Projection.ctor (keepDOFs m.setup m.state.curPos.length
        m.state.mesh.nEdges)).dofmap[3 * m.state.curPos.length + j]? = some (k : Int) := by
      rw [ctor_dofmap]; exact hk
    have hfull := hwi _ _ hd
    have hne : ((k : Nat) : Int) ≠ -1 := by omega
    have hilt : 3 * m.state.curPos.length + j < fullx.length := by omega
    rw [List.getElem?_eq_getElem hilt, if_neg hne] at hfull
    refine ⟨(k : Int), fullx[3 * m.state.curPos.length + j], by rw [hp]; exact hd, ?_, ?_⟩
    · simp only [readAt, Int.toNat_ofNat]
      have : ¬ ((k : Nat) : Int) < 0 := by omega
      rw [if_neg this]
      simpa using hfull.symm
    · rw [hedge, List.getElem?_drop, List.getElem?_eq_getElem hilt]

/-- The write-back on the example model: the free x-coordinate of vertex 1 (full
index 3, reduced index 2) holds `x[2] = 40`, the extra edge DOF (full index 6,
reduced index 5) holds `x[5] = 70`, and all three evaluations leave that state. -/
theorem reconstruction_writes_back_witness :
    ∃ st, exampleModel.convertVariables2CurState [10, 30, 40, 50, 60, 70] = some st
      ∧ posAt st.curPos 3 = some 40
      ∧ st.curEdgeDOFs[0]? = some 70
      ∧ (∃ e, exampleModel.value zeroKernels [10, 30, 40, 50, 60, 70]
            = some (e, { exampleModel with state := st }))
      ∧ (∃ g, exampleModel.gradient zeroKernels [10, 30, 40, 50, 60, 70] []
            = some (g, { exampleModel with state := st }))
      ∧ (∃ H, exampleModel.hessian zeroKernels [10, 30, 40, 50, 60, 70]
            = some (H, { exampleModel with state := st })) := by
  obtain ⟨st, hst, hposn, hedge, hev⟩ := reconstruction_writes_back zeroKernels exampleModel
    [10, 30, 40, 50, 60, 70] [] exampleModel_wellFormed rfl
  have e : st = ⟨⟨1, []⟩, [⟨0, 0, 0⟩, ⟨1, 0, 0⟩], [⟨10, 5, 30⟩, ⟨40, 50, 60⟩], [70]⟩ := by
    rw [exampleModel_convert] at hst
    exact (Option.some.inj hst).symm
  obtain ⟨hv, hg, hh⟩ := hev exampleModel_loads
  obtain ⟨a, ha1, ha2⟩ := hposn 3 2 (by decide) rfl (by decide)
  have ha : a = 40 := by
    have h : readAt ([10, 30, 40, 50, 60, 70] : List ℚ) 2 = some 40 := rfl
    rw [h] at ha1
    exact (Option.some.inj ha1).symm
  obtain ⟨d, b, hd, hb1, hb2⟩ := hedge 0 (by decide)
  have hd' : d = 5 := by
    have h : exampleModel.proj.dofmap[3 * exampleModel.state.curPos.length + 0]? = some 5 := rfl
    rw [h] at hd
    exact (Option.some.inj hd).symm
  have hb : b = 70 := by
    subst hd'
    have h : readAt ([10, 30, 40, 50, 60, 70] : List ℚ) 5 = some 70 := rfl
    rw [h] at hb1
    exact (Option.some.inj hb1).symm
  refine ⟨st, hst, by rw [← ha]; exact ha2, by rw [← hb]; exact hb2, hv, hg ?_,
    hh ?_ (by decide)⟩
  · rw [e]; exact exampleModel_gradientSized []
  · rw [e]; exact exampleModel_hessianInRange



theorem vertexWeight_standard (setup : ElasticSetup) (i : Nat) (h1 : setup.thickness = 1)
    (h2 : setup.density = 1) (h3 : setup.gravity = ⟨0, 0, -98 / 10⟩) :
    vertexWeight setup i = ⟨0, 0, -(98 / 10) * setup.vertArea.getD i 0⟩ := by
  simp [vertexWeight, Vec3.smul, h1, h2, h3]
  ring

/-- C10. Gravity term: the gravity loop of `value` and `hessian` computes the sum
over the vertices `i` of `-(vertArea[i] * thickness * density * gravity) .
position[i]`; the loop of `gradient` computes the same potential and adds the
constant vector `-(vertArea[i] * thickness * density * gravity)` to the entries
`3 i .. 3 i + 2` of `grad` and nothing to the entries from `3 * nverts` on, which
is the exact increment of the potential under a displacement of the vertex;
the triplet list of `hessian` consists of the kernel outputs only. With
thickness 1, density 1 and gravity `(0, 0, -9.8)` a vertex of lumped area `A` at
height `h` contributes the potential `9.8 * A * h` and the z-entry `9.8 * A`. -/
theorem gravity_term (K : Kernels) (m : ElasticShellModel) (grad : List ℚ)
    (hl : m.LoadsWellFormed) (hg : 3 * m.state.curPos.length ≤ grad.length) :
    gravityPotential m.setup m.state.curPos m.state.curPos.length
        = some (gravityPotentialSpec m.setup m.state.curPos)
      ∧ (∃ g, gravityGradient m.setup m.state.curPos m.state.curPos.length grad
            = some (gravityPotentialSpec m.setup m.state.curPos, g)
          ∧ g.length = grad.length
          ∧ ∀ j : Nat, g[j]? = if j < 3 * m.state.curPos.length
              then (grad[j]?).map (fun a => a + (vertexWeight m.setup (j / 3)).neg.coord (j % 3))
              else grad[j]?)
      ∧ (∀ (i : Nat) (pos delta : Vec3),
          -((vertexWeight m.setup i).dot (pos.add delta))
            = -((vertexWeight m.setup i).dot pos) + (vertexWeight m.setup i).neg.dot delta)
      ∧ m.fullHessianT K m.state.curPos.length = some
          ((stretchingCall K m (chooseMaterial m.setup.strecthingType) none (some [])
              m.isUsePosHess).hessian
            ++ (bendingCall K m (chooseMaterial m.setup.strecthingType) none (some [])
              m.isUsePosHess).hessian
            ++ (if 0 < m.setup.pressure then (pressureCall K m none (some [])).hessian else [])
            ++ (if 0 < m.setup.penaltyK then
                (penaltyCall K m none (some []) m.isUsePosHess).hessian else []))
      ∧ (m.setup.thickness = 1 → m.setup.density = 1 → m.setup.gravity = ⟨0, 0, -98 / 10⟩ →
          ∀ (i : Nat) (pos : Vec3),
            -((vertexWeight m.setup i).dot pos) = 98 / 10 * m.setup.vertArea.getD i 0 * pos.z
            ∧ (vertexWeight m.setup i).neg.coord 2 = 98 / 10 * m.setup.vertArea.getD i 0) := by
  refine ⟨gravityPotential_spec _ _ _ (le_refl _) hl.1,
    gravityGradient_spec _ _ grad _ (le_refl _) hl.1 hg, ?_, fullHessianT_spec K m hl, ?_⟩
  · intro i pos delta
    simp only [Vec3.dot, Vec3.add, Vec3.neg]
    ring
  · intro h1 h2 h3 i pos
    rw [vertexWeight_standard m.setup i h1 h2 h3]
    simp only [Vec3.dot, Vec3.neg, Vec3.coord]
    constructor
    · ring
    · norm_num

/-- The gravity term on the example model (areas 2 and 4, thickness and density 1,
gravity `(0, 0, -9.8)`) at the positions `(10, 5, 30)`, `(40, 50, 60)`: the
potential is `9.8 * (2 * 30 + 4 * 60) = 2940` and the z-entries of a zero
gradient become `19.6` and `39.2`. -/
theorem gravity_term_witness :
    gravityPotential exampleSetup [⟨10, 5, 30⟩, ⟨40, 50, 60⟩] 2 = some 2940
      ∧ (∃ g, gravityGradient exampleSetup [⟨10, 5, 30⟩, ⟨40, 50, 60⟩] 2 [0, 0, 0, 0, 0, 0, 0]
            = some (2940, g)
          ∧ g[2]? = some (196 / 10) ∧ g[5]? = some (392 / 10) ∧ g[6]? = some 0
          ∧ g[0]? = some 0) := by
  obtain ⟨h1, ⟨g, h2, _, h3⟩, _, _, h5⟩ := gravity_term zeroKernels
    { exampleModel with
      state := ⟨⟨1, []⟩, [⟨0, 0, 0⟩, ⟨1, 0, 0⟩], [⟨10, 5, 30⟩, ⟨40, 50, 60⟩], [70]⟩ }
    [0, 0, 0, 0, 0, 0, 0] ⟨by decide, by decide⟩ (by decide)
  have hs : gravityPotentialSpec exampleSetup [⟨10, 5, 30⟩, ⟨40, 50, 60⟩] = 2940 := by
    simp only [gravityPotentialSpec, vertexWeight, exampleSetup, Vec3.smul, Vec3.dot]
    norm_num [List.range_succ]
  have h5' := h5 rfl rfl rfl
  refine ⟨?_, g, ?_, ?_, ?_, ?_, ?_⟩
  · rw [← hs]; exact h1
  · rw [← hs]; exact h2
  · have := h3 2
    rw [this, (h5' 0 ⟨0, 0, 0⟩).2]
    simp [exampleModel, ElasticShellModel.setProjM, exampleSetup]
    norm_num
  · have := h3 5
    rw [this, (h5' 1 ⟨0, 0, 0⟩).2]
    simp [exampleModel, ElasticShellModel.setProjM, exampleSetup]
    norm_num
  · have := h3 6
    rw [this]
    simp [exampleModel, ElasticShellModel.setProjM]
  · have := h3 0
    rw [this]
    simp [exampleModel, ElasticShellModel.setProjM, exampleSetup, vertexWeight, Vec3.smul,
      Vec3.neg, Vec3.coord]

/-! ## The all-clamped model -/

/-- C8 (evaluation at the failing input). With the single DOF clamped there is
no reduced DOF, yet `projectMatrix` turns the triplet `(0, 0, 1)` into
`(0, 0, 0)`, whose row and column are not below `projDOFs = 0`, so that it does
not fit the `0 x 0` matrix `setFromTriplets` is to fill. The same happens inside
`hessian` on a model with every DOF clamped as soon as a kernel deposits a
triplet, while with no triplet at all `hessian` returns the empty matrix. -/
theorem projectMatrix_all_clamped :
    (Projection.ctor [false]).projDOFs = 0
      ∧ (Projection.ctor [false]).projectMatrix [⟨0, 0, 1⟩] = some [⟨0, 0, 0⟩]
      ∧ ¬ (⟨0, 0, 0⟩ : Triplet).inRange (Projection.ctor [false]).projDOFs
            (Projection.ctor [false]).projDOFs
      ∧ setFromTriplets (Projection.ctor [false]).projDOFs (Projection.ctor [false]).projDOFs
          [⟨0, 0, 0⟩] = none
      ∧ allClampedModel.proj.projDOFs = 0
      ∧ allClampedModel.hessian oneTripletKernels [] = none
      ∧ (allClampedModel.hessian zeroKernels []).map (fun r => r.1) = some ⟨0, 0, []⟩ := by
  refine ⟨rfl, rfl, by decide, by decide, rfl, rfl, rfl⟩


theorem pointForceGradientSpec_cons (p : Int × ℚ) (ps : List (Int × ℚ)) (j : Nat) :
    pointForceGradientSpec (p :: ps) j
      = (if p.1 = (j : Int) then -p.2 else 0) + pointForceGradientSpec ps j := by
  unfold pointForceGradientSpec
  by_cases h : p.1 = (j : Int)
  · simp [List.filter_cons, h]
  · simp [List.filter_cons, h]

/-- The point-force loop of `gradient`, started with any accumulator and buffer:
the energy of the loop of `value`, and at every entry of `grad` the sum of
`-force` over the pairs configured at that index. -/
theorem pointForceGradient_fold (P : List Vec3) (pf : List (Int × ℚ)) :
    (∀ kv ∈ pf, 0 ≤ kv.1 ∧ kv.1 < 3 * (P.length : Int)) → ∀ (acc : ℚ) (grad : List ℚ),
    3 * P.length ≤ grad.length →
    ∃ g, pf.foldlM (fun acc pair => do
        let coordValue ← matGet P (Int.tdiv pair.1 3) (Int.tmod pair.1 3)
        let g ← addAtInt acc.2 pair.1 (-pair.2)
        pure (acc.1 + -pair.2 * coordValue, g)) (acc, grad)
          = some (acc + (pf.map (fun (p : Int × ℚ) => -p.2 * (posAt P p.1).getD 0)).sum, g)
      ∧ g.length = grad.length
      ∧ ∀ j : Nat, g[j]? = (grad[j]?).map (fun a => a + pointForceGradientSpec pf j) := by
  induction pf with
  | nil =>
    intro _ acc grad _
    refine ⟨grad, by simp, rfl, ?_⟩
    intro j
    cases grad[j]? <;> simp [pointForceGradientSpec]
  | cons p ps ih =>
    intro h acc grad hg
    obtain ⟨h0, h1⟩ := h p (List.mem_cons_self _ _)
    obtain ⟨a, ha⟩ := posAt_some P p.1 h0 h1
    have ha' : matGet P (Int.tdiv p.1 3) (Int.tmod p.1 3) = some a := ha
    have hlt : p.1.toNat < grad.length := by omega
    obtain ⟨g, hfold, hl, hj⟩ := ih (fun kv hkv => h kv (List.mem_cons_of_mem _ hkv))
      (acc + -p.2 * a) (addAt grad p.1.toNat (-p.2)) (by rw [addAt_length]; exact hg)
    refine ⟨g, ?_, by rw [hl, addAt_length], ?_⟩
    · simp only [List.foldlM_cons, ha', addAtInt, not_lt.mpr h0, hlt, if_true, if_false,
        Option.bind_eq_bind, Option.some_bind, Option.pure_def] at hfold ⊢
      rw [hfold]
      simp [ha, add_assoc]
    · intro j
      rw [hj j, addAt_getElem?, pointForceGradientSpec_cons]
      have hiff : (p.1 = (j : Int)) ↔ j = p.1.toNat := by omega
      by_cases e : j = p.1.toNat
      · rw [if_pos e, if_pos (hiff.2 e)]
        cases grad[j]? with
        | none => rfl
        | some b => simp only [Option.map_some']; congr 1; ring
      · rw [if_neg e, if_neg (fun x => e (hiff.1 x))]
        cases grad[j]? with
        | none => rfl
        | some b => simp

theorem pointForceGradient_spec (P : List Vec3) (pf : List (Int × ℚ)) (grad : List ℚ)
    (h : ∀ kv ∈ pf, 0 ≤ kv.1 ∧ kv.1 < 3 * (P.length : Int)) (hg : 3 * P.length ≤ grad.length) :
    ∃ g, pointForceGradient pf P grad
        = some ((pf.map (fun (p : Int × ℚ) => -p.2 * (posAt P p.1).getD 0)).sum, g)
      ∧ g.length = grad.length
      ∧ ∀ j : Nat, g[j]? = (grad[j]?).map (fun a => a + pointForceGradientSpec pf j) := by
  obtain ⟨g, h1, h2, h3⟩ := pointForceGradient_fold P pf h 0 grad hg
  rw [zero_add] at h1
  exact ⟨g, h1, h2, h3⟩

/-- For a `std::map` of point forces at most one pair is configured at an index,
so the sum of the specification is `-force` of that pair, or `0`. -/
theorem pointForceGradientSpec_sorted (pf : List (Int × ℚ)) (hs : MapSorted pf) (j : Nat) :
    pointForceGradientSpec pf j = match mapFind pf (j : Int) with
      | some f => -f
      | none => 0 := by
  induction pf with
  | nil => simp [pointForceGradientSpec, mapFind]
  | cons p ps ih =>
    obtain ⟨k, f⟩ := p
    have hs' : MapSorted ps := by
      unfold MapSorted at hs ⊢
      simp only [List.map_cons, List.pairwise_cons] at hs
      exact hs.2
    have hlt : ∀ kv ∈ ps, k < kv.1 := by
      unfold MapSorted at hs
      simp only [List.map_cons, List.pairwise_cons] at hs
      intro kv hkv
      exact hs.1 kv.1 (List.mem_map_of_mem _ hkv)
    rw [pointForceGradientSpec_cons, ih hs']
    by_cases e : k = (j : Int)
    · have hn : mapFind ps (j : Int) = none := by
        rw [← e]; exact mapFind_none_of_lt ps k hlt
      simp [mapFind, e, hn]
    · simp [mapFind, e]

/-- C11 (counterexample). With the point-force map holding the key 6, the full
index of the extra DOF of the edge (6 lies in `[0, total DOFs) = [0, 7)`), the
reconstructed state holds 70 at DOF 6, but the point-force loop reads
`curPos(6 / 3, 6 % 3) = curPos(2, 0)`, outside the `2 x 3` position matrix:
`value` yields no energy containing `-3 * 70`. -/
theorem point_force_edge_counterexample :
    (6, 3) ∈ edgeForceModel.setup.pointForces
      ∧ (6 : Int) < (edgeForceModel.fullDOFs : Int)
      ∧ (∃ st, edgeForceModel.convertVariables2CurState [10, 30, 40, 50, 60, 70] = some st
          ∧ st.dofValue 6 = some 70
          ∧ pointForceEnergy edgeForceModel.setup.pointForces st.curPos = none)
      ∧ ¬ ∃ r, edgeForceModel.value zeroKernels [10, 30, 40, 50, 60, 70] = some r := by
  refine ⟨by decide, by decide, ⟨_, rfl, rfl, rfl⟩, ?_⟩
  rintro ⟨r, hr⟩
  have : edgeForceModel.value zeroKernels [10, 30, 40, 50, 60, 70] = none := rfl
  rw [this] at hr
  exact absurd hr (by simp)

/-- C11 (amended). Point-force term for pairs at position DOF indices: the loop of
`value` and `hessian` computes the sum over the configured pairs of
`-force * curPos(dof / 3, dof % 3)`, which is the value of the state at that
DOF; the loop of `gradient` computes the same potential and adds `-force` to
the entry of `grad` at the DOF of each pair and nothing to any other entry; the
triplet list of `hessian` consists of the kernel outputs only. -/
theorem point_force_term (K : Kernels) (m : ElasticShellModel) (grad : List ℚ)
    (hl : m.LoadsWellFormed) (hs : MapSorted m.setup.pointForces)
    (hg : 3 * m.state.curPos.length ≤ grad.length) :
    pointForceEnergy m.setup.pointForces m.state.curPos
        = some (pointForcePotentialSpec m.setup.pointForces m.state)
      ∧ (∀ kv ∈ m.setup.pointForces, ∃ a, m.state.dofValue kv.1 = some a
          ∧ posAt m.state.curPos kv.1 = some a)
      ∧ (∃ g, pointForceGradient m.setup.pointForces m.state.curPos grad
            = some (pointForcePotentialSpec m.setup.pointForces m.state, g)
          ∧ g.length = grad.length
          ∧ ∀ j : Nat, g[j]? = (grad[j]?).map (fun a => a +
              match mapFind m.setup.pointForces (j : Int) with
              | some f => -f
              | none => 0))
      ∧ m.fullHessianT K m.state.curPos.length = some (fullHessianSpec K m) := by
  have hp := pointForcePotentialSpec_eq m.setup.pointForces m.state hl.2
  refine ⟨?_, ?_, ?_, fullHessianT_spec K m hl⟩
  · rw [hp]; exact pointForceEnergy_spec _ _ hl.2
  · intro kv hkv
    obtain ⟨h0, h1⟩ := hl.2 kv hkv
    obtain ⟨a, ha⟩ := posAt_some m.state.curPos kv.1 h0 h1
    exact ⟨a, by rw [dofValue_pos _ _ h1]; exact ha, ha⟩
  · obtain ⟨g, h1, h2, h3⟩ := pointForceGradient_spec m.state.curPos m.setup.pointForces grad
      hl.2 hg
    refine ⟨g, by rw [hp]; exact h1, h2, ?_⟩
    intro j
    rw [h3 j, pointForceGradientSpec_sorted _ hs j]

/-- The point-force term on the reconstructed example model (force 3 on the
z-coordinate of vertex 0, full index 2, positions `(10, 5, 30)`, `(40, 50, 60)`):
the potential is `-3 * 30 = -90`, entry 2 of a zero gradient becomes `-3` and
the other entries stay `0`. -/
theorem point_force_term_witness :
    pointForceEnergy exampleReconstructed.setup.pointForces exampleReconstructed.state.curPos
        = some (-90)
      ∧ (∃ g : List ℚ, pointForceGradient exampleReconstructed.setup.pointForces
            exampleReconstructed.state.curPos [0, 0, 0, 0, 0, 0, 0] = some (-90, g)
          ∧ g[2]? = some (-3 : ℚ) ∧ g[1]? = some (0 : ℚ) ∧ g[6]? = some (0 : ℚ)) := by
  obtain ⟨h1, _, ⟨g, h2, _, h3⟩, _⟩ := point_force_term zeroKernels exampleReconstructed
    [0, 0, 0, 0, 0, 0, 0] ⟨by decide, by decide⟩ (by decide) (by decide)
  have hs : pointForcePotentialSpec exampleReconstructed.setup.pointForces
      exampleReconstructed.state = -90 := by
    have hdv : exampleReconstructed.state.dofValue 2 = some 30 := rfl
    have hpf : exampleReconstructed.setup.pointForces = [(2, 3)] := rfl
    simp only [pointForcePotentialSpec, hpf, List.map, hdv]
    norm_num
  have e2 : mapFind exampleReconstructed.setup.pointForces ((2 : Nat) : Int) = some 3 := rfl
  have e1 : mapFind exampleReconstructed.setup.pointForces ((1 : Nat) : Int) = none := rfl
  have e6 : mapFind exampleReconstructed.setup.pointForces ((6 : Nat) : Int) = none := rfl
  rw [hs] at h1 h2
  refine ⟨h1, g, h2, ?_, ?_, ?_⟩
  · rw [h3 2, e2]; norm_num
  · rw [h3 1, e1]; norm_num
  · rw [h3 6, e6]; norm_num



theorem getD_of_getElem? (l : List ℚ) (j : Nat) (a : ℚ) (h : l[j]? = some a) :
    l.getD j 0 = a := by
  rw [List.getD_eq_getElem?_getD, h]; rfl

theorem vecAdd_getElem? (a b g : List ℚ) (h : vecAdd a b = some g) (j : Nat)
    (hj : j < a.length) : g[j]? = some (a.getD j 0 + b.getD j 0) := by
  unfold vecAdd at h
  split_ifs at h with hl
  have e := Option.some.inj h
  subst e
  have hb : j < b.length := by omega
  simp [List.getElem?_zipWith, List.getElem?_eq_getElem hj, List.getElem?_eq_getElem hb,
    List.getD_eq_getElem?_getD]

theorem addHead_getElem? (v w g : List ℚ) (n : Nat) (h : addHead v n w = some g) (j : Nat)
    (hj : j < v.length) :
    g[j]? = some (v.getD j 0 + if j < n then w.getD j 0 else 0) := by
  unfold addHead at h
  split_ifs at h with hl
  have e := Option.some.inj h
  subst e
  obtain ⟨h1, h2⟩ := hl
  by_cases c : j < n
  · have hw : j < w.length := by omega
    rw [List.getElem?_append_left (by simp [h2]; omega)]
    simp [List.getElem?_zipWith, List.getElem?_take, c, List.getElem?_eq_getElem hj,
      List.getElem?_eq_getElem hw, List.getD_eq_getElem?_getD]
  · have hlen : (List.zipWith (· + ·) (List.take n v) w).length = n := by simp [h2]; omega
    rw [List.getElem?_append_right (by rw [hlen]; omega), hlen, List.getElem?_drop]
    have e : n + (j - n) = j := by omega
    rw [e]
    simp [c, List.getElem?_eq_getElem hj, List.getD_eq_getElem?_getD]

/-- The loop of `projectVector` copies `fullVec[invdofmap[k]]` to entry `k`. -/
theorem projectVectorLoop_getElem? (v : List ℚ) : ∀ (js : List Nat) (pv : List ℚ),
    projectVectorLoop v js = some pv →
    pv.length = js.length ∧ ∀ (k j : Nat), js[k]? = some j → pv[k]? = v[j]? := by
  intro js
  induction js with
  | nil =>
    intro pv h
    simp only [projectVectorLoop, Option.some.injEq] at h
    subst h
    exact ⟨rfl, by simp⟩
  | cons j0 js ih =>
    intro pv h
    simp only [projectVectorLoop, Option.bind_eq_bind, Option.pure_def] at h
    cases hv : v[j0]? with
    | none => rw [hv] at h; simp at h
    | some a =>
      rw [hv] at h
      simp only [Option.some_bind] at h
      cases hr : projectVectorLoop v js with
      | none => rw [hr] at h; simp at h
      | some rest =>
        rw [hr] at h
        simp only [Option.some_bind, Option.some.injEq] at h
        subst h
        obtain ⟨hl, hi⟩ := ih rest hr
        refine ⟨by simp [hl], ?_⟩
        intro k j hk
        cases k with
        | zero =>
          simp only [List.getElem?_cons_zero, Option.some.injEq] at hk
          subst hk
          simp [hv]
        | succ k =>
          simp only [List.getElem?_cons_succ] at hk
          simpa using hi k j hk

theorem gravityGradient_getElem? (setup : ElasticSetup) (curPos : List Vec3) (grad g : List ℚ)
    (e : ℚ) (h1 : curPos.length ≤ setup.vertArea.length) (h2 : 3 * curPos.length ≤ grad.length)
    (h : gravityGradient setup curPos curPos.length grad = some (e, g)) (j : Nat)
    (hj : j < grad.length) :
    g[j]? = some (grad.getD j 0 + if j < 3 * curPos.length then
      (vertexWeight setup (j / 3)).neg.coord (j % 3) else 0) := by
  obtain ⟨g', hg', _, hp⟩ := gravityGradient_spec setup curPos grad curPos.length (le_refl _)
    h1 h2
  rw [hg'] at h
  have eg : g' = g := (Prod.mk.inj (Option.some.inj h)).2
  subst eg
  rw [hp j]
  by_cases c : j < 3 * curPos.length
  · simp [c, List.getElem?_eq_getElem hj, List.getD_eq_getElem?_getD]
  · simp [c, List.getElem?_eq_getElem hj, List.getD_eq_getElem?_getD]

/-- The vector `gradient` has accumulated before the projection is, entry by
entry, the full-space sum of the specification. -/
theorem fullGradient_spec (K : Kernels) (m : ElasticShellModel) (grad : List ℚ)
    (hl : m.LoadsWellFormed) (hk : GradientSized K m grad) :
    ∃ g, m.fullGradient K m.state.curPos.length grad = some g ∧ g.length = m.fullDOFs
      ∧ ∀ j : Nat, j < m.fullDOFs → g[j]? = some (fullGradientSpec K m grad j) := by
  obtain ⟨hva, hpf⟩ := hl
  obtain ⟨hs, hb, hp, hq⟩ := hk
  have h3 : 3 * m.state.curPos.length ≤ m.fullDOFs := by
    unfold ElasticShellModel.fullDOFs; omega
  obtain ⟨g1, e1, l1⟩ := vecAdd_some _ _ (hs.trans hb.symm)
  rw [hs] at l1
  have step2 : ∃ g2, pressureGradientBlock K m m.state.curPos.length g1 = some g2
      ∧ g2.length = m.fullDOFs
      ∧ ∀ j : Nat, j < m.fullDOFs → g2[j]? = some (g1.getD j 0 +
          if 0 < m.setup.pressure ∧ j < 3 * m.state.curPos.length then
            (pressureCall K m (some []) none).derivative.getD j 0 else 0) := by
    unfold pressureGradientBlock
    by_cases c : m.setup.pressure > 0
    · obtain ⟨g2, e2, l2⟩ := addHead_some g1 _ (3 * m.state.curPos.length) (by omega) (hp c)
      refine ⟨g2, by simp [c, e2], by omega, ?_⟩
      intro j hj
      rw [addHead_getElem? _ _ _ _ e2 j (by omega)]
      have c' : 0 < m.setup.pressure := c
      simp [c']
    · refine ⟨g1, by simp [c], l1, ?_⟩
      intro j hj
      have c' : ¬ 0 < m.setup.pressure := c
      simp [c', List.getElem?_eq_getElem (show j < g1.length by omega),
        List.getD_eq_getElem?_getD]
  obtain ⟨g2, e2, l2, p2⟩ := step2
  obtain ⟨g3, e3, l3, _⟩ := gravityGradient_spec m.setup m.state.curPos g2
    m.state.curPos.length (le_refl _) hva (by omega)
  have p3 := fun j hj => gravityGradient_getElem? m.setup m.state.curPos g2 g3 _ hva
    (by omega) e3 j hj
  obtain ⟨g4, e4, l4, p4⟩ := pointForceGradient_spec m.state.curPos m.setup.pointForces g3
    hpf (by omega)
  have step5 : ∃ g5, penaltyGradientBlock K m m.state.curPos.length g4 = some g5
      ∧ g5.length = m.fullDOFs
      ∧ ∀ j : Nat, j < m.fullDOFs → g5[j]? = some (g4.getD j 0 +
          if 0 < m.setup.penaltyK ∧ j < 3 * m.state.curPos.length then
            (penaltyCall K m (some []) none false).derivative.getD j 0 else 0) := by
    unfold penaltyGradientBlock
    by_cases c : m.setup.penaltyK > 0
    · obtain ⟨g5, e5, l5⟩ := addHead_some g4 _ (3 * m.state.curPos.length) (by omega) (hq c)
      refine ⟨g5, by simp [c, e5], by omega, ?_⟩
      intro j hj
      rw [addHead_getElem? _ _ _ _ e5 j (by omega)]
      have c' : 0 < m.setup.penaltyK := c
      simp [c']
    · refine ⟨g4, by simp [c], by omega, ?_⟩
      intro j hj
      have c' : ¬ 0 < m.setup.penaltyK := c
      simp [c', List.getElem?_eq_getElem (show j < g4.length by omega),
        List.getD_eq_getElem?_getD]
  obtain ⟨g5, e5, l5, p5⟩ := step5
  refine ⟨g5, ?_, l5, ?_⟩
  · unfold ElasticShellModel.fullGradient
    simp only [hs, e1, Option.bind_eq_bind, Option.some_bind, e2, e3, e4, e5]
  · intro j hj
    have q1 := vecAdd_getElem? _ _ _ e1 j (by rw [hs]; exact hj)
    have q2 := p2 j hj
    have q3 := p3 j (by omega)
    have q4 := p4 j
    have q5 := p5 j hj
    have d1 := getD_of_getElem? _ _ _ q1
    have d2 := getD_of_getElem? _ _ _ q2
    rw [q3] at q4
    simp only [Option.map_some'] at q4
    have d4 := getD_of_getElem? _ _ _ q4
    rw [q5, d4, d2, d1]
    unfold fullGradientSpec
    congr 1
    ring

/-- The vector `gradient` returns: entry `k` is the full-space sum of the
specification at the full index `invdofmap[k]`. -/
theorem gradient_spec (K : Kernels) (m : ElasticShellModel) (x grad : List ℚ)
    (st : ElasticState) (hwf : m.WellFormed)
    (hst : m.convertVariables2CurState x = some st)
    (hlen : st.curPos.length = m.state.curPos.length) (hmesh : st.mesh = m.state.mesh)
    (hl : m.LoadsWellFormed) (hk : GradientSized K { m with state := st } grad) :
    ∃ g, m.gradient K x grad = some (g, { m with state := st })
      ∧ g.length = m.proj.projDOFs
      ∧ ∀ (k i : Nat), m.proj.invdofmap[k]? = some i →
          i < m.fullDOFs ∧ g[k]? = some (fullGradientSpec K { m with state := st } grad i) := by
  have hl' : ({ m with state := st } : ElasticShellModel).LoadsWellFormed :=
    ⟨by simpa [hlen] using hl.1, by simpa [hlen] using hl.2⟩
  obtain ⟨gf, e1, l1, p1⟩ := fullGradient_spec K { m with state := st } grad hl' hk
  rw [fullDOFs_state m st hlen hmesh] at l1 p1
  have hp := hwf.proj_eq
  obtain ⟨pv, e2, l2⟩ := projectVector_ctor_some
    (keepDOFs m.setup m.state.curPos.length m.state.mesh.nEdges) gf (by
      rw [keepDOFs_length]; exact l1)
  rw [← hp] at e2 l2
  refine ⟨pv, ?_, l2, ?_⟩
  · unfold ElasticShellModel.gradient
    simp only [hst, Option.bind_eq_bind, Option.some_bind]
    simp only [] at e1
    rw [hlen] at e1
    simp only [e1, Option.some_bind, e2, Option.pure_def]
  · intro k i hk
    have hmem : i ∈ m.proj.invdofmap := List.getElem?_mem hk
    have hi : i < m.fullDOFs := by
      rw [hp, ctor_invdofmap] at hmem
      have h := ((invdofmapOf_mem _ 0 i).1 hmem).2
      rw [Nat.sub_zero] at h
      have := (List.getElem?_eq_some.1 h).1
      rw [keepDOFs_length] at this
      exact this
    refine ⟨hi, ?_⟩
    have := (projectVectorLoop_getElem? gf m.proj.invdofmap pv e2).2 k i hk
    rw [this, p1 i hi]



theorem invdofmap_free (m : ElasticShellModel) (hwf : m.WellFormed) (k i : Nat)
    (hk : m.proj.invdofmap[k]? = some i) :
    i < m.fullDOFs ∧ mapFind m.setup.clampedDOFs (i : Int) = none := by
  have hp := hwf.proj_eq
  rw [hp, ctor_invdofmap] at hk
  have hflag := invdofmapOf_free _ k i hk
  have hi : i < m.fullDOFs := by
    have := (List.getElem?_eq_some.1 hflag).1
    rw [keepDOFs_length] at this
    exact this
  refine ⟨hi, ?_⟩
  by_cases c : i < 3 * m.state.curPos.length
  · rw [keepDOFs_vertex _ _ _ _ c] at hflag
    exact (mapFind_isNone_iff _ _).1 (Option.some.inj hflag)
  · cases hfind : mapFind m.setup.clampedDOFs (i : Int) with
    | none => rfl
    | some v =>
      have := (hwf.clamped_range _ (mapFind_some_mem _ _ _ hfind)).2
      simp only at this
      omega

theorem Tracks.le (P : ℚ → Prop) (a0 aF : ℚ × Bool) (h : Tracks P a0 aF) : aF.1 ≤ a0.1 := by
  rcases h.2 with e | ⟨_, _, e⟩
  · rw [e]
  · exact le_of_lt e

theorem Tracks.same (P : ℚ → Prop) (a : ℚ × Bool) (h : ∀ t, ¬ P t) : Tracks P a a :=
  ⟨fun t ht _ => absurd ht (h t), Or.inl rfl⟩

theorem Tracks.congr (P Q : ℚ → Prop) (a0 aF : ℚ × Bool) (h : Tracks P a0 aF)
    (hPQ : ∀ t, P t ↔ Q t) : Tracks Q a0 aF := by
  refine ⟨fun t ht hlt => h.1 t ((hPQ t).2 ht) hlt, ?_⟩
  rcases h.2 with e | ⟨e1, e2, e3⟩
  · exact Or.inl e
  · exact Or.inr ⟨(hPQ _).1 e1, e2, e3⟩

theorem Tracks.comp (P Q : ℚ → Prop) (a0 a1 a2 : ℚ × Bool) (h1 : Tracks P a0 a1)
    (h2 : Tracks Q a1 a2) : Tracks (fun t => P t ∨ Q t) a0 a2 := by
  have l1 := Tracks.le P a0 a1 h1
  have l2 := Tracks.le Q a1 a2 h2
  refine ⟨?_, ?_⟩
  · intro t ht hlt
    rcases ht with ht | ht
    · exact le_trans l2 (h1.1 t ht hlt)
    · by_cases c : t < a1.1
      · exact h2.1 t ht c
      · exact le_trans l2 (not_lt.1 c)
  · rcases h2.2 with e | ⟨e1, e2, e3⟩
    · rcases h1.2 with d | ⟨d1, d2, d3⟩
      · exact Or.inl (by rw [e, d])
      · right
        rw [e]
        exact ⟨Or.inl d1, d2, d3⟩
    · exact Or.inr ⟨Or.inr e1, e2, lt_of_lt_of_le e3 l1⟩

theorem trackStep_tracks (acc : ℚ × Bool) (r : Bool × ℚ) :
    Tracks (fun t => r = (true, t)) acc (trackStep acc r) := by
  unfold trackStep
  by_cases c : r.1 = true ∧ r.2 < acc.1
  · rw [if_pos c]
    refine ⟨?_, Or.inr ⟨?_, rfl, c.2⟩⟩
    · intro t ht _
      rw [ht]
    · exact Prod.ext c.1 rfl
  · rw [if_neg c]
    refine ⟨?_, Or.inl rfl⟩
    intro t ht hlt
    exfalso
    apply c
    rw [ht]
    exact ⟨rfl, hlt⟩

/-- A loop whose body tracks the times of impact of each element tracks those of
all elements. -/
theorem foldlM_tracks {α : Type} (f : ℚ × Bool → α → Option (ℚ × Bool)) (P : α → ℚ → Prop)
    (xs : List α)
    (h : ∀ a ∈ xs, ∀ acc, ∃ acc', f acc a = some acc' ∧ Tracks (P a) acc acc') :
    ∀ acc, ∃ accF, xs.foldlM f acc = some accF
      ∧ Tracks (fun t => ∃ a ∈ xs, P a t) acc accF := by
  induction xs with
  | nil =>
    intro acc
    exact ⟨acc, rfl, Tracks.same _ _ (by simp)⟩
  | cons a as ih =>
    intro acc
    obtain ⟨acc1, e1, t1⟩ := h a (List.mem_cons_self _ _) acc
    obtain ⟨accF, e2, t2⟩ := ih (fun b hb => h b (List.mem_cons_of_mem _ hb)) acc1
    refine ⟨accF, ?_, ?_⟩
    · rw [List.foldlM_cons, e1]
      exact e2
    · refine Tracks.congr _ _ _ _ (Tracks.comp _ _ _ _ _ t1 t2) ?_
      intro t
      simp

theorem buildAABBs_length (C : CollisionKernels) (obs : List Obstacle) :
    (buildAABBs C obs).length = obs.length := by
  simp [buildAABBs]

/-- The scan of `getMaxStep` succeeds when the candidate faces are valid and the
two position matrices have the same number of rows, and tracks the reported
times of impact from `scale = 1`, `isCollision = false`. -/
theorem collisionScan_tracks (C : CollisionKernels) (obs : List Obstacle)
    (startV updatedV : List Vec3) (hlen : updatedV.length = startV.length)
    (hv : CandidatesValid C obs startV updatedV) :
    ∃ r, collisionScan C obs startV updatedV = some r
      ∧ Tracks (Reported C obs startV updatedV) (1, false) r := by
  unfold collisionScan
  obtain ⟨r, hr, ht⟩ := foldlM_tracks (vertexStep C obs (buildAABBs C obs) startV updatedV)
    (fun (i : Nat) (t : ℚ) => ∃ (j : Nat) (s e : Vec3) (aabb : C.AABB) (ob : Obstacle)
      (face : Int), startV[i]? = some s ∧ updatedV[i]? = some e
        ∧ (buildAABBs C obs)[j]? = some (some aabb) ∧ obs[j]? = some ob
        ∧ face ∈ C.intersect aabb (sweptLine s e)
        ∧ faceTest C ob s e face = some (true, t))
    (List.range startV.length) (by
      intro i hi acc
      have hi' : i < startV.length := List.mem_range.1 hi
      have hiu : i < updatedV.length := by omega
      have hs := List.getElem?_eq_getElem hi'
      have he := List.getElem?_eq_getElem hiu
      obtain ⟨accF, hF, tF⟩ := foldlM_tracks
        (obstacleStep C obs (buildAABBs C obs) startV[i] updatedV[i])
        (fun (j : Nat) (t : ℚ) => ∃ (aabb : C.AABB) (ob : Obstacle) (face : Int),
          (buildAABBs C obs)[j]? = some (some aabb) ∧ obs[j]? = some ob
            ∧ face ∈ C.intersect aabb (sweptLine startV[i] updatedV[i])
            ∧ faceTest C ob startV[i] updatedV[i] face = some (true, t))
        (List.range obs.length) (by
          intro j hj acc
          have hj' : j < obs.length := List.mem_range.1 hj
          have hob := List.getElem?_eq_getElem hj'
          have hja : j < (buildAABBs C obs).length := by rw [buildAABBs_length]; exact hj'
          have ha := List.getElem?_eq_getElem hja
          cases hcase : (buildAABBs C obs)[j] with
          | none =>
            rw [hcase] at ha
            refine ⟨acc, by simp [obstacleStep, ha], Tracks.same _ _ ?_⟩
            rintro t ⟨aabb, ob, face, h1, _⟩
            rw [ha] at h1
            simp at h1
          | some aabb =>
            rw [hcase] at ha
            obtain ⟨accF, hF, tF⟩ := foldlM_tracks
              (faceStep C obs[j] startV[i] updatedV[i])
              (fun (face : Int) (t : ℚ) =>
                faceTest C obs[j] startV[i] updatedV[i] face = some (true, t))
              (C.intersect aabb (sweptLine startV[i] updatedV[i])) (by
                intro face hface acc
                obtain ⟨r, hr⟩ := hv i j _ _ aabb _ face hs he ha hob hface
                refine ⟨trackStep acc r, by simp [faceStep, hr], ?_⟩
                refine Tracks.congr _ _ _ _ (trackStep_tracks acc r) ?_
                intro t
                show r = (true, t) ↔ faceTest C obs[j] startV[i] updatedV[i] face
                  = some (true, t)
                rw [hr]
                simp) acc
            refine ⟨accF, by simp [obstacleStep, ha, hob, hF], ?_⟩
            refine Tracks.congr _ _ _ _ tF ?_
            intro t
            constructor
            · rintro ⟨face, h1, h2⟩
              exact ⟨aabb, _, face, ha, hob, h1, h2⟩
            · rintro ⟨aabb', ob', face, h1, h2, h3, h4⟩
              rw [ha] at h1
              rw [hob] at h2
              have e1 : aabb = aabb' := Option.some.inj (Option.some.inj h1)
              have e2 := Option.some.inj h2
              subst e1
              subst e2
              exact ⟨face, h3, h4⟩) acc
      refine ⟨accF, by simp [vertexStep, hs, he, hF], ?_⟩
      refine Tracks.congr _ _ _ _ tF ?_
      intro t
      constructor
      · rintro ⟨j, _, aabb, ob, face, h1, h2, h3, h4⟩
        exact ⟨j, _, _, aabb, ob, face, hs, he, h1, h2, h3, h4⟩
      · rintro ⟨j, s, e, aabb, ob, face, g1, g2, h1, h2, h3, h4⟩
        rw [hs] at g1
        rw [he] at g2
        have e1 := Option.some.inj g1
        have e2 := Option.some.inj g2
        subst e1
        subst e2
        refine ⟨j, ?_, aabb, ob, face, h1, h2, h3, h4⟩
        by_contra hc
        rw [List.getElem?_eq_none (by simpa using hc)] at h2
        simp at h2) (1, false)
  refine ⟨r, hr, Tracks.congr _ _ _ _ ht ?_⟩
  intro t
  unfold Reported
  constructor
  · rintro ⟨i, _, j, s, e, aabb, ob, face, h⟩
    exact ⟨i, j, s, e, aabb, ob, face, h⟩
  · rintro ⟨i, j, s, e, aabb, ob, face, h⟩
    refine ⟨i, ?_, j, s, e, aabb, ob, face, h⟩
    exact List.mem_range.2 (List.getElem?_eq_some.1 h.1).1



/-- What `getMaxStep` does in the contact branch on valid inputs: both
reconstructions and the scan succeed, the scan tracks the reported times of
impact, and the result is `scale * step * 0.95` or `scale * step` depending on
`isCollision`; the model is returned as it was. -/
theorem getMaxStep_spec (C : CollisionKernels) (m : ElasticShellModel) (x dir : List ℚ)
    (step : ℚ) (hpen : 0 < m.setup.penaltyK) (hv : m.StepInputsValid C x dir step) :
    ∃ (r : ℚ × Bool), Tracks (m.ReportedAt C x dir step) (1, false) r
      ∧ m.getMaxStep C x dir step
          = some (if r.2 = true then r.1 * step * (95 / 100) else r.1 * step, m) := by
  obtain ⟨hwf, hx, hdir, hcand⟩ := hv
  obtain ⟨updated, hu, hul⟩ := vecAdd_some x (dir.map (fun (d : ℚ) => d * step))
    (by simp [hdir])
  obtain ⟨s1, hs1, hl1, _, _⟩ := convert_clamped m x hwf hx
  obtain ⟨s2, hs2, hl2, _, _⟩ := convert_clamped m updated hwf (by rw [hul]; exact hx)
  obtain ⟨r, hr, ht⟩ := collisionScan_tracks C m.setup.obs s1.curPos s2.curPos
    (by rw [hl1, hl2]) (hcand updated s1 s2 hu hs1 hs2)
  refine ⟨r, Tracks.congr _ _ _ _ ht ?_, ?_⟩
  · intro t
    constructor
    · intro h
      exact ⟨updated, s1, s2, hu, hs1, hs2, h⟩
    · rintro ⟨u', a, b, h1, h2, h3, h4⟩
      rw [hu] at h1
      have e1 := Option.some.inj h1
      subst e1
      rw [hs1] at h2
      rw [hs2] at h3
      have e2 := Option.some.inj h2
      have e3 := Option.some.inj h3
      subst e2
      subst e3
      exact h4
  · unfold ElasticShellModel.getMaxStep
    have hpen' : m.setup.penaltyK > 0 := hpen
    rw [if_pos hpen']
    simp only [hu, hs1, hs2, hr, Option.bind_eq_bind, Option.some_bind, Option.pure_def]
    by_cases c : r.2 = true <;> simp [c]

theorem tracks_none (P : ℚ → Prop) (r : ℚ × Bool) (h : Tracks P (1, false) r)
    (hno : ¬ ∃ t, P t ∧ t < 1) : r = (1, false) := by
  rcases h.2 with e | ⟨e1, _, e3⟩
  · exact e
  · exact absurd ⟨r.1, e1, e3⟩ hno

theorem tracks_some (P : ℚ → Prop) (r : ℚ × Bool) (h : Tracks P (1, false) r)
    (hex : ∃ t, P t ∧ t < 1) :
    P r.1 ∧ r.2 = true ∧ r.1 < 1 ∧ ∀ t, P t → r.1 ≤ t := by
  rcases h.2 with e | ⟨e1, e2, e3⟩
  · obtain ⟨t, ht, hlt⟩ := hex
    have := h.1 t ht hlt
    rw [e] at this
    exact absurd hlt (not_lt.2 this)
  · refine ⟨e1, e2, e3, ?_⟩
    intro t ht
    by_cases c : t < 1
    · exact h.1 t ht c
    · exact le_trans (le_of_lt e3) (not_lt.1 c)

/-- The result of `getMaxStep` when no test reports a time of impact below 1. -/
theorem getMaxStep_unchanged (C : CollisionKernels) (m : ElasticShellModel) (x dir : List ℚ)
    (step : ℚ) (hpen : 0 < m.setup.penaltyK) (hv : m.StepInputsValid C x dir step)
    (hno : ¬ ∃ t, m.ReportedAt C x dir step t ∧ t < 1) :
    m.getMaxStep C x dir step = some (step, m) := by
  obtain ⟨r, ht, hr⟩ := getMaxStep_spec C m x dir step hpen hv
  have e := tracks_none _ r ht hno
  rw [hr, e]
  simp

/-- The result of `getMaxStep` when some test reports a time of impact below 1. -/
theorem getMaxStep_reduced (C : CollisionKernels) (m : ElasticShellModel) (x dir : List ℚ)
    (step : ℚ) (hpen : 0 < m.setup.penaltyK) (hv : m.StepInputsValid C x dir step)
    (hex : ∃ t, m.ReportedAt C x dir step t ∧ t < 1) :
    ∃ tmin, m.ReportedAt C x dir step tmin ∧ tmin < 1
      ∧ (∀ t, m.ReportedAt C x dir step t → tmin ≤ t)
      ∧ m.getMaxStep C x dir step = some (tmin * step * (95 / 100), m) := by
  obtain ⟨r, ht, hr⟩ := getMaxStep_spec C m x dir step hpen hv
  obtain ⟨h1, h2, h3, h4⟩ := tracks_some _ r ht hex
  refine ⟨r.1, h1, h3, h4, ?_⟩
  rw [hr, if_pos h2]

/-- C14. Step limiter without contact: when the penalty stiffness is 0,
`getMaxStep` returns `maxStepSize` if that is positive and 1 otherwise, whatever
`x`, the direction, the proposed scale, the obstacles and the collision
routines are. -/
theorem getMaxStep_no_contact (C : CollisionKernels) (m : ElasticShellModel) (x dir : List ℚ)
    (step : ℚ) (hpen : m.setup.penaltyK = 0) :
    m.getMaxStep C x dir step
      = some (if m.setup.maxStepSize > 0 then m.setup.maxStepSize else 1, m) := by
  unfold ElasticShellModel.getMaxStep
  have : ¬ m.setup.penaltyK > 0 := by rw [hpen]; exact lt_irrefl 0
  rw [if_neg this]
  rfl

/-- The example model has penalty stiffness 0 and `maxStepSize = 1`: the limiter
returns 1 for any arguments. -/
theorem getMaxStep_no_contact_witness :
    exampleModel.getMaxStep (hitKernels (1 / 2)) [10, 30, 40, 50, 60, 70] [1, 1, 1, 1, 1, 1] 7
      = some (if exampleModel.setup.maxStepSize > 0 then exampleModel.setup.maxStepSize else 1,
          exampleModel) :=
  getMaxStep_no_contact (hitKernels (1 / 2)) exampleModel [10, 30, 40, 50, 60, 70]
    [1, 1, 1, 1, 1, 1] 7 rfl



theorem contactModel_obs :
    contactModel.setup.obs = [⟨[⟨0, 0, 0⟩, ⟨1, 0, 0⟩, ⟨0, 1, 0⟩], [(0, 1, 2)]⟩] := rfl

theorem hitKernels_faceTest (toi : ℚ) (s e : Vec3) :
    faceTest (hitKernels toi) ⟨[⟨0, 0, 0⟩, ⟨1, 0, 0⟩, ⟨0, 1, 0⟩], [(0, 1, 2)]⟩ s e 0
      = some (true, toi) := rfl

theorem contactModel_candidate (j : Nat) (ob : Obstacle)
    (h : contactModel.setup.obs[j]? = some ob) :
    ob = ⟨[⟨0, 0, 0⟩, ⟨1, 0, 0⟩, ⟨0, 1, 0⟩], [(0, 1, 2)]⟩ := by
  rw [contactModel_obs] at h
  cases j with
  | zero => exact (Option.some.inj h).symm
  | succ j => simp at h

/-- The inputs of the contact example are valid for every `x` and `dir` with
three entries. -/
theorem contactModel_valid (toi : ℚ) (x dir : List ℚ) (step : ℚ) (hx : x.length = 3)
    (hdir : dir.length = 3) : contactModel.StepInputsValid (hitKernels toi) x dir step := by
  refine ⟨⟨rfl, by decide, by decide⟩, hx, by rw [hdir, hx], ?_⟩
  intro updated s1 s2 _ _ _ i j s e aabb ob face _ _ _ h4 h5
  have hob := contactModel_candidate j ob h4
  have hface : face = 0 := by
    have : face ∈ ([0] : List Int) := h5
    simpa using this
  subst hob
  subst hface
  exact ⟨_, hitKernels_faceTest toi s e⟩

/-- In the contact example every test reports the time of impact `toi`, and
nothing else is reported. -/
theorem contactModel_reported (toi : ℚ) (x dir : List ℚ) (step t : ℚ) (hx : x.length = 3)
    (hdir : dir.length = 3) :
    contactModel.ReportedAt (hitKernels toi) x dir step t ↔ t = toi := by
  constructor
  · rintro ⟨updated, s1, s2, _, _, _, i, j, s, e, aabb, ob, face, _, _, _, h4, h5, h6⟩
    have hob := contactModel_candidate j ob h4
    have hface : face = 0 := by
      have : face ∈ ([0] : List Int) := h5
      simpa using this
    subst hob
    subst hface
    rw [hitKernels_faceTest] at h6
    exact (Prod.mk.inj (Option.some.inj h6)).2.symm
  · intro ht
    subst ht
    have hwf : contactModel.WellFormed := ⟨rfl, by decide, by decide⟩
    obtain ⟨updated, hu, hul⟩ := vecAdd_some x (dir.map (fun (d : ℚ) => d * step))
      (by simp [hdir, hx])
    obtain ⟨s1, hs1, hl1, _, _⟩ := convert_clamped contactModel x hwf hx
    obtain ⟨s2, hs2, hl2, _, _⟩ := convert_clamped contactModel updated hwf
      (by rw [hul]; exact hx)
    have n1 : 0 < s1.curPos.length := by rw [hl1]; decide
    have n2 : 0 < s2.curPos.length := by rw [hl2]; decide
    exact ⟨updated, s1, s2, hu, hs1, hs2, 0, 0, s1.curPos[0], s2.curPos[0], (), _, 0,
      List.getElem?_eq_getElem n1, List.getElem?_eq_getElem n2, rfl, rfl,
      List.mem_singleton.2 rfl, hitKernels_faceTest t _ _⟩

theorem contactExample_valid (toi step : ℚ) :
    contactModel.StepInputsValid (hitKernels toi) [0, 0, 1] [0, 0, -1] step :=
  contactModel_valid toi [0, 0, 1] [0, 0, -1] step rfl rfl

theorem contactExample_reported (toi step t : ℚ) :
    contactModel.ReportedAt (hitKernels toi) [0, 0, 1] [0, 0, -1] step t ↔ t = toi :=
  contactModel_reported toi [0, 0, 1] [0, 0, -1] step t rfl rfl

/-- C15 (counterexample). One vertex, one obstacle face, and the test reports a
collision at the time of impact 1, which lies in `(0, 1]`: `getMaxStep` returns
the proposed scale 1, not `1 * 1 * 0.95`, because `isCollision` is only set when
`t < scale` and `scale` starts at 1. -/
theorem getMaxStep_contact_counterexample :
    contactModel.ReportedAt (hitKernels 1) [0, 0, 1] [0, 0, -1] 1 1
      ∧ (∀ t, contactModel.ReportedAt (hitKernels 1) [0, 0, 1] [0, 0, -1] 1 t → 1 ≤ t)
      ∧ contactModel.getMaxStep (hitKernels 1) [0, 0, 1] [0, 0, -1] 1 = some (1, contactModel)
      ∧ (1 : ℚ) ≠ 1 * 1 * (95 / 100) := by
  refine ⟨(contactExample_reported 1 1 1).2 rfl, ?_, ?_, by norm_num⟩
  · intro t ht
    rw [(contactExample_reported 1 1 t).1 ht]
  · apply getMaxStep_unchanged _ _ _ _ _ (by decide) (contactExample_valid 1 1)
    rintro ⟨t, ht, hlt⟩
    rw [(contactExample_reported 1 1 t).1 ht] at hlt
    exact absurd hlt (lt_irrefl 1)

/-- C15 (amended). Step limiter with contact: when the penalty stiffness is
positive and the inputs are valid, if at least one test reports a collision
with a time of impact below 1, `getMaxStep` returns the smallest reported time
of impact times the proposed scale times 0.95; if no test reports a collision
with a time of impact below 1, it returns the proposed scale unchanged. -/
theorem getMaxStep_contact (C : CollisionKernels) (m : ElasticShellModel) (x dir : List ℚ)
    (step : ℚ) (hpen : 0 < m.setup.penaltyK) (hv : m.StepInputsValid C x dir step) :
    ((∃ t, m.ReportedAt C x dir step t ∧ t < 1) →
        ∃ tmin, m.ReportedAt C x dir step tmin
          ∧ (∀ t, m.ReportedAt C x dir step t → tmin ≤ t)
          ∧ m.getMaxStep C x dir step = some (tmin * step * (95 / 100), m))
      ∧ ((¬ ∃ t, m.ReportedAt C x dir step t ∧ t < 1) →
          m.getMaxStep C x dir step = some (step, m)) := by
  refine ⟨?_, getMaxStep_unchanged C m x dir step hpen hv⟩
  intro hex
  obtain ⟨tmin, h1, _, h3, h4⟩ := getMaxStep_reduced C m x dir step hpen hv hex
  exact ⟨tmin, h1, h3, h4⟩

/-- The amended statement on the contact example: with the time of impact 0.5
and the proposed scale 2 the limiter returns `0.5 * 2 * 0.95`. -/
theorem getMaxStep_contact_witness :
    contactModel.getMaxStep (hitKernels (1 / 2)) [0, 0, 1] [0, 0, -1] 2
      = some (1 / 2 * 2 * (95 / 100), contactModel) := by
  obtain ⟨tmin, h1, _, h3⟩ := (getMaxStep_contact (hitKernels (1 / 2)) contactModel
    [0, 0, 1] [0, 0, -1] 2 (by decide) (contactExample_valid (1 / 2) 2)).1
    ⟨1 / 2, (contactExample_reported (1 / 2) 2 _).2 rfl, by norm_num⟩
  rw [(contactExample_reported (1 / 2) 2 _).1 h1] at h3
  exact h3

/-- C16. Step limiter, interior collision: when the penalty stiffness is positive
and the earliest reported time of impact is some `tstar < 1`, `getMaxStep`
returns `tstar * step * 0.95`, which for every positive proposed scale is
strictly below the proposed scale. -/
theorem getMaxStep_interior (C : CollisionKernels) (m : ElasticShellModel) (x dir : List ℚ)
    (step tstar : ℚ) (hpen : 0 < m.setup.penaltyK) (hv : m.StepInputsValid C x dir step)
    (hrep : m.ReportedAt C x dir step tstar)
    (hmin : ∀ t, m.ReportedAt C x dir step t → tstar ≤ t) (hlt : tstar < 1) :
    m.getMaxStep C x dir step = some (tstar * step * (95 / 100), m)
      ∧ (0 < step → tstar * step * (95 / 100) < step) := by
  obtain ⟨tmin, h1, _, h3, h4⟩ := getMaxStep_reduced C m x dir step hpen hv ⟨tstar, hrep, hlt⟩
  have e : tmin = tstar := le_antisymm (h3 tstar hrep) (hmin tmin h1)
  rw [e] at h4
  refine ⟨h4, ?_⟩
  intro hs
  have : 0 < step * (1 - tstar * (95 / 100)) := mul_pos hs (by linarith)
  linarith

/-- A single vertex hitting a single obstacle face at the time of impact 0.5, with
the proposed scale 2: the limiter returns `0.5 * 2 * 0.95 < 2`. -/
theorem getMaxStep_interior_witness :
    contactModel.getMaxStep (hitKernels (1 / 2)) [0, 0, 1] [0, 0, -1] 2
        = some (1 / 2 * 2 * (95 / 100), contactModel)
      ∧ ((0 : ℚ) < 2 → (1 / 2 : ℚ) * 2 * (95 / 100) < 2) :=
  getMaxStep_interior (hitKernels (1 / 2)) contactModel [0, 0, 1] [0, 0, -1] 2 (1 / 2)
    (by decide) (contactExample_valid (1 / 2) 2)
    ((contactExample_reported (1 / 2) 2 _).2 rfl)
    (fun t ht => le_of_eq ((contactExample_reported (1 / 2) 2 t).1 ht).symm)
    (by norm_num)

/-- C17. The step limiter never oversteps contact: when the penalty stiffness is
positive, the proposed scale is not negative and every reported time of impact
lies in `[0, 1]`, the scale `getMaxStep` returns is at most the proposed scale
and at most `t * step` for every reported time of impact `t`. -/
theorem getMaxStep_never_oversteps (C : CollisionKernels) (m : ElasticShellModel)
    (x dir : List ℚ) (step : ℚ) (hpen : 0 < m.setup.penaltyK)
    (hv : m.StepInputsValid C x dir step) (hstep : 0 ≤ step)
    (htoi : ∀ t, m.ReportedAt C x dir step t → 0 ≤ t ∧ t ≤ 1) :
    ∃ r, m.getMaxStep C x dir step = some (r, m) ∧ r ≤ step
      ∧ ∀ t, m.ReportedAt C x dir step t → r ≤ t * step := by
  by_cases hex : ∃ t, m.ReportedAt C x dir step t ∧ t < 1
  · obtain ⟨tmin, h1, h2, h3, h4⟩ := getMaxStep_reduced C m x dir step hpen hv hex
    have h0 := (htoi tmin h1).1
    have hts : 0 ≤ tmin * step := mul_nonneg h0 hstep
    refine ⟨_, h4, ?_, ?_⟩
    · have : tmin * step ≤ 1 * step := mul_le_mul_of_nonneg_right (le_of_lt h2) hstep
      linarith
    · intro t ht
      have : tmin * step ≤ t * step := mul_le_mul_of_nonneg_right (h3 t ht) hstep
      linarith
  · refine ⟨step, getMaxStep_unchanged C m x dir step hpen hv hex, le_refl _, ?_⟩
    intro t ht
    have h1 : ¬ t < 1 := fun h => hex ⟨t, ht, h⟩
    have h2 := (htoi t ht).2
    have e : t = 1 := le_antisymm h2 (not_lt.1 h1)
    rw [e, one_mul]

/-- The bound on the contact example with the time of impact 0.5 and the proposed
scale 2: the returned scale is at most 2 and at most `0.5 * 2`. -/
theorem getMaxStep_never_oversteps_witness :
    ∃ r, contactModel.getMaxStep (hitKernels (1 / 2)) [0, 0, 1] [0, 0, -1] 2
        = some (r, contactModel)
      ∧ r ≤ 2 ∧ r ≤ 1 / 2 * 2 := by
  obtain ⟨r, h1, h2, h3⟩ := getMaxStep_never_oversteps (hitKernels (1 / 2)) contactModel
    [0, 0, 1] [0, 0, -1] 2 (by decide) (contactExample_valid (1 / 2) 2) (by norm_num)
    (by
      intro t ht
      rw [(contactExample_reported (1 / 2) 2 t).1 ht]
      constructor <;> norm_num)
  exact ⟨r, h1, h2, h3 (1 / 2) ((contactExample_reported (1 / 2) 2 _).2 rfl)⟩



/-- Whatever `getMaxStep` returns, it returns the model it was called on. -/
theorem getMaxStep_model (C : CollisionKernels) (m : ElasticShellModel) (x dir : List ℚ)
    (step : ℚ) (r : ℚ) (m' : ElasticShellModel)
    (h : m.getMaxStep C x dir step = some (r, m')) : m' = m := by
  unfold ElasticShellModel.getMaxStep at h
  by_cases hpen : m.setup.penaltyK > 0
  · rw [if_pos hpen] at h
    simp only [Option.bind_eq_bind, Option.bind_eq_some] at h
    obtain ⟨_, _, _, _, _, _, q, _, h⟩ := h
    by_cases c : q.2 = true
    · rw [if_pos c] at h
      exact (Prod.mk.inj (Option.some.inj h)).2.symm
    · rw [if_neg c] at h
      exact (Prod.mk.inj (Option.some.inj h)).2.symm
  · rw [if_neg hpen] at h
    exact (Prod.mk.inj (Option.some.inj h)).2.symm

/-- C18. `getMaxStep` is read-only: in the no-contact branch and, on valid inputs,
in the contact branch it returns a scale together with the model it was called
on, and it can return no other model: state and configuration are the same
after the call as before it. -/
theorem getMaxStep_read_only (C : CollisionKernels) (m : ElasticShellModel) (x dir : List ℚ)
    (step : ℚ) :
    (∀ (r : ℚ) (m' : ElasticShellModel), m.getMaxStep C x dir step = some (r, m') →
        m'.state = m.state ∧ m'.setup = m.setup ∧ m' = m)
      ∧ (¬ 0 < m.setup.penaltyK → ∃ r, m.getMaxStep C x dir step = some (r, m))
      ∧ (0 < m.setup.penaltyK → m.StepInputsValid C x dir step →
          ∃ r, m.getMaxStep C x dir step = some (r, m)) := by
  refine ⟨?_, ?_, ?_⟩
  · intro r m' h
    have e := getMaxStep_model C m x dir step r m' h
    subst e
    exact ⟨rfl, rfl, rfl⟩
  · intro hpen
    refine ⟨if m.setup.maxStepSize > 0 then m.setup.maxStepSize else 1, ?_⟩
    unfold ElasticShellModel.getMaxStep
    have : ¬ m.setup.penaltyK > 0 := hpen
    rw [if_neg this]
    rfl
  · intro hpen hv
    obtain ⟨q, _, hq⟩ := getMaxStep_spec C m x dir step hpen hv
    exact ⟨_, hq⟩

/-- The frame property on the contact example: the call returns, and the model
afterwards is the model before. -/
theorem getMaxStep_read_only_witness :
    (∃ r, contactModel.getMaxStep (hitKernels (1 / 2)) [0, 0, 1] [0, 0, -1] 2
        = some (r, contactModel))
      ∧ ∀ (r : ℚ) (m' : ElasticShellModel),
          contactModel.getMaxStep (hitKernels (1 / 2)) [0, 0, 1] [0, 0, -1] 2 = some (r, m') →
          m'.state = contactModel.state ∧ m'.setup = contactModel.setup ∧ m' = contactModel :=
  ⟨(getMaxStep_read_only (hitKernels (1 / 2)) contactModel [0, 0, 1] [0, 0, -1] 2).2.2
      (by decide) (contactExample_valid (1 / 2) 2),
    (getMaxStep_read_only (hitKernels (1 / 2)) contactModel [0, 0, 1] [0, 0, -1] 2).1⟩

/-- C19. Initialization fails exactly on an extra-DOF length mismatch: it returns
`false` if and only if the length of the extra edge-DOF vector of the initial
state differs from `numExtraDOFs * nEdges`; then the projector is the one the
model had before (`setProjM` has not run), and when it returns `true` the
projector is the one `setProjM` builds from the clamped-DOF map for the
dimensions of the initial state. In both cases the set-up and the state are
the arguments. -/
theorem initialization_spec (m : ElasticShellModel) (setup : ElasticSetup)
    (initialGuess : ElasticState) (posHess isParallel : Bool) :
    ((m.initialization setup initialGuess posHess isParallel).1 = false
        ↔ initialGuess.curEdgeDOFs.length ≠ setup.sff.numExtraDOFs * initialGuess.mesh.nEdges)
      ∧ ((m.initialization setup initialGuess posHess isParallel).1 = false →
          (m.initialization setup initialGuess posHess isParallel).2.proj = m.proj)
      ∧ ((m.initialization setup initialGuess posHess isParallel).1 = true →
          (m.initialization setup initialGuess posHess isParallel).2.proj
            = Projection.ctor (keepDOFs setup initialGuess.curPos.length
                initialGuess.mesh.nEdges))
      ∧ (m.initialization setup initialGuess posHess isParallel).2.setup = setup
      ∧ (m.initialization setup initialGuess posHess isParallel).2.state = initialGuess := by
  unfold ElasticShellModel.initialization
  by_cases h : initialGuess.curEdgeDOFs.length
      ≠ setup.sff.numExtraDOFs * initialGuess.mesh.nEdges
  · rw [if_pos h]
    exact ⟨⟨fun _ => h, fun _ => rfl⟩, fun _ => rfl, fun c => absurd c (by simp), rfl, rfl⟩
  · rw [if_neg h]
    exact ⟨⟨fun c => absurd c (by simp), fun c => absurd c h⟩, fun c => absurd c (by simp),
      fun _ => rfl, rfl, rfl⟩

/-- C20 (evaluation at the failing input). On the example model with penalty
stiffness 1, last evaluated at the positions `(0, 0, 0)`, `(1, 0, 0)`, and with
kernels whose bending and penalty energies are the x-coordinate of vertex 0:
`x = (10, 30, 40, 50, 60, 70)` reconstructs vertex 0 at `(10, 5, 30)`, so the
bending and penalty energies of the reconstructed geometry, which `value` sums,
are 10 each; `bendingValue x` and `penaltyValue x` return 0, the energies of the
previous state, and leave the state where it was, while `stretchingValue x`
does reconstruct the state from `x`. -/
theorem sub_energies_stale :
    (∃ st, probeModel.convertVariables2CurState [10, 30, 40, 50, 60, 70] = some st
        ∧ (bendingCall probeKernels { probeModel with state := st }
            (chooseMaterial probeModel.setup.strecthingType) none none false).energy = 10
        ∧ (penaltyCall probeKernels { probeModel with state := st } none none false).energy = 10
        ∧ (probeModel.stretchingValue probeKernels [10, 30, 40, 50, 60, 70]).map
            (fun r => r.2.state) = some st)
      ∧ (probeModel.value probeKernels [10, 30, 40, 50, 60, 70]).map (fun r => r.1)
          = some 2870
      ∧ probeModel.bendingValue probeKernels [10, 30, 40, 50, 60, 70] = some (0, probeModel)
      ∧ probeModel.penaltyValue probeKernels [10, 30, 40, 50, 60, 70] = some (0, probeModel) := by
  refine ⟨⟨_, rfl, rfl, rfl, rfl⟩, ?_, ?_, ?_⟩
  · have hwf : probeModel.WellFormed := ⟨rfl, by decide, by decide⟩
    have hl : probeModel.LoadsWellFormed := ⟨by decide, by decide⟩
    have hst : probeModel.convertVariables2CurState [10, 30, 40, 50, 60, 70]
        = some ⟨⟨1, []⟩, [⟨0, 0, 0⟩, ⟨1, 0, 0⟩], [⟨10, 5, 30⟩, ⟨40, 50, 60⟩], [70]⟩ := rfl
    rw [value_spec probeKernels probeModel _ _ hst rfl hl]
    simp only [Option.map_some', Option.some.injEq]
    have hS : (stretchingCall probeKernels
        { probeModel with
          state := ⟨⟨1, []⟩, [⟨0, 0, 0⟩, ⟨1, 0, 0⟩], [⟨10, 5, 30⟩, ⟨40, 50, 60⟩], [70]⟩ }
        (chooseMaterial probeModel.setup.strecthingType) none none false).energy = 0 := rfl
    have hB : (bendingCall probeKernels
        { probeModel with
          state := ⟨⟨1, []⟩, [⟨0, 0, 0⟩, ⟨1, 0, 0⟩], [⟨10, 5, 30⟩, ⟨40, 50, 60⟩], [70]⟩ }
        (chooseMaterial probeModel.setup.strecthingType) none none false).energy = 10 := rfl
    have hQ : (penaltyCall probeKernels
        { probeModel with
          state := ⟨⟨1, []⟩, [⟨0, 0, 0⟩, ⟨1, 0, 0⟩], [⟨10, 5, 30⟩, ⟨40, 50, 60⟩], [70]⟩ }
        none none false).energy = 10 := rfl
    have hG : gravityPotentialSpec probeModel.setup [⟨10, 5, 30⟩, ⟨40, 50, 60⟩] = 2940 := by
      simp only [gravityPotentialSpec, vertexWeight, probeModel, ElasticShellModel.setProjM,
        exampleSetup, Vec3.smul, Vec3.dot]
      norm_num [List.range_succ]
    have hF : pointForcePotentialSpec probeModel.setup.pointForces
        ⟨⟨1, []⟩, [⟨0, 0, 0⟩, ⟨1, 0, 0⟩], [⟨10, 5, 30⟩, ⟨40, 50, 60⟩], [70]⟩ = -90 := by
      have hdv : ElasticState.dofValue
          ⟨⟨1, []⟩, [⟨0, 0, 0⟩, ⟨1, 0, 0⟩], [⟨10, 5, 30⟩, ⟨40, 50, 60⟩], [70]⟩ 2
            = some 30 := rfl
      have hpf : probeModel.setup.pointForces = [(2, 3)] := rfl
      simp only [pointForcePotentialSpec, hpf, List.map, hdv]
      norm_num
    have hP : ¬ (0 < probeModel.setup.pressure) := by decide
    have hK : 0 < probeModel.setup.penaltyK := by decide
    rw [hS, hB, hQ, hG, hF, if_neg hP, if_pos hK]
    norm_num
  · have hB : (bendingCall probeKernels probeModel
        (chooseMaterial probeModel.setup.strecthingType) none none false).energy = 0 := rfl
    unfold ElasticShellModel.bendingValue
    simp only [hB, Option.pure_def, add_zero]
  · have hQ : (penaltyCall probeKernels probeModel none none false).energy = 0 := rfl
    have hK : probeModel.setup.penaltyK > 0 := by decide
    unfold ElasticShellModel.penaltyValue
    rw [if_pos hK, hQ]
    rfl



/-! ## The positive-definite flag of the terms -/

theorem stretchingCall_withFlags (K : Kernels) (m : ElasticShellModel) (mat : Material)
    (d : Option (List ℚ)) (H : Option (List Triplet)) (e p flag : Bool) :
    stretchingCall (K.withFlags e p) m mat d H flag = stretchingCall K m mat d H e := rfl

theorem bendingCall_withFlags (K : Kernels) (m : ElasticShellModel) (mat : Material)
    (d : Option (List ℚ)) (H : Option (List Triplet)) (e p flag : Bool) :
    bendingCall (K.withFlags e p) m mat d H flag = bendingCall K m mat d H e := by
  unfold bendingCall
  rfl

theorem pressureCall_false (K : Kernels) (m : ElasticShellModel)
    (d : Option (List ℚ)) (H : Option (List Triplet)) (e : Bool) :
    pressureCall (K.withFlags e false) m d H = pressureCall K m d H := rfl

theorem penaltyCall_withFlags (K : Kernels) (m : ElasticShellModel)
    (d : Option (List ℚ)) (H : Option (List Triplet)) (e p flag : Bool) :
    penaltyCall (K.withFlags e p) m d H flag = penaltyCall K m d H e := rfl

/-- C21: the flag each term receives. For every model, whatever its
use-positive-definite-Hessian flag, `hessian` and `exterHessian` give on any
kernels `K` the result they give on `K` made deaf to the flag, with the model's
flag fixed for stretching, bending and penalty and `false` fixed for pressure;
`value` and `gradient` give the result of `K` with `false` fixed for every term. -/
theorem pd_flag_routing (K : Kernels) (m : ElasticShellModel) (x grad : List ℚ) :
    m.hessian K x = m.hessian (K.withFlags m.isUsePosHess false) x
      ∧ m.exterHessian K x = m.exterHessian (K.withFlags m.isUsePosHess false) x
      ∧ m.value K x = m.value (K.withFlags false false) x
      ∧ m.gradient K x grad = m.gradient (K.withFlags false false) x grad := by
  refine ⟨?_, ?_, ?_, ?_⟩
  · simp only [ElasticShellModel.hessian, ElasticShellModel.fullHessianT,
      stretchingCall_withFlags, bendingCall_withFlags, pressureCall_false, penaltyCall_withFlags]
  · simp only [ElasticShellModel.exterHessian, ElasticShellModel.exterHessianT,
      pressureCall_false, penaltyCall_withFlags]
  · simp only [ElasticShellModel.value,
      stretchingCall_withFlags, bendingCall_withFlags, pressureCall_false, penaltyCall_withFlags]
  · simp only [ElasticShellModel.gradient, ElasticShellModel.fullGradient, pressureGradientBlock,
      penaltyGradientBlock,
      stretchingCall_withFlags, bendingCall_withFlags, pressureCall_false, penaltyCall_withFlags]



/-! ## Obstacles without a spatial index -/

/-- A loop over the indices of a list whose body only reads the entry at its index
is the loop over the entries. -/
theorem foldlM_range_entries {α β : Type} (f : β → α → Option β) :
    ∀ (l : List α) (g : β → Nat → Option β),
      (∀ (acc : β) (j : Nat) (a : α), l[j]? = some a → g acc j = f acc a) →
      ∀ acc : β, (List.range l.length).foldlM g acc = l.foldlM f acc := by
  intro l
  induction l with
  | nil => intro g _ acc; rfl
  | cons a l ih =>
    intro g hg acc
    rw [List.length_cons, List.range_succ_eq_map, List.foldlM_cons, List.foldlM_cons,
      hg acc 0 a (by simp)]
    congr 1
    funext acc'
    rw [List.foldlM_map]
    exact ih (fun acc j => g acc (j + 1)) (fun acc j b hb => hg acc (j + 1) b (by simpa using hb))
      acc'

theorem obstacleStep_eq_body (C : CollisionKernels) (obs : List Obstacle) (s e : Vec3)
    (acc : ℚ × Bool) (j : Nat) (ob : Obstacle) (hob : obs[j]? = some ob) :
    obstacleStep C obs (buildAABBs C obs) s e acc j = obstacleBody C s e acc ob := by
  have ha : (buildAABBs C obs)[j]? = some (C.buildAABB ob.V ob.V ob.F 0) := by
    simp [buildAABBs, List.getElem?_map, hob]
  unfold obstacleStep obstacleBody
  rw [ha]
  cases C.buildAABB ob.V ob.V ob.F 0 with
  | none => rfl
  | some aabb => simp [hob]

theorem obstacleBody_filter (C : CollisionKernels) (s e : Vec3) (p : Obstacle → Bool) :
    ∀ (obs : List Obstacle),
      (∀ ob ∈ obs, p ob = false → C.buildAABB ob.V ob.V ob.F 0 = none) →
      ∀ acc : ℚ × Bool, (obs.filter p).foldlM (obstacleBody C s e) acc
        = obs.foldlM (obstacleBody C s e) acc := by
  intro obs
  induction obs with
  | nil => intro _ acc; rfl
  | cons ob obs ih =>
    intro hp acc
    have ih' := ih (fun o ho => hp o (List.mem_cons_of_mem _ ho))
    cases hpo : p ob with
    | true =>
      rw [List.filter_cons_of_pos (by simpa using hpo), List.foldlM_cons, List.foldlM_cons]
      congr 1
      funext acc'
      exact ih' acc'
    | false =>
      have hnone := hp ob (List.mem_cons_self _ _) hpo
      rw [List.filter_cons_of_neg (by simp [hpo]), List.foldlM_cons]
      have : obstacleBody C s e acc ob = some acc := by
        unfold obstacleBody
        rw [hnone]
        rfl
      rw [this]
      exact ih' acc

/-- The scan of `getMaxStep` gives the same pair on an obstacle list and on the
list without some of its obstacles that have no hierarchy. -/
theorem collisionScan_filter (C : CollisionKernels) (obs : List Obstacle) (p : Obstacle → Bool)
    (hp : ∀ ob ∈ obs, p ob = false → C.buildAABB ob.V ob.V ob.F 0 = none)
    (startV updatedV : List Vec3) :
    collisionScan C (obs.filter p) startV updatedV = collisionScan C obs startV updatedV := by
  unfold collisionScan
  congr 1
  funext acc i
  unfold vertexStep
  cases startV[i]? with
  | none => rfl
  | some s =>
    cases updatedV[i]? with
    | none => rfl
    | some e =>
      show (List.range (obs.filter p).length).foldlM
          (obstacleStep C (obs.filter p) (buildAABBs C (obs.filter p)) s e) acc
        = (List.range obs.length).foldlM (obstacleStep C obs (buildAABBs C obs) s e) acc
      rw [foldlM_range_entries (obstacleBody C s e) (obs.filter p) _
          (fun acc j ob hob => obstacleStep_eq_body C _ s e acc j ob hob),
        foldlM_range_entries (obstacleBody C s e) obs _
          (fun acc j ob hob => obstacleStep_eq_body C _ s e acc j ob hob)]
      exact obstacleBody_filter C s e p obs hp acc

/-- C22. Obstacles without a spatial index are skipped. In the loop over the
obstacles an obstacle for which `buildAABB` returned no hierarchy leaves the
pair (`scale`, `isCollision`) as it is, without any collision test and without
an error; and `getMaxStep` returns the same scale (and fails on the same
inputs) on an obstacle list as on the list from which obstacles without a
hierarchy have been removed: `p` marks the obstacles kept, and every obstacle
it drops has no hierarchy. -/
theorem getMaxStep_skips_degenerate (C : CollisionKernels) (m : ElasticShellModel)
    (x dir : List ℚ) (step : ℚ) (p : Obstacle → Bool)
    (hp : ∀ ob ∈ m.setup.obs, p ob = false → C.buildAABB ob.V ob.V ob.F 0 = none) :
    (∀ (j : Nat) (ob : Obstacle) (s e : Vec3) (acc : ℚ × Bool),
        m.setup.obs[j]? = some ob → C.buildAABB ob.V ob.V ob.F 0 = none →
        obstacleStep C m.setup.obs (buildAABBs C m.setup.obs) s e acc j = some acc)
      ∧ (m.getMaxStep C x dir step).map Prod.fst
        = (({ m with setup := { m.setup with obs := m.setup.obs.filter p } } :
            ElasticShellModel).getMaxStep C x dir step).map Prod.fst := by
  constructor
  · intro j ob s e acc hob hnone
    rw [obstacleStep_eq_body C _ s e acc j ob hob]
    unfold obstacleBody
    rw [hnone]
    rfl
  · unfold ElasticShellModel.getMaxStep
    by_cases hpen : m.setup.penaltyK > 0
    · rw [if_pos hpen, if_pos (show m.setup.penaltyK > 0 from hpen)]
      simp only [collisionScan_filter C m.setup.obs p hp]
      cases vecAdd x (dir.map (fun (d : ℚ) => d * step)) with
      | none => rfl
      | some updated =>
        show (Option.map Prod.fst (do
            let startState ← m.convertVariables2CurState x
            let updatedState ← m.convertVariables2CurState updated
            let r ← collisionScan C m.setup.obs startState.curPos updatedState.curPos
            if r.2 = true then pure (r.1 * step * (95 / 100), m) else pure (r.1 * step, m)))
          = Option.map Prod.fst (do
            let startState ← m.convertVariables2CurState x
            let updatedState ← m.convertVariables2CurState updated
            let r ← collisionScan C m.setup.obs startState.curPos updatedState.curPos
            if r.2 = true then pure (r.1 * step * (95 / 100), _) else pure (r.1 * step, _))
        cases m.convertVariables2CurState x with
        | none => rfl
        | some st =>
          cases m.convertVariables2CurState updated with
          | none => rfl
          | some ut =>
            simp only [Option.bind_eq_bind, Option.some_bind, Option.pure_def]
            cases collisionScan C m.setup.obs st.curPos ut.curPos with
            | none => rfl
            | some r =>
              simp only [Option.some_bind]
              by_cases c : r.2 = true
              · rw [if_pos c, if_pos c]
                rfl
              · rw [if_neg c, if_neg c]
                rfl
    · rw [if_neg hpen, if_neg (show ¬ m.setup.penaltyK > 0 from hpen)]
      rfl

theorem degenerateModel_dropped :
    ∀ ob ∈ degenerateModel.setup.obs, (fun (o : Obstacle) => !o.F.isEmpty) ob = false →
      (hitKernels (1 / 2)).buildAABB ob.V ob.V ob.F 0 = none := by
  intro ob hob hp
  have hF : ob.F = [] := by
    cases hF : ob.F with
    | nil => rfl
    | cons a l => simp [hF] at hp
  show (if ob.F = [] then none else some ()) = none
  rw [if_pos hF]

/-- The contact model with two obstacles without faces added: the limiter returns
the scale it returns for the triangle alone. -/
theorem getMaxStep_skips_degenerate_witness :
    (degenerateModel.getMaxStep (hitKernels (1 / 2)) [0, 0, 1] [0, 0, -1] 2).map Prod.fst
      = (contactModel.getMaxStep (hitKernels (1 / 2)) [0, 0, 1] [0, 0, -1] 2).map Prod.fst :=
  (getMaxStep_skips_degenerate (hitKernels (1 / 2)) degenerateModel [0, 0, 1] [0, 0, -1] 2
    (fun (o : Obstacle) => !o.F.isEmpty) degenerateModel_dropped).2



/-! ## The closed form of the expansion -/

theorem expandFree_length (ks : List Bool) : ∀ xs : List ℚ,
    (expandFree ks xs).length = ks.length := by
  induction ks with
  | nil => intro xs; simp [expandFree]
  | cons k ks ih =>
    intro xs
    cases k
    · simp [expandFree, ih]
    · cases xs <;> simp [expandFree, ih]

theorem selectFree_expandFree (ks : List Bool) : ∀ xs : List ℚ, xs.length = ks.count true →
    selectFree ks (expandFree ks xs) = xs := by
  induction ks with
  | nil =>
    intro xs h
    have : xs = [] := List.length_eq_zero.1 (by simpa using h)
    simp [expandFree, selectFree, this]
  | cons k ks ih =>
    intro xs h
    cases k
    · simp only [expandFree, selectFree]
      exact ih xs (by simpa using h)
    · cases xs with
      | nil => simp at h
      | cons x xs =>
        simp only [expandFree, selectFree]
        rw [ih xs (by simpa using h)]

theorem zeroClamped_expandFree (ks : List Bool) : ∀ xs : List ℚ,
    zeroClamped ks (expandFree ks xs) = expandFree ks xs := by
  induction ks with
  | nil => intro xs; simp [expandFree, zeroClamped]
  | cons k ks ih =>
    intro xs
    cases k
    · simp [expandFree, zeroClamped, ih]
    · cases xs <;> simp [expandFree, zeroClamped, ih]

/-- The closed form of `unprojectVector` on a reduced vector of the right size. -/
theorem unprojectVector_expandFree (ks : List Bool) (x : List ℚ)
    (hx : x.length = (Projection.ctor ks).projDOFs) :
    (Projection.ctor ks).unprojectVector x = some (expandFree ks x) := by
  have hc : x.length = ks.count true := by
    rw [hx, Projection.projDOFs, ctor_invdofmap, invdofmapOf_length]
  have key := unprojectVectorLoop_dofmapOf ks [] (expandFree ks x) (expandFree_length ks x)
  rw [selectFree_expandFree ks x hc, zeroClamped_expandFree] at key
  simpa [Projection.unprojectVector, ctor_dofmap] using key

theorem projectVector_expandFree (ks : List Bool) (x : List ℚ)
    (hx : x.length = (Projection.ctor ks).projDOFs) :
    (Projection.ctor ks).projectVector (expandFree ks x) = some x := by
  have hc : x.length = ks.count true := by
    rw [hx, Projection.projDOFs, ctor_invdofmap, invdofmapOf_length]
  have key := projectVectorLoop_invdofmapOf ks [] (expandFree ks x) (expandFree_length ks x)
  rw [selectFree_expandFree ks x hc] at key
  simpa [Projection.projectVector, ctor_invdofmap] using key

/-- The rows of a position matrix laid out one after the other hold the
coordinate `(i / 3, i % 3)` at index `i`. -/
theorem flatten_getElem? : ∀ (P : List Vec3) (i : Nat), i < 3 * P.length →
    (P.flatMap (fun r => [r.x, r.y, r.z]))[i]? = posAt P (i : Int) := by
  intro P
  induction P with
  | nil => intro i h; simp at h
  | cons r P ih =>
    intro i h
    rw [posAt_nat]
    match i, h with
    | 0, _ => simp [Vec3.get]
    | 1, _ => simp [Vec3.get]
    | 2, _ => simp [Vec3.get]
    | i + 3, h =>
      have h' : i < 3 * P.length := by simp at h; omega
      have e1 : (i + 3) / 3 = i / 3 + 1 := by omega
      have e2 : (i + 3) % 3 = i % 3 := by omega
      rw [e1, e2, List.getElem?_cons_succ, ← posAt_nat, ← ih i h']
      simp

theorem flatten_length (P : List Vec3) :
    (P.flatMap (fun r => [r.x, r.y, r.z])).length = 3 * P.length := by
  induction P with
  | nil => rfl
  | cons r P ih => simp [ih]; omega



/-! ## The load terms of value and gradient -/

theorem sum_map_range (f : ℕ → ℚ) (n : ℕ) :
    ((List.range n).map f).sum = Finset.sum (Finset.range n) f := by
  induction n with
  | zero => simp
  | succ n ih => rw [List.range_succ, List.map_append, List.sum_append, ih,
      Finset.sum_range_succ]; simp

theorem vecDot_nil_left (b : List ℚ) : vecDot [] b = 0 := by simp [vecDot]

theorem vecDot_cons (a : ℚ) (as : List ℚ) (b : ℚ) (bs : List ℚ) :
    vecDot (a :: as) (b :: bs) = a * b + vecDot as bs := by simp [vecDot]

/-- Expanding a reduced vector is adjoint to selecting the free entries. -/
theorem vecDot_expandFree (ks : List Bool) : ∀ (A y : List ℚ), A.length = ks.length →
    y.length = ks.count true →
    vecDot A (expandFree ks y) = vecDot (selectFree ks A) y := by
  induction ks with
  | nil => intro A y hA _; cases A <;> simp_all [expandFree, selectFree, vecDot_nil_left]
  | cons k ks ih =>
    intro A y hA hy
    cases A with
    | nil => simp at hA
    | cons a A =>
      have hA' : A.length = ks.length := by simpa using hA
      cases k
      · simp only [expandFree, selectFree, vecDot_cons]
        rw [ih A y hA' (by simpa using hy)]
        ring
      · cases y with
        | nil => simp at hy
        | cons y ys =>
          simp only [expandFree, selectFree, vecDot_cons]
          rw [ih A ys hA' (by simpa using hy)]

/-- The dot product of two vectors of the same size as a sum over the indices. -/
theorem vecDot_eq_sum : ∀ (a b : List ℚ), a.length = b.length →
    vecDot a b = Finset.sum (Finset.range a.length) (fun j => a.getD j 0 * b.getD j 0) := by
  intro a
  induction a with
  | nil => intro b _; simp [vecDot_nil_left]
  | cons a as ih =>
    intro b h
    cases b with
    | nil => simp at h
    | cons b bs =>
      rw [vecDot_cons, ih bs (by simpa using h), List.length_cons, Finset.sum_range_succ']
      simp [add_comm]

theorem sum_range_three (f : ℕ → ℚ) (n : ℕ) :
    Finset.sum (Finset.range (3 * n)) f
      = Finset.sum (Finset.range n) (fun i => f (3 * i) + f (3 * i + 1) + f (3 * i + 2)) := by
  induction n with
  | zero => simp
  | succ n ih =>
    have e : 3 * (n + 1) = 3 * n + 1 + 1 + 1 := by ring
    rw [e, Finset.sum_range_succ, Finset.sum_range_succ, Finset.sum_range_succ, ih,
      Finset.sum_range_succ]
    ring

/-- The coordinate `(j / 3, j % 3)` of a position matrix, `0` outside it. -/
theorem posAt_getD (P : List Vec3) (i c : Nat) (hi : i < P.length) (hc : c < 3) :
    (posAt P ((3 * i + c : Nat) : Int)).getD 0 = (P.getD i ⟨0, 0, 0⟩).coord c := by
  rw [posAt_nat]
  have e1 : (3 * i + c) / 3 = i := by omega
  have e2 : (3 * i + c) % 3 = c := by omega
  rw [e1, e2, List.getElem?_eq_getElem hi, List.getD_eq_getElem _ _ hi]
  match c, hc with
  | 0, _ => simp [Vec3.get, Vec3.coord]
  | 1, _ => simp [Vec3.get, Vec3.coord]
  | 2, _ => simp [Vec3.get, Vec3.coord]

/-- The gravity potential as a sum over the position DOFs. -/
theorem gravityPotentialSpec_sum (setup : ElasticSetup) (P : List Vec3) :
    gravityPotentialSpec setup P
      = Finset.sum (Finset.range (3 * P.length)) (fun j =>
          (vertexWeight setup (j / 3)).neg.coord (j % 3) * (posAt P (j : Int)).getD 0) := by
  unfold gravityPotentialSpec
  rw [sum_map_range, sum_range_three]
  apply Finset.sum_congr rfl
  intro i hi
  have hi' : i < P.length := Finset.mem_range.1 hi
  have e0 := posAt_getD P i 0 hi' (by omega)
  have e1 := posAt_getD P i 1 hi' (by omega)
  have e2 := posAt_getD P i 2 hi' (by omega)
  simp only [Nat.add_zero] at e0
  rw [e0, e1, e2]
  have d0 : (3 * i) / 3 = i := by omega
  have d1 : (3 * i + 1) / 3 = i := by omega
  have d2 : (3 * i + 2) / 3 = i := by omega
  have m0 : (3 * i) % 3 = 0 := by omega
  have m1 : (3 * i + 1) % 3 = 1 := by omega
  have m2 : (3 * i + 2) % 3 = 2 := by omega
  rw [d0, d1, d2, m0, m1, m2]
  simp [Vec3.coord, Vec3.neg, Vec3.dot]
  ring

/-- The point-force potential as a sum over the position DOFs. -/
theorem pointForce_sum (P : List Vec3) : ∀ (pf : List (Int × ℚ)),
    (∀ kv ∈ pf, 0 ≤ kv.1 ∧ kv.1 < 3 * (P.length : Int)) →
    (pf.map (fun (p : Int × ℚ) => -p.2 * (posAt P p.1).getD 0)).sum
      = Finset.sum (Finset.range (3 * P.length)) (fun j =>
          pointForceGradientSpec pf j * (posAt P (j : Int)).getD 0) := by
  intro pf
  induction pf with
  | nil => intro _; simp [pointForceGradientSpec]
  | cons p pf ih =>
    intro h
    obtain ⟨h0, h1⟩ := h p (List.mem_cons_self _ _)
    rw [List.map_cons, List.sum_cons, ih (fun kv hkv => h kv (List.mem_cons_of_mem _ hkv))]
    simp only [pointForceGradientSpec_cons, add_mul, Finset.sum_add_distrib]
    congr 1
    have hk : p.1.toNat ∈ Finset.range (3 * P.length) := by
      rw [Finset.mem_range]
      omega
    have ek : ((p.1.toNat : Nat) : Int) = p.1 := Int.toNat_of_nonneg h0
    rw [Finset.sum_eq_single_of_mem p.1.toNat hk]
    · rw [ek, if_pos rfl]
    · intro j _ hj
      rw [if_neg, zero_mul]
      intro hc
      apply hj
      omega

theorem expandFree_getD_clamped (ks : List Bool) (y : List ℚ) (j : Nat)
    (h : ks[j]? = some false) : (expandFree ks y).getD j 0 = 0 := by
  have hlt : j < ks.length := (List.getElem?_eq_some.1 h).1
  have := zeroClamped_getElem? ks (expandFree ks y) j (expandFree_length ks y) hlt
  rw [zeroClamped_expandFree, if_neg (by rw [h]; simp)] at this
  exact getD_of_getElem? _ _ _ this

theorem selectFree_map_range (f : ℕ → ℚ) (ks : List Bool) : ∀ i : Nat,
    selectFree ks ((List.range' i ks.length).map f) = (invdofmapOf ks i).map f := by
  induction ks with
  | nil => intro i; simp [selectFree, invdofmapOf]
  | cons k ks ih =>
    intro i
    cases k
    · simp [selectFree, invdofmapOf, List.range'_succ, ih (i + 1)]
    · simp [selectFree, invdofmapOf, List.range'_succ, ih (i + 1)]

theorem pointForceGradientSpec_outside (pf : List (Int × ℚ)) (n j : Nat)
    (h : ∀ kv ∈ pf, 0 ≤ kv.1 ∧ kv.1 < 3 * (n : Int)) (hj : 3 * n ≤ j) :
    pointForceGradientSpec pf j = 0 := by
  induction pf with
  | nil => simp [pointForceGradientSpec]
  | cons p pf ih =>
    rw [pointForceGradientSpec_cons, ih (fun kv hkv => h kv (List.mem_cons_of_mem _ hkv))]
    have := (h p (List.mem_cons_self _ _)).2
    rw [if_neg (by omega)]
    simp

theorem loadGradient_outside (setup : ElasticSetup) (n j : Nat)
    (h : ∀ kv ∈ setup.pointForces, 0 ≤ kv.1 ∧ kv.1 < 3 * (n : Int)) (hj : 3 * n ≤ j) :
    loadGradient setup n j = 0 := by
  unfold loadGradient
  rw [if_neg (by omega), pointForceGradientSpec_outside _ n j h hj]
  simp

/-- On a well-formed model the gravity and point-force energies are an affine
function of the reduced vector: a constant fixed by the clamped values, plus
the projected load gradient dotted with the vector. -/
theorem loadEnergy_affine (m : ElasticShellModel) (hwf : m.WellFormed)
    (hl : m.LoadsWellFormed) (y : List ℚ) (hy : y.length = m.proj.projDOFs) :
    ∃ st, m.convertVariables2CurState y = some st
      ∧ st.curPos.length = m.state.curPos.length ∧ st.mesh = m.state.mesh
      ∧ gravityPotentialSpec m.setup st.curPos + pointForcePotentialSpec m.setup.pointForces st
        = Finset.sum (Finset.range (3 * m.state.curPos.length)) (fun j =>
            loadGradient m.setup m.state.curPos.length j
              * (mapFind m.setup.clampedDOFs (j : Int)).getD 0)
          + vecDot (m.proj.invdofmap.map (loadGradient m.setup m.state.curPos.length)) y := by
  obtain ⟨st, fullx, hun, hfl, hst, hmesh, _, hlen, _, hpos⟩ :=
    convertVariables2CurState_spec m y hwf hy
  refine ⟨st, hst, hlen, hmesh, ?_⟩
  have hproj := hwf.proj_eq
  set n := m.state.curPos.length with hn
  set ks := keepDOFs m.setup n m.state.mesh.nEdges with hks
  have hksl : ks.length = 3 * n + m.setup.sff.numExtraDOFs * m.state.mesh.nEdges :=
    keepDOFs_length _ _ _
  have hy' : y.length = (Projection.ctor ks).projDOFs := by rw [← hproj]; exact hy
  have hyc : y.length = ks.count true := by
    rw [hy', Projection.projDOFs, ctor_invdofmap, invdofmapOf_length]
  have hfull : fullx = expandFree ks y := by
    have := unprojectVector_expandFree ks y hy'
    rw [← hproj, hun] at this
    exact Option.some.inj this
  have hpf : ∀ kv ∈ m.setup.pointForces, 0 ≤ kv.1 ∧ kv.1 < 3 * (st.curPos.length : Int) := by
    intro kv hkv
    rw [hlen]
    exact hl.pointForces_range kv hkv
  -- the energy as a sum over the position DOFs
  rw [gravityPotentialSpec_sum, pointForcePotentialSpec_eq _ _ hpf, pointForce_sum _ _ hpf,
    hlen, ← Finset.sum_add_distrib]
  -- the value at a position DOF
  have hval : ∀ j : Nat, j < 3 * n → (posAt st.curPos (j : Int)).getD 0
      = (mapFind m.setup.clampedDOFs (j : Int)).getD 0 + (expandFree ks y).getD j 0 := by
    intro j hj
    rw [hpos j hj]
    cases hc : mapFind m.setup.clampedDOFs (j : Int) with
    | none =>
      simp only [Option.getD_none, zero_add]
      rw [hfull]
      have hjl : j < (expandFree ks y).length := by rw [expandFree_length, hksl]; omega
      rw [List.getElem?_eq_getElem hjl, List.getD_eq_getElem _ _ hjl]
      rfl
    | some v =>
      have hk : ks[j]? = some false := by
        rw [hks, keepDOFs_vertex _ _ _ _ hj, hc]
        rfl
      rw [expandFree_getD_clamped ks y j hk]
      simp
  have step1 : Finset.sum (Finset.range (3 * n)) (fun j =>
        (vertexWeight m.setup (j / 3)).neg.coord (j % 3) * (posAt st.curPos (j : Int)).getD 0
          + pointForceGradientSpec m.setup.pointForces j * (posAt st.curPos (j : Int)).getD 0)
      = Finset.sum (Finset.range (3 * n)) (fun j =>
          loadGradient m.setup n j * (mapFind m.setup.clampedDOFs (j : Int)).getD 0)
        + Finset.sum (Finset.range (3 * n)) (fun j =>
          loadGradient m.setup n j * (expandFree ks y).getD j 0) := by
    rw [← Finset.sum_add_distrib]
    apply Finset.sum_congr rfl
    intro j hj
    have hj' : j < 3 * n := Finset.mem_range.1 hj
    rw [hval j hj', loadGradient, if_pos hj']
    ring
  rw [step1]
  congr 1
  -- extend the sum to all full DOFs and reindex it by the free DOFs
  have hsub : Finset.range (3 * n) ⊆ Finset.range ks.length := by
    intro j hj
    rw [Finset.mem_range] at hj ⊢
    omega
  rw [Finset.sum_subset hsub (by
    intro j _ hj
    have : 3 * n ≤ j := by
      by_contra hc
      exact hj (Finset.mem_range.2 (by omega))
    rw [loadGradient_outside m.setup n j hl.pointForces_range this, zero_mul])]
  have hAl : ((List.range ks.length).map (loadGradient m.setup n)).length
      = (expandFree ks y).length := by
    rw [List.length_map, List.length_range, expandFree_length]
  have hdot := vecDot_eq_sum _ _ hAl
  rw [List.length_map, List.length_range] at hdot
  have hterm : ∀ j ∈ Finset.range ks.length,
      ((List.range ks.length).map (loadGradient m.setup n)).getD j 0
          * (expandFree ks y).getD j 0
        = loadGradient m.setup n j * (expandFree ks y).getD j 0 := by
    intro j hj
    have hj' : j < ks.length := Finset.mem_range.1 hj
    rw [List.getD_eq_getElem _ _ (by simpa using hj')]
    simp
  rw [Finset.sum_congr rfl hterm] at hdot
  rw [← hdot, vecDot_expandFree ks _ y (by simp) hyc]
  have hsel := selectFree_map_range (loadGradient m.setup n) ks 0
  rw [← List.range_eq_range'] at hsel
  rw [hsel, hproj, ctor_invdofmap]

theorem reconstructed_eq (m : ElasticShellModel) (y : List ℚ) (st : ElasticState)
    (h : m.convertVariables2CurState y = some st) :
    m.reconstructed y = { m with state := st } := by
  unfold ElasticShellModel.reconstructed
  rw [h]

/-- The energy `value` returns on a well-formed model: the kernel energies at the
reconstructed state plus an affine function of the reduced vector. -/
theorem value_affine (K : Kernels) (m : ElasticShellModel) (hwf : m.WellFormed)
    (hl : m.LoadsWellFormed) (y : List ℚ) (hy : y.length = m.proj.projDOFs) :
    (m.value K y).map Prod.fst
      = some (kernelEnergy K (m.reconstructed y)
          + (Finset.sum (Finset.range (3 * m.state.curPos.length)) (fun j =>
              loadGradient m.setup m.state.curPos.length j
                * (mapFind m.setup.clampedDOFs (j : Int)).getD 0)
            + vecDot (m.proj.invdofmap.map (loadGradient m.setup m.state.curPos.length)) y)) := by
  obtain ⟨st, hst, hlen, _, haff⟩ := loadEnergy_affine m hwf hl y hy
  rw [value_spec K m y st hst hlen hl, reconstructed_eq m y st hst, ← haff]
  simp only [Option.map_some', kernelEnergy]
  congr 1
  ring

/-- The gradient `gradient` returns on a well-formed model: at every free DOF the
kernel gradient at the reconstructed state plus the load gradient. -/
theorem gradient_split (K : Kernels) (m : ElasticShellModel) (hwf : m.WellFormed)
    (hl : m.LoadsWellFormed) (x grad : List ℚ) (hx : x.length = m.proj.projDOFs)
    (hk : GradientSized K (m.reconstructed x) grad) :
    (m.gradient K x grad).map Prod.fst
      = some (m.proj.invdofmap.map (fun j =>
          kernelGradient K (m.reconstructed x) grad j
            + loadGradient m.setup m.state.curPos.length j)) := by
  obtain ⟨st, _, _, _, hst, hmesh, _, hlen, _, _⟩ := convertVariables2CurState_spec m x hwf hx
  have hrec := reconstructed_eq m x st hst
  rw [hrec] at hk ⊢
  obtain ⟨g, hg, hgl, hge⟩ := gradient_spec K m x grad st hwf hst hlen hmesh hl hk
  rw [hg]
  simp only [Option.map_some', Option.some.injEq]
  apply List.ext_getElem?
  intro k
  by_cases hk' : k < m.proj.invdofmap.length
  · rw [(hge k _ (List.getElem?_eq_getElem hk')).2, List.getElem?_map,
      List.getElem?_eq_getElem hk']
    simp only [Option.map_some', fullGradientSpec, kernelGradient, loadGradient, hlen]
    congr 1
    ring
  · have h1 : g.length ≤ k := by
      rw [hgl, Projection.projDOFs]
      omega
    rw [List.getElem?_eq_none h1, List.getElem?_eq_none (by simpa using hk')]

theorem setRows_frame (fullx : List ℚ) (P Q : List Vec3) (hPQ : Q.length = P.length)
    (hx : 3 * P.length ≤ fullx.length) :
    setRows fullx P.length Q = setRows fullx P.length P := by
  obtain ⟨P', hP, hPl, hPr, _⟩ := setRows_spec fullx P P.length (le_refl _) hx
  obtain ⟨Q', hQ, hQl, hQr, _⟩ := setRows_spec fullx Q P.length (by omega) hx
  rw [hP, hQ]
  congr 1
  apply List.ext_getElem?
  intro i
  by_cases hi : i < P.length
  · rw [hPr i hi, hQr i hi]
  · rw [List.getElem?_eq_none (by omega), List.getElem?_eq_none (by omega)]

/-- The reconstruction does not depend on the positions and edge DOFs the model
holds before the call. -/
theorem convert_frame (m : ElasticShellModel) (hwf : m.WellFormed) (s : ElasticState)
    (hs1 : s.mesh = m.state.mesh) (hs2 : s.initialGuess = m.state.initialGuess)
    (hs3 : s.curPos.length = m.state.curPos.length) (y : List ℚ)
    (hy : y.length = m.proj.projDOFs) :
    ({ m with state := s } : ElasticShellModel).convertVariables2CurState y
      = m.convertVariables2CurState y := by
  obtain ⟨_, fullx, hun, hfl, _⟩ := convertVariables2CurState_spec m y hwf hy
  unfold ElasticShellModel.convertVariables2CurState
  simp only [hun, Option.bind_eq_bind, Option.some_bind, hs1, hs3]
  rw [setRows_frame fullx m.state.curPos s.curPos hs3 (by omega)]
  cases setRows fullx m.state.curPos.length m.state.curPos with
  | none => rfl
  | some P =>
    simp only [Option.some_bind]
    cases enforceClamped m.setup.clampedDOFs P with
    | none => rfl
    | some P2 =>
      simp only [Option.some_bind]
      cases segment fullx (3 * m.state.curPos.length)
          (m.setup.sff.numExtraDOFs * m.state.mesh.nEdges) with
      | none => rfl
      | some e =>
        simp only [Option.some_bind, Option.pure_def, Option.some.injEq]
        cases s
        cases hm : m.state
        simp_all

theorem value_frame (K : Kernels) (m : ElasticShellModel) (hwf : m.WellFormed)
    (s : ElasticState)
    (hs1 : s.mesh = m.state.mesh) (hs2 : s.initialGuess = m.state.initialGuess)
    (hs3 : s.curPos.length = m.state.curPos.length) (y : List ℚ)
    (hy : y.length = m.proj.projDOFs) :
    ({ m with state := s } : ElasticShellModel).value K y = m.value K y := by
  unfold ElasticShellModel.value
  rw [convert_frame m hwf s hs1 hs2 hs3 y hy]
  simp only [hs3]

theorem gradient_frame (K : Kernels) (m : ElasticShellModel) (hwf : m.WellFormed)
    (s : ElasticState)
    (hs1 : s.mesh = m.state.mesh) (hs2 : s.initialGuess = m.state.initialGuess)
    (hs3 : s.curPos.length = m.state.curPos.length) (y grad : List ℚ)
    (hy : y.length = m.proj.projDOFs) :
    ({ m with state := s } : ElasticShellModel).gradient K y grad = m.gradient K y grad := by
  unfold ElasticShellModel.gradient
  rw [convert_frame m hwf s hs1 hs2 hs3 y hy]
  simp only [hs3]

/-! ## The dispatch on the selectors -/

theorem strcmpEq_eq (s tag : String) : strcmpEq s tag = decide (cString s = tag) := by
  unfold strcmpEq cString
  rw [decide_eq_decide, String.ext_iff]
  rfl

theorem cString_of_no_nul (s : String) (h : ∀ c ∈ s.toList, c ≠ Char.ofNat 0) :
    cString s = s := by
  unfold cString
  rw [String.ext_iff]
  show s.toList.takeWhile (fun c => decide (c ≠ Char.ofNat 0)) = s.toList
  rw [List.takeWhile_eq_self_iff]
  intro c hc
  simpa using h c hc

/-- The `if / else if` chain on `bendingType` is the tag table applied to the C
string of the selector. -/
theorem bendingCall_eq_spec (K : Kernels) (m : ElasticShellModel) (mat : Material)
    (d : Option (List ℚ)) (H : Option (List Triplet)) (flag : Bool) :
    bendingCall K m mat d H flag
      = bendingSpec K m mat (bendingFormulationOf (cString m.setup.bendingType)) d H flag := by
  unfold bendingCall bendingFormulationOf
  simp only [strcmpEq_eq, decide_eq_true_eq]
  by_cases h1 : cString m.setup.bendingType = "midEdgeShell"
  · rw [if_pos h1, if_pos h1]; rfl
  rw [if_neg h1, if_neg h1]
  by_cases h2 : cString m.setup.bendingType = "QS"
  · rw [if_pos h2, if_pos h2]; rfl
  rw [if_neg h2, if_neg h2]
  by_cases h3 : cString m.setup.bendingType = "CS"
  · rw [if_pos h3, if_pos h3]; rfl
  rw [if_neg h3, if_neg h3]
  by_cases h4 : cString m.setup.bendingType = "EP"
  · rw [if_pos h4, if_pos h4]; rfl
  rw [if_neg h4, if_neg h4]
  by_cases h5 : cString m.setup.bendingType = "ES"
  · rw [if_pos h5, if_pos h5]; rfl
  rw [if_neg h5, if_neg h5]
  by_cases h6 : cString m.setup.bendingType = "FP"
  · rw [if_pos h6, if_pos h6]; rfl
  rw [if_neg h6, if_neg h6]
  by_cases h7 : cString m.setup.bendingType = "FS"
  · rw [if_pos h7, if_pos h7]; rfl
  rw [if_neg h7, if_neg h7]
  by_cases h8 : cString m.setup.bendingType = "SP"
  · rw [if_pos h8, if_pos h8]; rfl
  rw [if_neg h8, if_neg h8]
  by_cases h9 : cString m.setup.bendingType = "SS"
  · rw [if_pos h9, if_pos h9]; rfl
  rw [if_neg h9, if_neg h9]
  rfl

theorem stretchingCall_pinned (K : Kernels) (m : ElasticShellModel) (mat : Material)
    (f : Option BendingFormulation) (d : Option (List ℚ)) (H : Option (List Triplet))
    (flag : Bool) :
    stretchingCall (K.pinned mat f) m mat d H flag = stretchingCall K m mat d H flag := rfl

theorem pressureCall_pinned (K : Kernels) (m : ElasticShellModel) (mat : Material)
    (f : Option BendingFormulation) (d : Option (List ℚ)) (H : Option (List Triplet)) :
    pressureCall (K.pinned mat f) m d H = pressureCall K m d H := rfl

theorem penaltyCall_pinned (K : Kernels) (m : ElasticShellModel) (mat : Material)
    (f : Option BendingFormulation) (d : Option (List ℚ)) (H : Option (List Triplet))
    (flag : Bool) :
    penaltyCall (K.pinned mat f) m d H flag = penaltyCall K m d H flag := rfl

theorem bendingSpec_pinned (K : Kernels) (m : ElasticShellModel) (mat : Material)
    (f : Option BendingFormulation) (d : Option (List ℚ)) (H : Option (List Triplet))
    (flag : Bool) :
    bendingSpec (K.pinned mat f) m mat f d H flag = bendingSpec K m mat f d H flag := by
  cases f with
  | none => rfl
  | some f0 => cases f0 <;> simp [bendingSpec, formulationCall, Kernels.pinned]

theorem bendingCall_pinned (K : Kernels) (m : ElasticShellModel) (mat : Material)
    (d : Option (List ℚ)) (H : Option (List Triplet)) (flag : Bool) :
    bendingCall (K.pinned mat (bendingFormulationOf (cString m.setup.bendingType))) m mat d H flag
      = bendingCall K m mat d H flag := by
  rw [bendingCall_eq_spec, bendingCall_eq_spec, bendingSpec_pinned]

/-- C24. The three entry points dispatch identically. The material is
`NeoHookeanMaterial` for the selector "NeoHookean", `StVKTensionFieldMaterial`
for "tensionField" and `StVKMaterial` for every other string. The bending
chain that `value`, `gradient` and `hessian` share (whatever buffers and flag
they hand over) is the tag table applied to the selector as `strcmp` sees it:
the kernel of the formulation of a recognised tag, and for any other tag zero
energy with the gradient and triplet buffers left as they are; it is a total
function, there is no error path. Each of `value`, `gradient` and `hessian`
gives on any kernels `K` the result it gives on `K` pinned to that material
and that formulation, so none of them evaluates another material or another
bending kernel. A selector without NUL character is its own C string. -/
theorem dispatch_identical (K : Kernels) (m : ElasticShellModel) (x grad : List ℚ) :
    (chooseMaterial "NeoHookean" = Material.NeoHookeanMaterial
        ∧ chooseMaterial "tensionField" = Material.StVKTensionFieldMaterial
        ∧ ∀ s : String, s ≠ "NeoHookean" → s ≠ "tensionField" →
            chooseMaterial s = Material.StVKMaterial)
      ∧ (∀ (mat : Material) (d : Option (List ℚ)) (H : Option (List Triplet)) (flag : Bool),
          bendingCall K m mat d H flag
            = bendingSpec K m mat (bendingFormulationOf (cString m.setup.bendingType)) d H flag)
      ∧ (m.value K x
            = m.value (K.pinned (chooseMaterial m.setup.strecthingType)
                (bendingFormulationOf (cString m.setup.bendingType))) x
          ∧ m.gradient K x grad
            = m.gradient (K.pinned (chooseMaterial m.setup.strecthingType)
                (bendingFormulationOf (cString m.setup.bendingType))) x grad
          ∧ m.hessian K x
            = m.hessian (K.pinned (chooseMaterial m.setup.strecthingType)
                (bendingFormulationOf (cString m.setup.bendingType))) x)
      ∧ ((∀ c ∈ m.setup.bendingType.toList, c ≠ Char.ofNat 0) →
          cString m.setup.bendingType = m.setup.bendingType) := by
  refine ⟨⟨rfl, rfl, ?_⟩, fun mat d H flag => bendingCall_eq_spec K m mat d H flag,
    ⟨?_, ?_, ?_⟩, cString_of_no_nul _⟩
  · intro s h1 h2
    unfold chooseMaterial
    rw [if_neg h1, if_neg h2]
  · unfold ElasticShellModel.value
    cases m.convertVariables2CurState x with
    | none => rfl
    | some st =>
      simp only [Option.bind_eq_bind, Option.some_bind, stretchingCall_pinned,
        pressureCall_pinned, penaltyCall_pinned]
      rw [bendingCall_pinned K { m with state := st }]
  · unfold ElasticShellModel.gradient
    cases m.convertVariables2CurState x with
    | none => rfl
    | some st =>
      simp only [Option.bind_eq_bind, Option.some_bind, ElasticShellModel.fullGradient,
        pressureGradientBlock, penaltyGradientBlock, stretchingCall_pinned,
        pressureCall_pinned, penaltyCall_pinned]
      rw [bendingCall_pinned K { m with state := st }]
  · unfold ElasticShellModel.hessian
    cases m.convertVariables2CurState x with
    | none => rfl
    | some st =>
      simp only [Option.bind_eq_bind, Option.some_bind, ElasticShellModel.fullHessianT,
        stretchingCall_pinned, pressureCall_pinned, penaltyCall_pinned]
      rw [bendingCall_pinned K { m with state := st }]



/-! ## The reverse round trip -/

/-- The state reconstructed from `x` is read back as `x`. -/
theorem convert_round_trip (m : ElasticShellModel) (x : List ℚ) (hwf : m.WellFormed)
    (hx : x.length = m.proj.projDOFs) :
    ∃ st, m.convertVariables2CurState x = some st
      ∧ m.convertCurState2Variables st = some x := by
  obtain ⟨st, fullx, hun, hfl, hst, hmesh, _, hlen, hedge, hpos⟩ :=
    convertVariables2CurState_spec m x hwf hx
  refine ⟨st, hst, ?_⟩
  have hproj := hwf.proj_eq
  set ks := keepDOFs m.setup m.state.curPos.length m.state.mesh.nEdges with hks
  have hksl : ks.length = 3 * m.state.curPos.length
      + m.setup.sff.numExtraDOFs * m.state.mesh.nEdges := keepDOFs_length _ _ _
  have hx' : x.length = (Projection.ctor ks).projDOFs := by rw [← hproj]; exact hx
  have hfull : fullx = expandFree ks x := by
    have := unprojectVector_expandFree ks x hx'
    rw [← hproj, hun] at this
    exact Option.some.inj this
  have hback : m.proj.projectVector fullx = some x := by
    rw [hfull, hproj]
    exact projectVector_expandFree ks x hx'
  have hel : st.curEdgeDOFs.length = m.setup.sff.numExtraDOFs * m.state.mesh.nEdges := by
    rw [hedge, List.length_drop, hfl]
    omega
  unfold ElasticShellModel.convertCurState2Variables fullOfState
  simp only [hel, if_true, Option.bind_eq_bind, Option.some_bind]
  have hXl : (st.curPos.flatMap (fun r => [r.x, r.y, r.z]) ++ st.curEdgeDOFs).length
      = ks.length := by
    rw [List.length_append, flatten_length, hlen, hel, hksl]
  obtain ⟨pv, hpv, hpvl⟩ := projectVector_ctor_some ks _ hXl
  rw [← hproj] at hpv hpvl
  rw [hpv]
  congr 1
  have g1 := projectVectorLoop_getElem? _ _ _ hpv
  have g2 := projectVectorLoop_getElem? _ _ _ hback
  apply List.ext_getElem?
  intro k
  by_cases hk : k < m.proj.invdofmap.length
  · have hj := List.getElem?_eq_getElem hk
    rw [g1.2 k _ hj, g2.2 k _ hj]
    obtain ⟨hjf, hfree⟩ := invdofmap_free m hwf k _ hj
    set j := m.proj.invdofmap[k] with hjdef
    unfold ElasticShellModel.fullDOFs at hjf
    by_cases hjv : j < 3 * m.state.curPos.length
    · have hjs : j < 3 * st.curPos.length := by rw [hlen]; exact hjv
      rw [List.getElem?_append_left (by rw [flatten_length]; exact hjs),
        flatten_getElem? _ _ hjs, hpos j hjv, hfree]
    · have hge : 3 * m.state.curPos.length ≤ j := by omega
      rw [List.getElem?_append_right (by rw [flatten_length, hlen]; exact hge),
        flatten_length, hlen, hedge, List.getElem?_drop]
      congr 1
      omega
  · have h1 : pv.length ≤ k := by rw [g1.1]; omega
    have h2 : x.length ≤ k := by rw [g2.1]; omega
    rw [List.getElem?_eq_none h1, List.getElem?_eq_none h2]

/-- C25. Reverse projection round-trip: for any keep-flag vector and any reduced
vector `x` with one entry per free DOF, `unprojectVector x` is defined and
`projectVector` maps it back to `x`; and on a well-formed model the state
reconstructed from a reduced vector `y` of full size by
`convertVariables2CurState` is read back as `y` by `convertCurState2Variables`,
whether the model still holds its old state or the reconstructed one. -/
theorem reverse_round_trip (keepDOFs : List Bool) (x : List ℚ)
    (hx : x.length = (Projection.ctor keepDOFs).projDOFs)
    (m : ElasticShellModel) (y : List ℚ) (hwf : m.WellFormed)
    (hy : y.length = m.proj.projDOFs) :
    (∃ w, (Projection.ctor keepDOFs).unprojectVector x = some w
        ∧ (Projection.ctor keepDOFs).projectVector w = some x)
      ∧ ∃ st, m.convertVariables2CurState y = some st
          ∧ m.convertCurState2Variables st = some y
          ∧ ({ m with state := st } : ElasticShellModel).convertCurState2Variables st
              = some y := by
  refine ⟨⟨expandFree keepDOFs x, unprojectVector_expandFree keepDOFs x hx,
    projectVector_expandFree keepDOFs x hx⟩, ?_⟩
  obtain ⟨st, hst, hback⟩ := convert_round_trip m y hwf hy
  obtain ⟨_, _, _, _, hst', hmesh, _⟩ := convertVariables2CurState_spec m y hwf hy
  rw [hst] at hst'
  have e := Option.some.inj hst'
  subst e
  refine ⟨st, hst, hback, ?_⟩
  unfold ElasticShellModel.convertCurState2Variables at hback ⊢
  simp only [hmesh]
  exact hback

/-- The reverse round trip on five DOFs, two of them clamped, and on the example
model, whose reduced vectors have six entries. -/
theorem reverse_round_trip_witness :
    (∃ w, (Projection.ctor [true, false, true, true, false]).unprojectVector [10, 30, 40]
          = some w
        ∧ (Projection.ctor [true, false, true, true, false]).projectVector w
          = some [10, 30, 40])
      ∧ ∃ st, exampleModel.convertVariables2CurState [10, 30, 40, 50, 60, 70] = some st
          ∧ exampleModel.convertCurState2Variables st = some [10, 30, 40, 50, 60, 70]
          ∧ ({ exampleModel with state := st } : ElasticShellModel).convertCurState2Variables st
              = some [10, 30, 40, 50, 60, 70] :=
  reverse_round_trip [true, false, true, true, false] [10, 30, 40] rfl
    exampleModel [10, 30, 40, 50, 60, 70] exampleModel_wellFormed rfl



/-! ## Symmetry under the projection -/

/-- A projected triplet either carries the value `0` or lies inside the
`projDOFs x projDOFs` matrix. -/
theorem projectMatrix_shape (keepDOFs : List Bool) (mat out : List Triplet)
    (hin : ∀ t ∈ mat, t.inRange keepDOFs.length keepDOFs.length)
    (ho : (Projection.ctor keepDOFs).projectMatrix mat = some out) :
    ∀ t ∈ out, t.value = 0
      ∨ t.inRange (Projection.ctor keepDOFs).projDOFs (Projection.ctor keepDOFs).projDOFs := by
  intro t' ht'
  obtain ⟨i, hi⟩ := List.mem_iff_getElem?.1 ht'
  obtain ⟨out', ho', hl, hall⟩ := projectMatrix_entries keepDOFs mat hin
  rw [ho] at ho'
  have e := Option.some.inj ho'
  subst e
  have hilt : i < mat.length := by
    rw [← hl]
    exact (List.getElem?_eq_some.1 hi).1
  obtain ⟨hfree, hclamped⟩ := hall i mat[i] (List.getElem?_eq_getElem hilt)
  obtain ⟨hr0, hr1, hc0, hc1⟩ := hin mat[i] (List.getElem_mem _)
  have hrn : mat[i].row.toNat < keepDOFs.length := by omega
  have hcn : mat[i].col.toNat < keepDOFs.length := by omega
  by_cases hf : keepDOFs[mat[i].row.toNat]? = some true ∧ keepDOFs[mat[i].col.toNat]? = some true
  · right
    obtain ⟨pr, pc, h1, h2, h3⟩ := hfree hf
    rw [hi] at h3
    have e := Option.some.inj h3
    subst e
    simp only [ctor_dofmap, ctor_invdofmap, Projection.projDOFs] at *
    obtain ⟨k1, a1, b1⟩ := invdofmapOf_dofmapOf keepDOFs 0 0 _ hf.1
    obtain ⟨k2, a2, b2⟩ := invdofmapOf_dofmapOf keepDOFs 0 0 _ hf.2
    rw [h1] at a1
    rw [h2] at a2
    have e1 := Option.some.inj a1
    have e2 := Option.some.inj a2
    have l1 := (List.getElem?_eq_some.1 b1).1
    have l2 := (List.getElem?_eq_some.1 b2).1
    refine ⟨?_, ?_, ?_, ?_⟩ <;> simp only [] <;> omega
  · left
    have hcl : keepDOFs[mat[i].row.toNat]? = some false
        ∨ keepDOFs[mat[i].col.toNat]? = some false := by
      rcases flag_cases keepDOFs _ hrn with h1 | h1
      · rcases flag_cases keepDOFs _ hcn with h2 | h2
        · exact absurd ⟨h1, h2⟩ hf
        · exact Or.inr h2
      · exact Or.inl h1
    have h3 := hclamped hcl
    rw [hi] at h3
    have e := Option.some.inj h3
    subst e
    rfl

theorem sumAt_eq_zero (ts : List Triplet) (r c : Int)
    (h : ∀ t ∈ ts, t.row = r → t.col = c → t.value = 0) : sumAt ts r c = 0 := by
  unfold sumAt
  apply List.sum_eq_zero
  intro v hv
  obtain ⟨t, ht, rfl⟩ := List.mem_map.1 hv
  obtain ⟨hm, hp⟩ := List.mem_filter.1 ht
  have hp' : t.row = r ∧ t.col = c := by simpa using hp
  exact h t hm hp'.1 hp'.2

/-- Outside the `projDOFs x projDOFs` block the projected triplets sum to `0`. -/
theorem projectMatrix_outside (keepDOFs : List Bool) (mat out : List Triplet)
    (hin : ∀ t ∈ mat, t.inRange keepDOFs.length keepDOFs.length)
    (ho : (Projection.ctor keepDOFs).projectMatrix mat = some out) (a b : Int)
    (hab : ¬ ((0 ≤ a ∧ a < (Projection.ctor keepDOFs).projDOFs)
      ∧ (0 ≤ b ∧ b < (Projection.ctor keepDOFs).projDOFs))) :
    sumAt out a b = 0 := by
  apply sumAt_eq_zero
  intro t ht hr hc
  rcases projectMatrix_shape keepDOFs mat out hin ho t ht with h | h
  · exact h
  · obtain ⟨h1, h2, h3, h4⟩ := h
    rw [hr] at h1 h2
    rw [hc] at h3 h4
    exact absurd ⟨⟨h1, h2⟩, ⟨h3, h4⟩⟩ hab

/-- C26. `projectMatrix` preserves symmetry: when the triplets index full DOFs
and the matrix they sum to is symmetric, the projection succeeds and the
matrix summed from the projected triplets is symmetric, at every pair of
indices. -/
theorem projectMatrix_symmetric (keepDOFs : List Bool) (mat : List Triplet)
    (hin : ∀ t ∈ mat, t.inRange keepDOFs.length keepDOFs.length)
    (hsym : ∀ r c : Int, sumAt mat r c = sumAt mat c r) :
    ∃ out, (Projection.ctor keepDOFs).projectMatrix mat = some out
      ∧ ∀ a b : Int, sumAt out a b = sumAt out b a := by
  obtain ⟨out, ho, _⟩ := projectMatrix_entries keepDOFs mat hin
  refine ⟨out, ho, ?_⟩
  intro a b
  by_cases hab : (0 ≤ a ∧ a < (Projection.ctor keepDOFs).projDOFs)
      ∧ (0 ≤ b ∧ b < (Projection.ctor keepDOFs).projDOFs)
  · obtain ⟨⟨a0, a1⟩, ⟨b0, b1⟩⟩ := hab
    have ha : a.toNat < (invdofmapOf keepDOFs 0).length := by
      simp only [Projection.projDOFs, ctor_invdofmap] at a1
      omega
    have hb : b.toNat < (invdofmapOf keepDOFs 0).length := by
      simp only [Projection.projDOFs, ctor_invdofmap] at b1
      omega
    have hia := List.getElem?_eq_getElem ha
    have hib := List.getElem?_eq_getElem hb
    have ho' : projectMatrixLoop (dofmapOf keepDOFs 0) mat = some out := by
      simpa [Projection.projectMatrix, ctor_dofmap] using ho
    have e1 := projectMatrixLoop_sumAt keepDOFs _ _ _ _ hia hib mat out hin ho'
    have e2 := projectMatrixLoop_sumAt keepDOFs _ _ _ _ hib hia mat out hin ho'
    have ea : ((a.toNat : Nat) : Int) = a := Int.toNat_of_nonneg a0
    have eb : ((b.toNat : Nat) : Int) = b := Int.toNat_of_nonneg b0
    rw [ea, eb] at e1 e2
    rw [e1, e2]
    exact hsym _ _
  · rw [projectMatrix_outside keepDOFs mat out hin ho a b hab,
      projectMatrix_outside keepDOFs mat out hin ho b a (fun h => hab ⟨h.2, h.1⟩)]

theorem sumAt_symm_pair (i j : Int) (v : ℚ) (ts : List Triplet)
    (h : ∀ r c : Int, sumAt ts r c = sumAt ts c r) (r c : Int) :
    sumAt (⟨i, j, v⟩ :: ⟨j, i, v⟩ :: ts) r c = sumAt (⟨i, j, v⟩ :: ⟨j, i, v⟩ :: ts) c r := by
  simp only [sumAt_cons]
  rw [h r c, if_congr (and_comm (a := i = c) (b := j = r)) rfl rfl,
    if_congr (and_comm (a := j = c) (b := i = r)) rfl rfl]
  ring

theorem sumAt_symm_diag (i : Int) (v : ℚ) (ts : List Triplet)
    (h : ∀ r c : Int, sumAt ts r c = sumAt ts c r) (r c : Int) :
    sumAt (⟨i, i, v⟩ :: ts) r c = sumAt (⟨i, i, v⟩ :: ts) c r := by
  simp only [sumAt_cons]
  rw [h r c, if_congr (and_comm (a := i = c) (b := i = r)) rfl rfl]

/-- A symmetric matrix on three DOFs, the middle one clamped: the off-diagonal
pair `(0, 2)`, `(2, 0)` survives, the pair through the clamped DOF and the
clamped diagonal entry become zero-valued triplets at `(0, 0)`. -/
theorem projectMatrix_symmetric_witness :
    ∃ out, (Projection.ctor [true, false, true]).projectMatrix
        [⟨0, 2, 5⟩, ⟨2, 0, 5⟩, ⟨0, 1, 3⟩, ⟨1, 0, 3⟩, ⟨1, 1, 7⟩] = some out
      ∧ ∀ a b : Int, sumAt out a b = sumAt out b a :=
  projectMatrix_symmetric [true, false, true]
    [⟨0, 2, 5⟩, ⟨2, 0, 5⟩, ⟨0, 1, 3⟩, ⟨1, 0, 3⟩, ⟨1, 1, 7⟩] (by decide)
    (sumAt_symm_pair 0 2 5 _ (sumAt_symm_pair 0 1 3 _
      (sumAt_symm_diag 1 7 [] (fun _ _ => rfl))))

end ThinShells
